import Mathlib

/-!
# Verification of the enoki-jit SSA / trace-builder core (`src/ssa.cpp`)

This file gives a shallow embedding of the variable table, reference
counting, CSE table, trace-append operations, and the pending ("todo")
sets of `src/ssa.cpp`, together with the parts of `src/src/init.cpp`
(stream selection, initial state) that the properties under study need.

Modelling conventions:
* C++ `uint32_t` ids and `size_t` sizes are `Nat` (ids are allocated from a
  monotone counter and never overflow in any scenario considered here).
* Pointers are model addresses of type `Nat`; a nullable pointer is
  `Option Nat` with `none` for `nullptr`.
* `jit_raise` produces a recoverable error and `jit_fail` a fatal one
  (`JitErr.raise` / `JitErr.fatal`).  The repository snapshot does not
  contain `log.h`; this split is modelled from the spec, which states that
  recoverable errors "propagate to the caller as a jit error" while
  "unrecoverable errors terminate the process after flushing logs", and
  which classifies failures such as "a dep not found while decrementing"
  (a `jit_fail` call site) as fatal.
* The hash tables `state.variables`, `state.variable_from_key`,
  `state.variable_from_ptr` and the per-stream `todo` sets are association
  lists / lists; `try_emplace` is lookup-then-cons.
* The `#if defined(ENOKI_CUDA)` blocks of `ssa.cpp` (the `.ftz` statement
  rewriting at lines 151-157 and the scatter `extra_dep` pinning at lines
  386-391) are conditional on a macro whose definition is not part of the
  source snapshot; they are not included in the embedding.  The `extra_dep`
  field and its treatment by `jit_var_free` (lines 60, 85) are modelled.
* Strings returned by `strdup` are modelled as the same `Option String`
  value (heap ownership is irrelevant to the properties considered).
-/

namespace EnokiJit

/-- Variable types supported by the JIT compiler (`EnokiType` in the C++
sources; the constructor list follows `enum class VarType` in
`include/enoki/jit.h`). -/
inductive EnokiType where
  | Invalid | Int8 | UInt8 | Int16 | UInt16 | Int32 | UInt32
  | Int64 | UInt64 | Float16 | Float32 | Float64 | Bool | Pointer
deriving DecidableEq, Repr

/-- Recoverable (`raise`) versus fatal (`fatal`) error outcomes.  A fatal
error models `jit_fail`, which terminates the process. -/
inductive JitErr where
  | raise (msg : String)
  | fatal (msg : String)
deriving DecidableEq, Repr

/-- Decidable equality of results, for concrete-scenario checking. -/
instance exceptDecEq {ε α : Type} [DecidableEq ε] [DecidableEq α] :
    DecidableEq (Except ε α) := fun a b =>
  match a, b with
  | .error e, .error f =>
    if h : e = f then .isTrue (by rw [h]) else .isFalse (by intro hh; cases hh; exact h rfl)
  | .ok x, .ok y =>
    if h : x = y then .isTrue (by rw [h]) else .isFalse (by intro hh; cases hh; exact h rfl)
  | .error _, .ok _ => .isFalse (by intro hh; cases hh)
  | .ok _, .error _ => .isFalse (by intro hh; cases hh)

/-- Whether a result is a fatal error (the process would have terminated). -/
def isFatalResult {α : Type} : Except JitErr α → Bool
  | .error (.fatal _) => true
  | _ => false

/-- Whether a result is a recoverable jit error (`jit_raise`). -/
def isRaiseResult {α : Type} : Except JitErr α → Bool
  | .error (.raise _) => true
  | _ => false

/-- Return the size of a given variable type (`jit_type_size`,
`src/ssa.cpp` lines 7-23).  The `default` branch calls `jit_fail`. -/
def jit_type_size (type : EnokiType) : Except JitErr Nat :=
  match type with
  | .UInt8 | .Int8 | .Bool => .ok 1
  | .UInt16 | .Int16 => .ok 2
  | .UInt32 | .Int32 | .Float32 => .ok 4
  | .UInt64 | .Int64 | .Pointer | .Float64 => .ok 8
  | _ => .error (.fatal "jit_type_size(): invalid type!")

/-- Return the readable name for the given variable type (`jit_type_name`,
`src/ssa.cpp` lines 26-43). -/
def jit_type_name (type : EnokiType) : Except JitErr String :=
  match type with
  | .Int8 => .ok "i8 "
  | .UInt8 => .ok "u8 "
  | .Int16 => .ok "i16"
  | .UInt16 => .ok "u16"
  | .Int32 => .ok "i32"
  | .UInt32 => .ok "u32"
  | .Int64 => .ok "i64"
  | .UInt64 => .ok "u64"
  | .Float16 => .ok "f16"
  | .Float32 => .ok "f32"
  | .Float64 => .ok "f64"
  | .Bool => .ok "msk"
  | .Pointer => .ok "ptr"
  | .Invalid => .error (.fatal "jit_type_name(): invalid type!")

/-- A node of the variable graph (`struct Variable`; the defining header
`ssa.h` is not part of the source snapshot, so the field list and the
zero-initialised defaults are modelled from the spec, section 3
"Data model", and from every use in `src/ssa.cpp`). -/
structure Variable where
  type : EnokiType := .Invalid
  size : Nat := 0
  stmt : Option String := none
  dep0 : Nat := 0
  dep1 : Nat := 0
  dep2 : Nat := 0
  extra_dep : Nat := 0
  data : Option Nat := none
  tsize : Nat := 0
  ref_count_ext : Nat := 0
  ref_count_int : Nat := 0
  free_variable : Bool := false
  direct_pointer : Bool := false
  side_effect : Bool := false
  dirty : Bool := false
  label : Option String := none
deriving DecidableEq, Repr

/-- Modelled from the spec: the CSE key (`struct VariableKey`, defined in
the missing header `ssa.h`).  Section 3 of the spec gives the tuple as
"(backend, type, stmt, deps, size)"; the snapshot is a single-backend
build, so the key is (type, stmt, deps, size). -/
structure VariableKey where
  type : EnokiType
  stmt : Option String
  dep0 : Nat
  dep1 : Nat
  dep2 : Nat
  size : Nat
deriving DecidableEq, Repr

/-- The key of a variable (`VariableKey key(v)`). -/
def keyOfVar (v : Variable) : VariableKey :=
  ⟨v.type, v.stmt, v.dep0, v.dep1, v.dep2, v.size⟩

/-- Reference-count field updates applied through a `Variable *`. -/
def incExtF (w : Variable) : Variable := { w with ref_count_ext := w.ref_count_ext + 1 }

/-- Internal-count increment. -/
def incIntF (w : Variable) : Variable := { w with ref_count_int := w.ref_count_int + 1 }

/-- External-count decrement. -/
def decExtF (w : Variable) : Variable := { w with ref_count_ext := w.ref_count_ext - 1 }

/-- Internal-count decrement. -/
def decIntF (w : Variable) : Variable := { w with ref_count_int := w.ref_count_int - 1 }

/-- Modelled from the spec: the in-place effect of evaluation on a pending
root `i` (spec section 4.3, post-launch): install a buffer as `data` with
`free_variable = true`, clear `stmt`, drop the dependency ids, release the
`extra_dep` pin, clear `dirty`. -/
def materializeF (i : Nat) (w : Variable) : Variable :=
  { w with data := some (i + 1), free_variable := true, stmt := none,
           dep0 := 0, dep1 := 0, dep2 := 0, extra_dep := 0, dirty := false }

/-- Association-list lookup (first matching key). -/
def alookup {α β : Type} [DecidableEq α] : List (α × β) → α → Option β
  | [], _ => none
  | (k, v) :: rest, a => if k = a then some v else alookup rest a

/-- Association-list erase (all entries with the given key). -/
def aerase {α β : Type} [DecidableEq α] (l : List (α × β)) (a : α) : List (α × β) :=
  l.filter (fun p => p.1 ≠ a)

/-- Association-list pointwise update of the value stored at a key
(models mutation through a `Variable *`; no entry is added). -/
def aupdate {α β : Type} [DecidableEq α] (l : List (α × β)) (a : α) (f : β → β) :
    List (α × β) :=
  l.map (fun p => if p.1 = a then (p.1, f p.2) else p)

/-- Association-list overwrite (`map[k] = v`). -/
def ainsert {α β : Type} [DecidableEq α] (l : List (α × β)) (a : α) (b : β) :
    List (α × β) :=
  (a, b) :: aerase l a

/-- Set-like insertion into a todo list (`tsl::robin_set::insert`). -/
def todoInsert (l : List Nat) (i : Nat) : List Nat :=
  if i ∈ l then l else l ++ [i]

/-- Set-like erase from a todo list (`tsl::robin_set::erase`). -/
def todoErase (l : List Nat) (i : Nat) : List Nat :=
  l.filter (fun j => j ≠ i)

/-- The shared JIT state (the parts of `struct State` that `ssa.cpp`
touches, plus the active-stream thread-local of `init.cpp` and an
invocation counter for `jit_eval`).  `variable_index` starts at 1
(`src/src/init.cpp` line 147: `state.variable_index = 1`), so id 0 is
never allocated.  Streams are modelled by their integer id together with
their `todo` set. -/
structure State where
  vars : List (Nat × Variable) := []
  variable_from_key : List (VariableKey × Nat) := []
  variable_from_ptr : List (Nat × Nat) := []
  streams : List (Nat × List Nat) := []
  activeStream : Option Nat := none
  variable_index : Nat := 1
  evalCount : Nat := 0
deriving DecidableEq, Repr

/-- The state right after `jit_init` (no variables, no streams). -/
def initState : State := {}

/-- External reference count of an id as observed from outside (0 when the
id is not in the variable table). -/
def varExt (s : State) (i : Nat) : Nat :=
  ((alookup s.vars i).map Variable.ref_count_ext).getD 0

/-- Internal reference count of an id (0 when the id is not live). -/
def varInt (s : State) (i : Nat) : Nat :=
  ((alookup s.vars i).map Variable.ref_count_int).getD 0

/-- Size of a live variable as observed from outside (0 when dead). -/
def varSize (s : State) (i : Nat) : Nat :=
  ((alookup s.vars i).map Variable.size).getD 0

/-- The todo (pending) set of a stream (empty when the stream does not
exist). -/
def todoOf (s : State) (sid : Nat) : List Nat :=
  (alookup s.streams sid).getD []

/-- Access a variable by id (`jit_var`, lines 46-51); terminates with a
fatal error if it does not exist. -/
def jitVarLk (s : State) (i : Nat) : Except JitErr Variable :=
  match alookup s.vars i with
  | none => .error (.fatal "jit_var(): unknown variable!")
  | some v => .ok v

/-- Unconditional external-reference increment through a `Variable *`
(`jit_inc_ref_ext(uint32_t, Variable *)`, lines 89-92). -/
def bumpExt (s : State) (i : Nat) : State :=
  { s with vars := aupdate s.vars i incExtF }

/-- Unconditional internal-reference increment through a `Variable *`
(`jit_inc_ref_int(uint32_t, Variable *)`, lines 101-104). -/
def bumpInt (s : State) (i : Nat) : State :=
  { s with vars := aupdate s.vars i incIntF }

/-- Increase the external reference count of a given id
(`jit_inc_ref_ext(uint32_t)`, lines 95-98): a no-op at id 0, fatal if the
id is unknown. -/
def jit_inc_ref_ext (s : State) (i : Nat) : Except JitErr State :=
  if i = 0 then .ok s
  else do
    let _ ← jitVarLk s i
    .ok (bumpExt s i)

/-- Increase the internal reference count of a given id
(`jit_inc_ref_int(uint32_t)`, lines 107-110). -/
def jit_inc_ref_int (s : State) (i : Nat) : Except JitErr State :=
  if i = 0 then .ok s
  else do
    let _ ← jitVarLk s i
    .ok (bumpInt s i)

/-- State after `v->ref_count_int--` on variable `i`. -/
def decIntState (s : State) (i : Nat) : State :=
  { s with vars := aupdate s.vars i decIntF }

/-- State after `v->ref_count_ext--` on variable `i`. -/
def decExtState (s : State) (i : Nat) : State :=
  { s with vars := aupdate s.vars i decExtF }

/-- State after `stream->todo.erase(i)` on stream `sid`. -/
def todoEraseState (s : State) (sid i : Nat) : State :=
  { s with streams := aupdate s.streams sid (fun td => todoErase td i) }

/-- State after the three table erasures of `jit_var_free` (lines 57-79):
the CSE entry at the variable's current key, the pointer-table update `P`,
and the variable-table entry itself. -/
def freeEraseState (s : State) (i : Nat) (v : Variable) (P : List (Nat × Nat)) : State :=
  { s with variable_from_key := aerase s.variable_from_key (keyOfVar v),
           variable_from_ptr := P,
           vars := aerase s.vars i }

/-- Body of `jit_dec_ref_int` (lines 132-145), parameterised by the
cleanup handler used when both reference counts reach zero. -/
def decIntAux (freeRec : State → Nat → Except JitErr State) (s : State) (i : Nat) :
    Except JitErr State :=
  if i = 0 ∨ s.vars = [] then .ok s
  else
    match alookup s.vars i with
    | none => .error (.fatal "jit_var(): unknown variable!")
    | some v =>
      if v.ref_count_int = 0 then
        .error (.fatal "jit_dec_ref_int(): variable has no internal references!")
      else
        -- v->ref_count_int--; the zero test below is on the decremented counts
        if v.ref_count_ext = 0 ∧ v.ref_count_int - 1 = 0 then
          freeRec (decIntState s i) i
        else .ok (decIntState s i)

/-- Body of `jit_dec_ref_ext` (lines 113-129), parameterised by the
cleanup handler.  When the external count reaches zero the id is erased
from the todo set of the stream `active_stream` points at; when no stream
is active the C++ code dereferences a null pointer, modelled as a fatal
outcome. -/
def decExtAux (freeRec : State → Nat → Except JitErr State) (s : State) (i : Nat) :
    Except JitErr State :=
  if i = 0 ∨ s.vars = [] then .ok s
  else
    match alookup s.vars i with
    | none => .error (.fatal "jit_var(): unknown variable!")
    | some v =>
      if v.ref_count_ext = 0 then
        .error (.fatal "jit_dec_ref_ext(): variable has no external references!")
      else
        -- v->ref_count_ext--; the zero tests below are on the decremented counts
        (if v.ref_count_ext - 1 = 0 then
          match s.activeStream with
          | none => .error (.fatal "null active_stream dereference in jit_dec_ref_ext")
          | some sid => .ok (todoEraseState (decExtState s i) sid i)
         else .ok (decExtState s i)) >>= fun s2 =>
        if v.ref_count_ext - 1 = 0 ∧ v.ref_count_int = 0 then freeRec s2 i
        else .ok s2

/-- Cleanup handler `jit_var_free` (lines 54-86), fuel-indexed because
releasing the dependencies can cascade into further frees.  The fuel is a
modelling device only: every recursive step removes one variable from the
table, so any fuel larger than the table size behaves like the C++
recursion. -/
def freeVar : Nat → State → Nat → Except JitErr State
  | 0, _, _ => .error (.fatal "model: free-cascade fuel exhausted")
  | fuel + 1, s, i =>
    match alookup s.vars i with
    | none => .error (.fatal "jit_var(): unknown variable!")
    | some v =>
      -- direct-pointer side table handling (lines 71-76); the erasure of
      -- the CSE entry and of the table entries commutes with this check
      (if v.direct_pointer then
        match alookup s.variable_from_ptr (v.data.getD 0) with
        | none => .error (.fatal "jit_var_free(): direct pointer not found!")
        | some _ => .ok (aerase s.variable_from_ptr (v.data.getD 0))
       else .ok s.variable_from_ptr) >>= fun P =>
      -- decrease reference counts of dependencies (lines 82-85)
      decIntAux (freeVar fuel) (freeEraseState s i v P) v.dep0 >>= fun s4 =>
      decIntAux (freeVar fuel) s4 v.dep1 >>= fun s5 =>
      decIntAux (freeVar fuel) s5 v.dep2 >>= fun s6 =>
      decExtAux (freeVar fuel) s6 v.extra_dep

/-- Fuel that certainly covers any free cascade in `s`. -/
def freeFuel (s : State) : Nat := s.vars.length + 1

/-- Decrease the external reference count of a given variable
(`jit_dec_ref_ext`, lines 113-129). -/
def jit_dec_ref_ext (s : State) (i : Nat) : Except JitErr State :=
  decExtAux (freeVar (freeFuel s)) s i

/-- Decrease the internal reference count of a given variable
(`jit_dec_ref_int`, lines 132-145). -/
def jit_dec_ref_int (s : State) (i : Nat) : Except JitErr State :=
  decIntAux (freeVar (freeFuel s)) s i

/-- Append a variable record to the instruction trace and return its id
(`jit_trace_append(Variable &)`, lines 148-180).  `try_emplace` on the
CSE table either reuses the existing id (freeing the tentative statement
copy) or inserts the tentative node under the next fresh id. -/
def traceAppendVar (s : State) (v : Variable) : Except JitErr (Nat × State) :=
  match alookup s.variable_from_key (keyOfVar v) with
  | some idx =>
    -- key_inserted == false: free the tentative stmt, look up the node
    (jitVarLk s idx).map (fun _ => (idx, s))
  | none =>
    match alookup s.vars s.variable_index with
    | some _ => .error (.fatal "jit_trace_append(): could not append instruction!")
    | none =>
      .ok (s.variable_index, { s with
        vars := (s.variable_index, v) :: s.vars,
        variable_from_key := (keyOfVar v, s.variable_index) :: s.variable_from_key,
        variable_index := s.variable_index + 1 })

/-- Insert an id into the todo set of a stream (`stream->todo.insert`). -/
def pushTodo (s : State) (sid : Nat) (i : Nat) : State :=
  { s with streams := aupdate s.streams sid (fun td => todoInsert td i) }

/-- The common tail of every `jit_trace_append` wrapper: offer the
tentative node to the CSE core, bump the external count of the resulting
id (`jit_inc_ref_ext(idx, vo)`), and insert it into the active stream's
todo set. -/
def appendCommit (s2 : State) (v : Variable) (sid : Nat) :
    Except JitErr (Nat × State) :=
  traceAppendVar s2 v >>= fun (idx, s3) =>
  .ok (idx, pushTodo (bumpExt s3 idx) sid idx)

/-- Modelled from the spec: the state change of materializing pending
root `i`: the node is rewritten by `materializeF` and, being no longer
CSE-eligible, its CSE entries are dropped. -/
def materializeState (s : State) (i : Nat) : State :=
  { s with vars := aupdate s.vars i (materializeF i),
           variable_from_key := s.variable_from_key.filter (fun p => p.2 ≠ i) }

/-- Modelled from the spec: `jit_eval()` (the evaluation engine lives in
`eval.cpp`, which is not part of the source snapshot).  Spec section 4.3:
evaluation walks the pending roots of the current stream; for each root it
allocates a buffer and installs it as `data` with `free_variable = true`,
clears `stmt` ("no longer needed for CSE; once materialized the node is no
longer CSE-eligible", modelled by dropping the node's CSE entries), drops
the internal references on its operands, removes it from the pending set,
and clears `dirty` on the affected nodes; `var_eval` is a no-op on a node
whose data is already materialized.  Spec section 3: `extra_dep` is "kept
alive until this variable is evaluated or freed", so its external
reference is dropped as well.  The model address installed for root `i` is
`i + 1`. -/
def evalVarStep (fuel : Nat) (s : State) (i : Nat) : Except JitErr State :=
  match alookup s.vars i with
  | none => .ok s
  | some v =>
    if v.data ≠ none then .ok s
    else
      decIntAux (freeVar fuel) (materializeState s i) v.dep0 >>= fun s2 =>
      decIntAux (freeVar fuel) s2 v.dep1 >>= fun s3 =>
      decIntAux (freeVar fuel) s3 v.dep2 >>= fun s4 =>
      decExtAux (freeVar fuel) s4 v.extra_dep

/-- Modelled from the spec: evaluation of a list of pending roots in
order. -/
def evalLoop (fuel : Nat) : State → List Nat → Except JitErr State
  | s, [] => .ok s
  | s, i :: rest => evalVarStep fuel s i >>= fun s1 => evalLoop fuel s1 rest

/-- Clearing the dirty flag of a node after evaluation. -/
def clearDirtyF (w : Variable) : Variable := { w with dirty := false }

/-- State with one stream's pending set emptied. -/
def clearTodoState (s : State) (sid : Nat) : State :=
  { s with streams := aupdate s.streams sid (fun _ => []) }

/-- Modelled from the spec: the epilogue of an evaluation pass; `dirty` is
cleared on the affected nodes (spec section 4.3, "Upon completion, clear
dirty on all affected nodes") and the invocation is counted. -/
def evalEpilogue (s : State) : State :=
  { s with vars := s.vars.map (fun p => (p.1, clearDirtyF p.2)),
           evalCount := s.evalCount + 1 }

/-- Modelled from the spec: the working part of `jit_eval()`: process and
then empty the pending set of the active stream. -/
def jit_eval_core (s : State) : Except JitErr State :=
  match s.activeStream with
  | none => .ok s
  | some sid =>
    match alookup s.streams sid with
    | none => .ok s
    | some todo =>
      (evalLoop (freeFuel s) s todo).map (fun s1 => clearTodoState s1 sid)

/-- Modelled from the spec: `jit_eval()`.  Processes the pending set of
the active stream, empties it, clears `dirty` everywhere, and counts the
invocation. -/
def jit_eval (s : State) : Except JitErr State :=
  (jit_eval_core s).map evalEpilogue

/-- Append a variable to the instruction trace, no operands
(`jit_trace_append(uint32_t, const char *)`, lines 232-253). -/
def jit_trace_append0 (s : State) (type : EnokiType) (stmt : String) :
    Except JitErr (Nat × State) :=
  match s.activeStream with
  | none => .error (.raise "jit_trace_append(): device and stream must be set!")
  | some sid =>
    appendCommit s { type := type, size := 1, stmt := some stmt, tsize := 1 } sid

/-- Append a variable to the instruction trace, one operand
(`jit_trace_append(uint32_t, const char *, uint32_t)`, lines 256-292). -/
def jit_trace_append1 (s : State) (type : EnokiType) (stmt : String) (a1 : Nat) :
    Except JitErr (Nat × State) :=
  match s.activeStream with
  | none => .error (.raise "jit_trace_append(): device and stream must be set!")
  | some sid =>
    if a1 = 0 then
      .error (.raise "jit_trace_append(): arithmetic involving uninitialized variable!")
    else
      jitVarLk s a1 >>= fun v1 =>
      (if v1.dirty then
        jit_eval s >>= fun s1 =>
        (jitVarLk s1 a1).map (fun _ =>
          (s1, ({ type := type, size := v1.size, stmt := some stmt,
                  dep0 := a1, tsize := 2 } : Variable)))
       else
        .ok (s, ({ type := type, size := v1.size, stmt := some stmt,
                   dep0 := a1, tsize := 1 + v1.tsize } : Variable))) >>=
      fun (s1, v) => appendCommit (bumpInt s1 a1) v sid

/-- Append a variable to the instruction trace, two operands
(`jit_trace_append(uint32_t, const char *, uint32_t, uint32_t)`,
lines 295-341). -/
def jit_trace_append2 (s : State) (type : EnokiType) (stmt : String)
    (a1 a2 : Nat) : Except JitErr (Nat × State) :=
  match s.activeStream with
  | none => .error (.raise "jit_trace_append(): device and stream must be set!")
  | some sid =>
    if a1 = 0 ∨ a2 = 0 then
      .error (.raise "jit_trace_append(): arithmetic involving uninitialized variable!")
    else
      jitVarLk s a1 >>= fun v1 =>
      jitVarLk s a2 >>= fun v2 =>
      (if (v1.size ≠ 1 ∧ v1.size ≠ max v1.size v2.size) ∨
          (v2.size ≠ 1 ∧ v2.size ≠ max v1.size v2.size) then
        .error (.raise "jit_trace_append(): arithmetic involving arrays of incompatible size")
       else if v1.dirty ∨ v2.dirty then
        jit_eval s >>= fun s1 =>
        jitVarLk s1 a1 >>= fun _ =>
        (jitVarLk s1 a2).map (fun _ =>
          (s1, ({ type := type, size := max v1.size v2.size, stmt := some stmt,
                  dep0 := a1, dep1 := a2, tsize := 3 } : Variable)))
       else
        .ok (s, ({ type := type, size := max v1.size v2.size, stmt := some stmt,
                   dep0 := a1, dep1 := a2,
                   tsize := 1 + v1.tsize + v2.tsize } : Variable))) >>=
      fun (s1, v) => appendCommit (bumpInt (bumpInt s1 a1) a2) v sid

/-- Append a variable to the instruction trace, three operands
(`jit_trace_append(uint32_t, const char *, uint32_t, uint32_t, uint32_t)`,
lines 344-402; the `ENOKI_CUDA` scatter block at lines 386-391 is not
part of the modelled build). -/
def jit_trace_append3 (s : State) (type : EnokiType) (stmt : String)
    (a1 a2 a3 : Nat) : Except JitErr (Nat × State) :=
  match s.activeStream with
  | none => .error (.raise "jit_trace_append(): device and stream must be set!")
  | some sid =>
    if a1 = 0 ∨ a2 = 0 ∨ a3 = 0 then
      .error (.raise "jit_trace_append(): arithmetic involving uninitialized variable!")
    else
      jitVarLk s a1 >>= fun v1 =>
      jitVarLk s a2 >>= fun v2 =>
      jitVarLk s a3 >>= fun v3 =>
      (if (v1.size ≠ 1 ∧ v1.size ≠ max (max v1.size v2.size) v3.size) ∨
          (v2.size ≠ 1 ∧ v2.size ≠ max (max v1.size v2.size) v3.size) ∨
          (v3.size ≠ 1 ∧ v3.size ≠ max (max v1.size v2.size) v3.size) then
        .error (.raise "jit_trace_append(): arithmetic involving arrays of incompatible size")
       else if v1.dirty ∨ v2.dirty ∨ v3.dirty then
        jit_eval s >>= fun s1 =>
        jitVarLk s1 a1 >>= fun _ =>
        jitVarLk s1 a2 >>= fun _ =>
        (jitVarLk s1 a3).map (fun _ =>
          (s1, ({ type := type, size := max (max v1.size v2.size) v3.size,
                  stmt := some stmt, dep0 := a1, dep1 := a2, dep2 := a3,
                  tsize := 4 } : Variable)))
       else
        .ok (s, ({ type := type, size := max (max v1.size v2.size) v3.size,
                   stmt := some stmt, dep0 := a1, dep1 := a2, dep2 := a3,
                   tsize := 1 + v1.tsize + v2.tsize + v3.tsize } : Variable))) >>=
      fun (s1, v) => appendCommit (bumpInt (bumpInt (bumpInt s1 a1) a2) a3) v sid

/-- Register an existing memory region as a variable
(`jit_var_register`, lines 405-424). -/
def jit_var_register (s : State) (type : EnokiType) (ptr : Option Nat)
    (size : Nat) (free : Bool) : Except JitErr (Nat × State) :=
  if size = 0 then .error (.raise "jit_var_register: size must be > 0!")
  else
    let v : Variable := { type := type, data := ptr, size := size,
                          free_variable := free, tsize := 1 }
    traceAppendVar s v >>= fun (idx, s1) =>
    .ok (idx, bumpExt s1 idx)

/-- Register a pointer literal as a special variable
(`jit_var_register_ptr`, lines 427-449). -/
def jit_var_register_ptr (s : State) (ptr : Nat) : Except JitErr (Nat × State) :=
  match alookup s.variable_from_ptr ptr with
  | some idx =>
    (jit_inc_ref_ext s idx).map (fun s1 => (idx, s1))
  | none =>
    let v : Variable := { type := .Pointer, data := some ptr, size := 1, tsize := 0,
                          free_variable := false, direct_pointer := true }
    traceAppendVar s v >>= fun (idx, s1) =>
    let s2 := bumpExt s1 idx
    .ok (idx, { s2 with variable_from_ptr := ainsert s2.variable_from_ptr ptr idx })

/-- The in-place resize of a live unevaluated variable
(`var->size = (uint32_t) size` at line 214). -/
def inPlaceResize (s : State) (i size : Nat) : State :=
  { s with vars := aupdate s.vars i (fun w => { w with size := size }) }

/-- Set the size of a given variable if possible, otherwise throw
(`jit_var_set_size`, lines 193-216). -/
def jit_var_set_size (s : State) (i : Nat) (size : Nat) (copy : Bool) :
    Except JitErr (Nat × State) :=
  jitVarLk s i >>= fun v =>
  if v.size = size then .ok (i, s)
  else if v.data ≠ none ∨ 0 < v.ref_count_int then
    (if v.size = 1 ∧ copy then
      jit_trace_append1 s v.type "mov.$t1 $r1, $r2" i >>= fun (idxNew, s1) =>
      let s2 := { s1 with
        vars := aupdate s1.vars idxNew (fun w => { w with size := size }) }
      (jit_dec_ref_ext s2 i).map (fun s3 => (idxNew, s3))
     else
      .error (.raise "cuda_var_set_size(): attempted to resize variable which was already allocated"))
  else
    .ok (i, { s with vars := aupdate s.vars i (fun w => { w with size := size }) })

/-- Assign a descriptive label (`jit_var_set_label`, lines 224-229). -/
def jit_var_set_label (s : State) (i : Nat) (label : String) :
    Except JitErr State :=
  (jitVarLk s i).map (fun _ =>
    { s with vars := aupdate s.vars i (fun v => { v with label := some label }) })

/-- Mark a variable as having side effects (`jit_var_mark_side_effect`,
lines 492-495). -/
def jit_var_mark_side_effect (s : State) (i : Nat) : Except JitErr State :=
  (jitVarLk s i).map (fun _ =>
    { s with vars := aupdate s.vars i (fun v => { v with side_effect := true }) })

/-- Mark a variable as dirty (`jit_var_mark_dirty`, lines 497-500). -/
def jit_var_mark_dirty (s : State) (i : Nat) : Except JitErr State :=
  (jitVarLk s i).map (fun _ =>
    { s with vars := aupdate s.vars i (fun v => { v with dirty := true }) })

/-- Select the active device and stream (`jit_device_set`,
`src/src/init.cpp` lines 246-297, reduced to its stream-table effect:
device validity checks and driver calls are outside the modelled state). -/
def jit_device_set (s : State) (sid : Nat) : Except JitErr State :=
  match alookup s.streams sid with
  | some _ => .ok { s with activeStream := some sid }
  | none => .ok { s with streams := ainsert s.streams sid [],
                         activeStream := some sid }

/-- The operations of the modelled API surface, used to define the set of
reachable states. -/
inductive Op where
  | append0 (type : EnokiType) (stmt : String)
  | append1 (type : EnokiType) (stmt : String) (a1 : Nat)
  | append2 (type : EnokiType) (stmt : String) (a1 a2 : Nat)
  | append3 (type : EnokiType) (stmt : String) (a1 a2 a3 : Nat)
  | register (type : EnokiType) (ptr : Option Nat) (size : Nat) (free : Bool)
  | registerPtr (ptr : Nat)
  | setSize (i size : Nat) (copy : Bool)
  | setLabel (i : Nat) (label : String)
  | markSideEffect (i : Nat)
  | markDirty (i : Nat)
  | incRefExt (i : Nat)
  | decRefExt (i : Nat)
  | evalOp
  | deviceSet (sid : Nat)
deriving DecidableEq, Repr

/-- One step of the modelled API (return values discarded). -/
def stepOp (s : State) : Op → Except JitErr State
  | .append0 t st => (jit_trace_append0 s t st).map Prod.snd
  | .append1 t st a1 => (jit_trace_append1 s t st a1).map Prod.snd
  | .append2 t st a1 a2 => (jit_trace_append2 s t st a1 a2).map Prod.snd
  | .append3 t st a1 a2 a3 => (jit_trace_append3 s t st a1 a2 a3).map Prod.snd
  | .register t p sz fr => (jit_var_register s t p sz fr).map Prod.snd
  | .registerPtr p => (jit_var_register_ptr s p).map Prod.snd
  | .setSize i sz c => (jit_var_set_size s i sz c).map Prod.snd
  | .setLabel i l => jit_var_set_label s i l
  | .markSideEffect i => jit_var_mark_side_effect s i
  | .markDirty i => jit_var_mark_dirty s i
  | .incRefExt i => jit_inc_ref_ext s i
  | .decRefExt i => jit_dec_ref_ext s i
  | .evalOp => jit_eval s
  | .deviceSet sid => jit_device_set s sid

/-- States reachable from `initState` through successful API calls
(a recoverable error leaves the state unchanged, a fatal error ends the
process, so error steps contribute no new states). -/
inductive Reach : State → Prop where
  | init : Reach initState
  | step {s s' : State} {o : Op} : Reach s → stepOp s o = .ok s' → Reach s'

/-- Whether an operation keeps the execution on the single stream 0. -/
def singleStreamOp : Op → Bool
  | .deviceSet sid => sid = 0
  | _ => true

/-- States reachable through successful API calls that only ever select
stream 0 (single-stream executions). -/
inductive ReachSS : State → Prop where
  | init : ReachSS initState
  | step {s s' : State} {o : Op} : ReachSS s → singleStreamOp o = true →
      stepOp s o = .ok s' → ReachSS s'

/-- Run a list of operations from a state, stopping at the first error. -/
def runOps : State → List Op → Except JitErr State
  | s, [] => .ok s
  | s, o :: rest => stepOp s o >>= fun s1 => runOps s1 rest

/-! ## State invariants -/

/-- No live variable pins an `extra_dep` (always true in the modelled
build, where the scatter-pinning block is not compiled in and nothing
else writes the field). -/
def NoExtraDep (s : State) : Prop := ∀ p ∈ s.vars, p.2.extra_dep = 0

/-- Every live id is below the allocation counter. -/
def IdxBound (s : State) : Prop := ∀ p ∈ s.vars, p.1 < s.variable_index

/-- Every CSE-table entry maps to a live variable whose current tuple is
the entry's key (in-place size changes can break this). -/
def KeyConsistent (s : State) : Prop :=
  ∀ p ∈ s.variable_from_key, (alookup s.vars p.2).map keyOfVar = some p.1

/-- The CSE table holds at most one entry per tuple. -/
def KeyNodup (s : State) : Prop := (s.variable_from_key.map Prod.fst).Nodup

/-- The variable table holds at most one entry per id. -/
def VarsNodup (s : State) : Prop := (s.vars.map Prod.fst).Nodup

/-- The active stream, if any, exists in the stream table. -/
def StreamOK (s : State) : Prop :=
  ∀ sid ∈ s.activeStream.toList, (alookup s.streams sid).isSome = true

/-- At most one live pointer-literal (direct pointer) variable per
address. -/
def UniqDirect (s : State) : Prop :=
  ∀ p ∈ s.vars, ∀ q ∈ s.vars, p.2.direct_pointer = true →
    q.2.direct_pointer = true → p.2.data = q.2.data → p.1 = q.1

/-- Every live pointer-literal variable owns the pointer-table entry of
its own address. -/
def PtrTableOwn (s : State) : Prop :=
  ∀ p ∈ s.vars, p.2.direct_pointer = true →
    alookup s.variable_from_ptr (p.2.data.getD 0) = some p.1

/-- Pointer-literal variables carry an address. -/
def DirectDataSome (s : State) : Prop :=
  ∀ p ∈ s.vars, p.2.direct_pointer = true → p.2.data ≠ none

/-- The pointer-registry invariant package. -/
def PtrInv (s : State) : Prop := UniqDirect s ∧ PtrTableOwn s ∧ DirectDataSome s

/-- Every id in any stream's pending set is live with a positive external
reference count. -/
def TodoInv (s : State) : Prop :=
  ∀ q ∈ s.streams, ∀ i ∈ q.2, 0 < varExt s i

/-- The execution only ever touched stream 0. -/
def SingleStream (s : State) : Prop :=
  (∀ q ∈ s.streams, q.1 = 0) ∧ (∀ sid ∈ s.activeStream.toList, sid = 0)

/-- The inductive invariant behind the pending-set claim: no extra-dep
pins, a single stream, and every pending id live with a positive external
count. -/
def C6Inv (s : State) : Prop := NoExtraDep s ∧ SingleStream s ∧ TodoInv s

/-- The inductive invariant behind the CSE-table and pointer-registry
claims: no extra-dep pins, duplicate-free variable and CSE tables, the
pointer-registry package, a positive allocation counter, and no table
entry naming the reserved id 0. -/
structure RInv (s : State) : Prop where
  ned : NoExtraDep s
  vnd : VarsNodup s
  pinv : PtrInv s
  knd : KeyNodup s
  ipos : 0 < s.variable_index
  kpos : ∀ p ∈ s.variable_from_key, p.2 ≠ 0
  ppos : ∀ p ∈ s.variable_from_ptr, p.2 ≠ 0

/-! ### Concrete scenario states

Each scenario is a list of API calls run from `initState`; the scenario
state is the (successful) final state, used by witnesses and
counterexamples. -/

/-- Extract the final state of a successful run. -/
def runState (ops : List Op) : State := ((runOps initState ops).toOption).getD initState

/-- A state with stream 0 selected and nothing else. -/
def streamOnlyOps : List Op := [.deviceSet 0]

/-- Scenario state: only stream 0 selected. -/
def streamOnlyState : State := runState streamOnlyOps

/-- Scenario: one fresh append on stream 0. -/
def oneVarOps : List Op := [.deviceSet 0, .append0 .Float32 "a"]

/-- Scenario state of `oneVarOps`. -/
def oneVarState : State := runState oneVarOps

/-- Scenario: one fresh append on stream 0 followed by the drop of its
only external reference. -/
def oneVarFreedOps : List Op := oneVarOps ++ [.decRefExt 1]

/-- Scenario state of `oneVarFreedOps`. -/
def oneVarFreedState : State := runState oneVarFreedOps

/-- Scenario for the stale-CSE size counterexample: two scalars, a
2-operand append over them, then an in-place resize of the result. -/
def staleSizeOps : List Op :=
  [.deviceSet 0, .append0 .Float32 "a", .append0 .Float32 "b",
   .append2 .Float32 "c" 1 2, .setSize 3 5 false]

/-- Scenario state of `staleSizeOps`. -/
def staleSizeState : State := runState staleSizeOps

/-- Scenario for the CSE-duplication counterexample: a registered buffer
with null data, resized in place, then a second registration that
recreates the mutated tuple; finally a registration with concrete data
whose repetition will reuse a materialized node. -/
def dupTupleOps : List Op :=
  [.register .Float32 none 5 false, .setSize 1 9 false,
   .register .Float32 none 9 false, .register .Float32 (some 7) 3 false]

/-- Scenario state of `dupTupleOps`. -/
def dupTupleState : State := runState dupTupleOps

/-- Scenario for the ref-count-underflow counterexample: variable 1 is
kept alive by an internal reference only (external count zero). -/
def underflowOps : List Op :=
  [.deviceSet 0, .append0 .Float32 "a", .append1 .Float32 "b" 1, .decRefExt 1]

/-- Scenario state of `underflowOps`. -/
def underflowState : State := runState underflowOps

/-- Scenario for the pending-set counterexample: variable 1 is appended on
stream 0, then stream 1 is selected and the external reference dropped. -/
def wrongStreamOps : List Op :=
  [.deviceSet 0, .append0 .Float32 "a", .deviceSet 1, .decRefExt 1]

/-- Scenario state of `wrongStreamOps`. -/
def wrongStreamState : State := runState wrongStreamOps

/-- Scenario for the set-size counterexample: a registered scalar with no
data and no internal references. -/
def resizableOps : List Op := [.register .Float32 none 1 false]

/-- Scenario state of `resizableOps`. -/
def resizableState : State := runState resizableOps

/-- Scenario with a dirty variable: variable 1 is appended and marked
dirty. -/
def dirtyVarOps : List Op := [.deviceSet 0, .append0 .Float32 "a", .markDirty 1]

/-- Scenario state of `dirtyVarOps`. -/
def dirtyVarState : State := runState dirtyVarOps

/-- Scenario state after appending on the dirty variable. -/
def dirtyAfterState : State := runState (dirtyVarOps ++ [.append1 .Float32 "b" 1])

/-- Scenario state after appending on a clean variable. -/
def cleanAfterState : State := runState (oneVarOps ++ [.append1 .Float32 "b" 1])

/-- Scenario with two registered buffers of mismatched sizes 5 and 3
(neither 3 = 1 nor 3 = max 5 3), on stream 0. -/
def mixedSizeOps : List Op :=
  [.deviceSet 0, .register .Float32 none 5 false, .register .Float32 none 3 false]

/-- Scenario state of `mixedSizeOps`. -/
def mixedSizeState : State := runState mixedSizeOps

/-- Scenario with two pointer registrations at distinct addresses 7 and
9: the second misses the pointer table but CSE-hits the first node's
tuple, so both addresses map to the single variable 1. -/
def ptrDualOps : List Op := [.deviceSet 0, .registerPtr 7, .registerPtr 9]

/-- Scenario state of `ptrDualOps`. -/
def ptrDualState : State := runState ptrDualOps

/-- Scenario continuing `ptrDualOps` by dropping both external references
of variable 1, freeing it. -/
def ptrCollideOps : List Op := ptrDualOps ++ [.decRefExt 1, .decRefExt 1]

/-- Scenario state of `ptrCollideOps`. -/
def ptrCollideState : State := runState ptrCollideOps

/-- The tentative record of a repeated `jit_trace_append(Float32, "a")`
call, used to probe the CSE table of `oneVarState`. -/
def cseProbeVar : Variable :=
  { type := .Float32, size := 1, stmt := some "a", tsize := 1 }

/-- Scenario with one registered pointer literal at address 7. -/
def onePtrOps : List Op := [.registerPtr 7]

/-- Scenario state of `onePtrOps`. -/
def onePtrState : State := runState onePtrOps

/-- Two variable records that agree on everything except the two
reference counts. -/
def sameShape (v w : Variable) : Prop :=
  w.type = v.type ∧ w.size = v.size ∧ w.stmt = v.stmt ∧ w.dep0 = v.dep0 ∧
  w.dep1 = v.dep1 ∧ w.dep2 = v.dep2 ∧ w.extra_dep = v.extra_dep ∧
  w.data = v.data ∧ w.tsize = v.tsize ∧ w.free_variable = v.free_variable ∧
  w.direct_pointer = v.direct_pointer ∧ w.side_effect = v.side_effect ∧
  w.dirty = v.dirty ∧ w.label = v.label

/-- A variable-record transformer that only touches the reference
counts. -/
def rcOnly (f : Variable → Variable) : Prop := ∀ v, sameShape v (f v)

/-- How a free cascade evolves the state: bookkeeping fields are fixed,
the CSE table only shrinks, and every surviving variable differs from its
old value at most in the two reference counts. -/
structure CascEvo (s s' : State) : Prop where
  active : s'.activeStream = s.activeStream
  index : s'.variable_index = s.variable_index
  evalc : s'.evalCount = s.evalCount
  streamsDom : ∀ sid, (alookup s'.streams sid).isSome = (alookup s.streams sid).isSome
  keySub : List.Sublist s'.variable_from_key s.variable_from_key
  varsSub : List.Sublist (s'.vars.map Prod.fst) (s.vars.map Prod.fst)
  varsSur : ∀ i v', alookup s'.vars i = some v' →
    ∃ v, alookup s.vars i = some v ∧ sameShape v v'

/-- How a free cascade evolves a state with no extra-dep pins: streams are
untouched, variables with external references survive, and external
counts are preserved. -/
structure ExtEvo (s s' : State) : Prop where
  streamsEq : s'.streams = s.streams
  next : NoExtraDep s'
  surv : ∀ i, 0 < varExt s i → (alookup s'.vars i).isSome = true
  back : ∀ i, (alookup s'.vars i).isSome = true →
    (alookup s.vars i).isSome = true ∧ varExt s' i = varExt s i

/-- How `jit_eval` evolves a state with no extra-dep pins, as far as ids,
streams and external counts are concerned. -/
structure EvalEvo (s s' : State) : Prop where
  active : s'.activeStream = s.activeStream
  index : s'.variable_index = s.variable_index
  streamsDom : ∀ sid, (alookup s'.streams sid).isSome = (alookup s.streams sid).isSome
  next : NoExtraDep s'
  surv : ∀ i, 0 < varExt s i → (alookup s'.vars i).isSome = true
  back : ∀ i, (alookup s'.vars i).isSome = true →
    (alookup s.vars i).isSome = true ∧ varExt s' i = varExt s i

/-- Everything a single evaluation step (and, by composition, a whole
evaluation pass before its todo/dirty epilogue) preserves. -/
structure EvalStepEvo (s s' : State) : Prop where
  active : s'.activeStream = s.activeStream
  index : s'.variable_index = s.variable_index
  evalc : s'.evalCount = s.evalCount
  streamsDom : ∀ sid, (alookup s'.streams sid).isSome = (alookup s.streams sid).isSome
  keySub : List.Sublist s'.variable_from_key s.variable_from_key
  varsSub : List.Sublist (s'.vars.map Prod.fst) (s.vars.map Prod.fst)
  kc : KeyConsistent s → KeyConsistent s'
  pinv : VarsNodup s → PtrInv s → PtrInv s'
  ext : NoExtraDep s → ExtEvo s s'

/-- Every conclusion carried through the interior of a free cascade. -/
def CascQ (s s' : State) : Prop :=
  CascEvo s s' ∧ (KeyConsistent s → KeyConsistent s') ∧
  (PtrInv s → PtrInv s') ∧ (NoExtraDep s → ExtEvo s s')

/-- Conclusions of a general external-count decrement (which may change
external counts and the active todo set). -/
def CascR (s s' : State) : Prop :=
  CascEvo s s' ∧ (KeyConsistent s → KeyConsistent s') ∧ (PtrInv s → PtrInv s')

/-- Precondition of `freeVar`: the erased id holds no external
references. -/
def ExtZeroPre (s : State) (i : Nat) : Prop :=
  ∀ v, alookup s.vars i = some v → v.ref_count_ext = 0

/-! ## Association-list lemmas -/

theorem alookup_cons {α β : Type} [DecidableEq α] (b : α) (v : β) (rest : List (α × β))
    (a : α) : alookup ((b, v) :: rest) a = if b = a then some v else alookup rest a := rfl

theorem aerase_cons {α β : Type} [DecidableEq α] (b : α) (v : β) (rest : List (α × β))
    (a : α) : aerase ((b, v) :: rest) a =
      if b = a then aerase rest a else (b, v) :: aerase rest a := by
  by_cases hb : b = a <;> simp [aerase, hb]

theorem aupdate_cons {α β : Type} [DecidableEq α] (b : α) (v : β) (rest : List (α × β))
    (a : α) (f : β → β) : aupdate ((b, v) :: rest) a f =
      (if b = a then (b, f v) else (b, v)) :: aupdate rest a f := by
  by_cases hb : b = a <;> simp [aupdate, hb]

theorem alookup_aerase_ne {α β : Type} [DecidableEq α] {l : List (α × β)} {a k : α}
    (h : k ≠ a) : alookup (aerase l a) k = alookup l k := by
  induction l with
  | nil => rfl
  | cons p rest ih =>
    rcases p with ⟨b, v⟩
    rw [aerase_cons]
    by_cases hb : b = a
    · rw [if_pos hb, alookup_cons, if_neg (hb ▸ Ne.symm h), ih]
    · rw [if_neg hb, alookup_cons, alookup_cons, ih]

theorem alookup_aerase_self {α β : Type} [DecidableEq α] {l : List (α × β)} {a : α} :
    alookup (aerase l a) a = none := by
  induction l with
  | nil => rfl
  | cons p rest ih =>
    rcases p with ⟨b, v⟩
    rw [aerase_cons]
    by_cases hb : b = a
    · rw [if_pos hb]; exact ih
    · rw [if_neg hb, alookup_cons, if_neg hb]; exact ih

theorem alookup_aupdate_self {α β : Type} [DecidableEq α] {l : List (α × β)} {a : α}
    {f : β → β} : alookup (aupdate l a f) a = (alookup l a).map f := by
  induction l with
  | nil => rfl
  | cons p rest ih =>
    rcases p with ⟨b, v⟩
    rw [aupdate_cons]
    by_cases hb : b = a
    · rw [if_pos hb, alookup_cons, if_pos hb, alookup_cons, if_pos hb]; rfl
    · rw [if_neg hb, alookup_cons, if_neg hb, alookup_cons, if_neg hb, ih]

theorem alookup_aupdate_ne {α β : Type} [DecidableEq α] {l : List (α × β)} {a k : α}
    {f : β → β} (h : k ≠ a) : alookup (aupdate l a f) k = alookup l k := by
  induction l with
  | nil => rfl
  | cons p rest ih =>
    rcases p with ⟨b, v⟩
    rw [aupdate_cons]
    by_cases hb : b = a
    · rw [if_pos hb, alookup_cons, if_neg (hb ▸ Ne.symm h), alookup_cons,
        if_neg (hb ▸ Ne.symm h), ih]
    · rw [if_neg hb, alookup_cons, alookup_cons, ih]

theorem alookup_ainsert_self {α β : Type} [DecidableEq α] {l : List (α × β)} {a : α}
    {b : β} : alookup (ainsert l a b) a = some b := by
  rw [ainsert, alookup_cons, if_pos rfl]

theorem alookup_ainsert_ne {α β : Type} [DecidableEq α] {l : List (α × β)} {a k : α}
    {b : β} (h : k ≠ a) : alookup (ainsert l a b) k = alookup l k := by
  rw [ainsert, alookup_cons, if_neg (Ne.symm h)]
  exact alookup_aerase_ne h

theorem mem_of_alookup {α β : Type} [DecidableEq α] {l : List (α × β)} {a : α} {b : β}
    (h : alookup l a = some b) : (a, b) ∈ l := by
  induction l with
  | nil => cases h
  | cons p rest ih =>
    rcases p with ⟨c, v⟩
    rw [alookup_cons] at h
    by_cases hc : c = a
    · rw [if_pos hc] at h
      cases h
      exact hc ▸ List.mem_cons_self _ _
    · rw [if_neg hc] at h
      exact List.mem_cons_of_mem _ (ih h)

theorem alookup_isSome_of_mem {α β : Type} [DecidableEq α] {l : List (α × β)}
    {p : α × β} (h : p ∈ l) : (alookup l p.1).isSome = true := by
  induction l with
  | nil => cases h
  | cons q rest ih =>
    rcases q with ⟨c, v⟩
    rw [alookup_cons]
    rcases List.mem_cons.mp h with h | h
    · subst h; rw [if_pos rfl]; rfl
    · by_cases hc : c = p.1
      · rw [if_pos hc]; rfl
      · rw [if_neg hc]; exact ih h

theorem mem_aupdate {α β : Type} [DecidableEq α] {l : List (α × β)} {a : α} {f : β → β}
    {p : α × β} (h : p ∈ aupdate l a f) :
    p ∈ l ∨ (p.1 = a ∧ ∃ v, (a, v) ∈ l ∧ p.2 = f v) := by
  rcases List.mem_map.mp h with ⟨q, hq, hval⟩
  by_cases hqa : q.1 = a
  · right
    rw [if_pos hqa] at hval
    refine hval ▸ ⟨hqa, q.2, ?_, rfl⟩
    have : q = (a, q.2) := by rcases q with ⟨q1, q2⟩; simp_all
    exact this ▸ hq
  · left
    rw [if_neg hqa] at hval
    exact hval ▸ hq

theorem mem_aupdate_strong {α β : Type} [DecidableEq α] {l : List (α × β)} {a : α}
    {f : β → β} {p : α × β} (h : p ∈ aupdate l a f) :
    (p ∈ l ∧ p.1 ≠ a) ∨ (p.1 = a ∧ ∃ v, (a, v) ∈ l ∧ p.2 = f v) := by
  rcases List.mem_map.mp h with ⟨q, hq, hval⟩
  by_cases hqa : q.1 = a
  · right
    rw [if_pos hqa] at hval
    refine ⟨by rw [← hval]; exact hqa, q.2, ?_, by rw [← hval]⟩
    rw [← hqa]
    exact hq
  · left
    rw [if_neg hqa] at hval
    exact ⟨hval ▸ hq, hval ▸ hqa⟩

theorem mem_todoInsert_elim {l : List Nat} {i j : Nat} (h : j ∈ todoInsert l i) :
    j ∈ l ∨ j = i := by
  unfold todoInsert at h
  split at h
  · exact Or.inl h
  · rcases List.mem_append.mp h with hl | hr
    · exact Or.inl hl
    · exact Or.inr (List.mem_singleton.mp hr)

theorem mem_todoErase {l : List Nat} {i j : Nat} (h : j ∈ todoErase l i) :
    j ∈ l ∧ j ≠ i := by
  have hm := List.mem_filter.mp h
  exact ⟨hm.1, by simpa using hm.2⟩

theorem mem_aerase {α β : Type} [DecidableEq α] {l : List (α × β)} {a : α}
    {p : α × β} (h : p ∈ aerase l a) : p ∈ l ∧ p.1 ≠ a := by
  have := List.mem_filter.mp h
  exact ⟨this.1, by simpa using this.2⟩

theorem aerase_sublist {α β : Type} [DecidableEq α] (l : List (α × β)) (a : α) :
    List.Sublist (aerase l a) l := List.filter_sublist l

theorem not_mem_of_alookup_none {α β : Type} [DecidableEq α] {l : List (α × β)}
    {a : α} (h : alookup l a = none) : ∀ b, (a, b) ∉ l := by
  intro b hmem
  have hs := alookup_isSome_of_mem hmem
  rw [h] at hs
  cases hs

theorem alookup_none_of_sublist {α β : Type} [DecidableEq α] {l l2 : List (α × β)}
    {a : α} (hsub : List.Sublist l2 l) (h : alookup l a = none) :
    alookup l2 a = none := by
  cases hlk : alookup l2 a with
  | none => rfl
  | some b =>
    have hmem : (a, b) ∈ l := hsub.subset (mem_of_alookup hlk)
    exact absurd hmem (not_mem_of_alookup_none h b)

theorem key_not_mem_of_alookup_none {α β : Type} [DecidableEq α] {l : List (α × β)}
    {a : α} (h : alookup l a = none) : a ∉ l.map Prod.fst := by
  intro hmem
  rcases List.mem_map.mp hmem with ⟨p, hp, hfst⟩
  rcases p with ⟨c, v⟩
  cases hfst
  exact not_mem_of_alookup_none h v hp

theorem aupdate_keys {α β : Type} [DecidableEq α] (l : List (α × β)) (a : α)
    (f : β → β) : (aupdate l a f).map Prod.fst = l.map Prod.fst := by
  induction l with
  | nil => rfl
  | cons p rest ih =>
    rcases p with ⟨b, v⟩
    rw [aupdate_cons]
    by_cases hb : b = a
    · rw [if_pos hb]
      simpa using ih
    · rw [if_neg hb]
      simpa using ih

theorem alookup_eq_of_nodup_mem {α β : Type} [DecidableEq α] {l : List (α × β)}
    (hn : (l.map Prod.fst).Nodup) {a : α} {b : β} (h : (a, b) ∈ l) :
    alookup l a = some b := by
  induction l with
  | nil => cases h
  | cons p rest ih =>
    rcases p with ⟨c, v⟩
    rw [alookup_cons]
    rcases List.mem_cons.mp h with h | h
    · cases h
      rw [if_pos rfl]
    · by_cases hc : c = a
      · subst hc
        exfalso
        have : c ∈ rest.map Prod.fst := List.mem_map.mpr ⟨(c, b), h, rfl⟩
        exact (List.nodup_cons.mp hn).1 this
      · rw [if_neg hc]
        exact ih (List.nodup_cons.mp hn).2 h

theorem alookup_mapval {α β : Type} [DecidableEq α] (l : List (α × β)) (g : β → β)
    (a : α) : alookup (l.map (fun p => (p.1, g p.2))) a = (alookup l a).map g := by
  induction l with
  | nil => rfl
  | cons p rest ih =>
    rcases p with ⟨b, v⟩
    by_cases hb : b = a
    · subst hb
      simp [alookup_cons]
    · simp only [List.map_cons, alookup_cons, if_neg hb]
      exact ih

theorem alookup_aupdate_isSome {α β : Type} [DecidableEq α] {l : List (α × β)}
    {a k : α} {f : β → β} :
    (alookup (aupdate l a f) k).isSome = (alookup l k).isSome := by
  by_cases hk : k = a
  · subst hk
    rw [alookup_aupdate_self]
    cases alookup l k <;> rfl
  · rw [alookup_aupdate_ne hk]

theorem exceptBind_ok {α β : Type} {x : Except JitErr α} {f : α → Except JitErr β}
    {b : β} : (x >>= f) = .ok b ↔ ∃ a, x = .ok a ∧ f a = .ok b := by
  cases x <;> simp [Bind.bind, Except.bind]

theorem exceptMap_ok {α β : Type} {x : Except JitErr α} {g : α → β} {b : β} :
    x.map g = .ok b ↔ ∃ a, x = .ok a ∧ g a = b := by
  cases x with
  | error e => simp [Except.map]
  | ok a => simp [Except.map, eq_comm]

theorem exceptOkBind {α β : Type} (a : α) (f : α → Except JitErr β) :
    ((Except.ok a : Except JitErr α) >>= f) = f a := rfl

theorem exceptErrBind {α β : Type} (e : JitErr) (f : α → Except JitErr β) :
    ((Except.error e : Except JitErr α) >>= f) = Except.error e := rfl

/-! ## Shape lemmas -/

theorem sameShape_refl (v : Variable) : sameShape v v := by
  refine ⟨rfl, rfl, rfl, rfl, rfl, rfl, rfl, rfl, rfl, rfl, rfl, rfl, rfl, rfl⟩

theorem sameShape_trans {u v w : Variable} (h1 : sameShape u v) (h2 : sameShape v w) :
    sameShape u w := by
  obtain ⟨a1, a2, a3, a4, a5, a6, a7, a8, a9, a10, a11, a12, a13, a14⟩ := h1
  obtain ⟨b1, b2, b3, b4, b5, b6, b7, b8, b9, b10, b11, b12, b13, b14⟩ := h2
  exact ⟨b1.trans a1, b2.trans a2, b3.trans a3, b4.trans a4, b5.trans a5,
    b6.trans a6, b7.trans a7, b8.trans a8, b9.trans a9, b10.trans a10,
    b11.trans a11, b12.trans a12, b13.trans a13, b14.trans a14⟩

theorem sameShape_key {v w : Variable} (h : sameShape v w) :
    keyOfVar w = keyOfVar v := by
  obtain ⟨a1, a2, a3, a4, a5, a6, _, _, _, _, _, _, _, _⟩ := h
  simp [keyOfVar, a1, a2, a3, a4, a5, a6]

theorem rcOnly_decExt : rcOnly decExtF :=
  fun _ => ⟨rfl, rfl, rfl, rfl, rfl, rfl, rfl, rfl, rfl, rfl, rfl, rfl, rfl, rfl⟩

theorem rcOnly_decInt : rcOnly decIntF :=
  fun _ => ⟨rfl, rfl, rfl, rfl, rfl, rfl, rfl, rfl, rfl, rfl, rfl, rfl, rfl, rfl⟩

theorem rcOnly_incExt : rcOnly incExtF :=
  fun _ => ⟨rfl, rfl, rfl, rfl, rfl, rfl, rfl, rfl, rfl, rfl, rfl, rfl, rfl, rfl⟩

theorem rcOnly_incInt : rcOnly incIntF :=
  fun _ => ⟨rfl, rfl, rfl, rfl, rfl, rfl, rfl, rfl, rfl, rfl, rfl, rfl, rfl, rfl⟩

/-! ## Invariant transport under reference-count-only updates -/

theorem noExtraDep_aupdate {s : State} {i : Nat} {f : Variable → Variable}
    (hf : rcOnly f) (h : NoExtraDep s) :
    NoExtraDep { s with vars := aupdate s.vars i f } := by
  intro p hp
  rcases mem_aupdate hp with hmem | ⟨_, v, hv, hval⟩
  · exact h p hmem
  · have := (hf v).2.2.2.2.2.2.1
    rw [hval, this]
    exact h (i, v) (by simpa using hv)

theorem uniqDirect_aupdate {s : State} {i : Nat} {f : Variable → Variable}
    (hf : rcOnly f) (h : UniqDirect s) :
    UniqDirect { s with vars := aupdate s.vars i f } := by
  intro p hp q hq hdp hdq hdata
  have resolve : ∀ r, r ∈ aupdate s.vars i f →
      ∃ r0, r0 ∈ s.vars ∧ r.1 = r0.1 ∧ r.2.direct_pointer = r0.2.direct_pointer ∧
        r.2.data = r0.2.data := by
    intro r hr
    rcases mem_aupdate hr with hmem | ⟨hk, v, hv, hval⟩
    · exact ⟨r, hmem, rfl, rfl, rfl⟩
    · refine ⟨(i, v), hv, hk, ?_, ?_⟩
      · rw [hval]; exact (hf v).2.2.2.2.2.2.2.2.2.2.1
      · rw [hval]; exact (hf v).2.2.2.2.2.2.2.1
  obtain ⟨p0, hp0, hpk, hpd, hpdata⟩ := resolve p hp
  obtain ⟨q0, hq0, hqk, hqd, hqdata⟩ := resolve q hq
  rw [hpk, hqk]
  exact h p0 hp0 q0 hq0 (hpd ▸ hdp) (hqd ▸ hdq) (hpdata ▸ hqdata ▸ hdata)

theorem ptrTableOwn_aupdate {s : State} {i : Nat} {f : Variable → Variable}
    (hf : rcOnly f) (h : PtrTableOwn s) :
    PtrTableOwn { s with vars := aupdate s.vars i f } := by
  intro p hp hdp
  rcases mem_aupdate hp with hmem | ⟨hk, v, hv, hval⟩
  · exact h p hmem hdp
  · have hd := (hf v).2.2.2.2.2.2.2.2.2.2.1
    have hdata := (hf v).2.2.2.2.2.2.2.1
    have := h (i, v) hv (by rw [hval, hd] at hdp; exact hdp)
    simpa [hk, hval, hdata] using this

theorem directDataSome_aupdate {s : State} {i : Nat} {f : Variable → Variable}
    (hf : rcOnly f) (h : DirectDataSome s) :
    DirectDataSome { s with vars := aupdate s.vars i f } := by
  intro p hp hdp
  rcases mem_aupdate hp with hmem | ⟨_, v, hv, hval⟩
  · exact h p hmem hdp
  · have hd := (hf v).2.2.2.2.2.2.2.2.2.2.1
    have hdata := (hf v).2.2.2.2.2.2.2.1
    rw [hval, hdata]
    exact h (i, v) hv (by rw [hval, hd] at hdp; exact hdp)

theorem ptrInv_aupdate {s : State} {i : Nat} {f : Variable → Variable}
    (hf : rcOnly f) (h : PtrInv s) :
    PtrInv { s with vars := aupdate s.vars i f } :=
  ⟨uniqDirect_aupdate hf h.1, ptrTableOwn_aupdate hf h.2.1,
   directDataSome_aupdate hf h.2.2⟩

theorem keyConsistent_aupdate {s : State} {i : Nat} {f : Variable → Variable}
    (hf : rcOnly f) (h : KeyConsistent s) :
    KeyConsistent { s with vars := aupdate s.vars i f } := by
  intro p hp
  have base := h p hp
  by_cases hj : p.2 = i
  · rw [hj] at base ⊢
    show (alookup (aupdate s.vars i f) i).map keyOfVar = some p.1
    rw [alookup_aupdate_self]
    cases hv : alookup s.vars i with
    | none => rw [hv] at base; cases base
    | some v =>
      rw [hv] at base
      simp only [Option.map] at base ⊢
      rw [sameShape_key (hf v)]
      exact base
  · show (alookup (aupdate s.vars i f) p.2).map keyOfVar = some p.1
    rw [alookup_aupdate_ne hj]
    exact base

/-! ## Evolution relations: reflexivity, transitivity, single steps -/

theorem varExt_pos_isSome {s : State} {i : Nat} (h : 0 < varExt s i) :
    (alookup s.vars i).isSome = true := by
  unfold varExt at h
  cases hv : alookup s.vars i with
  | none => rw [hv] at h; simp at h
  | some v => rfl

theorem varExt_of_alookup {s : State} {i : Nat} {v : Variable}
    (h : alookup s.vars i = some v) : varExt s i = v.ref_count_ext := by
  unfold varExt; rw [h]; rfl

theorem cascEvo_refl (s : State) : CascEvo s s :=
  ⟨rfl, rfl, rfl, fun _ => rfl, List.Sublist.refl _, List.Sublist.refl _,
   fun _ v' h => ⟨v', h, sameShape_refl v'⟩⟩

theorem cascEvo_trans {s t u : State} (h1 : CascEvo s t) (h2 : CascEvo t u) :
    CascEvo s u := by
  refine ⟨h2.active.trans h1.active, h2.index.trans h1.index,
    h2.evalc.trans h1.evalc, fun sid => (h2.streamsDom sid).trans (h1.streamsDom sid),
    h2.keySub.trans h1.keySub, h2.varsSub.trans h1.varsSub, fun i v'' hl => ?_⟩
  obtain ⟨v', hl', hs'⟩ := h2.varsSur i v'' hl
  obtain ⟨v, hl0, hs⟩ := h1.varsSur i v' hl'
  exact ⟨v, hl0, sameShape_trans hs hs'⟩

theorem extEvo_refl {s : State} (h : NoExtraDep s) : ExtEvo s s :=
  ⟨rfl, h, fun i hi => varExt_pos_isSome hi, fun _ hi => ⟨hi, rfl⟩⟩

theorem extEvo_trans {s t u : State} (h1 : ExtEvo s t) (h2 : ExtEvo t u) :
    ExtEvo s u := by
  refine ⟨h2.streamsEq.trans h1.streamsEq, h2.next, fun i hi => ?_, fun i hi => ?_⟩
  · have ht := h1.surv i hi
    have hext := (h1.back i ht).2
    exact h2.surv i (by rw [hext]; exact hi)
  · obtain ⟨ht, he2⟩ := h2.back i hi
    obtain ⟨hs, he1⟩ := h1.back i ht
    exact ⟨hs, he2.trans he1⟩

theorem cascQ_refl {s : State} : CascQ s s :=
  ⟨cascEvo_refl s, id, id, extEvo_refl⟩

theorem cascQ_trans {s t u : State} (h1 : CascQ s t) (h2 : CascQ t u) : CascQ s u := by
  obtain ⟨e1, k1, p1, x1⟩ := h1
  obtain ⟨e2, k2, p2, x2⟩ := h2
  refine ⟨cascEvo_trans e1 e2, fun h => k2 (k1 h), fun h => p2 (p1 h), fun h => ?_⟩
  have y1 := x1 h
  exact extEvo_trans y1 (x2 y1.next)

theorem cascR_of_cascQ {s t : State} (h : CascQ s t) : CascR s t := ⟨h.1, h.2.1, h.2.2.1⟩

theorem cascR_trans {s t u : State} (h1 : CascR s t) (h2 : CascR t u) : CascR s u :=
  ⟨cascEvo_trans h1.1 h2.1, fun h => h2.2.1 (h1.2.1 h), fun h => h2.2.2 (h1.2.2 h)⟩

theorem cascQR_trans {s t u : State} (h1 : CascQ s t) (h2 : CascR t u) : CascR s u :=
  cascR_trans (cascR_of_cascQ h1) h2

/-- A reference-count-only pointwise update is a `CascR` step, and when it
keeps the external counts it is a `CascQ` step. -/
theorem cascR_aupdate_rc {s : State} {i : Nat} {f : Variable → Variable}
    (hf : rcOnly f) : CascR s { s with vars := aupdate s.vars i f } := by
  refine ⟨⟨rfl, rfl, rfl, fun _ => rfl, List.Sublist.refl _,
    by rw [show ({ s with vars := aupdate s.vars i f } : State).vars =
      aupdate s.vars i f from rfl, aupdate_keys], fun j v' hl => ?_⟩,
    keyConsistent_aupdate hf, ptrInv_aupdate hf⟩
  by_cases hj : j = i
  · subst hj
    rw [show (alookup ({ s with vars := aupdate s.vars j f } : State).vars j) =
      alookup (aupdate s.vars j f) j from rfl, alookup_aupdate_self] at hl
    cases hv : alookup s.vars j with
    | none => rw [hv] at hl; cases hl
    | some v =>
      rw [hv] at hl
      simp only [Option.map] at hl
      cases hl
      exact ⟨v, rfl, hf v⟩
  · rw [show (alookup ({ s with vars := aupdate s.vars i f } : State).vars j) =
      alookup (aupdate s.vars i f) j from rfl, alookup_aupdate_ne hj] at hl
    exact ⟨v', hl, sameShape_refl v'⟩

theorem cascQ_aupdate_rc {s : State} {i : Nat} {f : Variable → Variable}
    (hf : rcOnly f) (hext : ∀ v, (f v).ref_count_ext = v.ref_count_ext) :
    CascQ s { s with vars := aupdate s.vars i f } := by
  have base := cascR_aupdate_rc (s := s) (i := i) hf
  refine ⟨base.1, base.2.1, base.2.2, fun hne => ?_⟩
  refine ⟨rfl, noExtraDep_aupdate hf hne, fun j hj => ?_, fun j hj => ?_⟩
  · show (alookup (aupdate s.vars i f) j).isSome = true
    rw [alookup_aupdate_isSome]
    exact varExt_pos_isSome hj
  · rw [show (alookup ({ s with vars := aupdate s.vars i f } : State).vars j) =
      alookup (aupdate s.vars i f) j from rfl, alookup_aupdate_isSome] at hj
    refine ⟨hj, ?_⟩
    by_cases hij : j = i
    · subst hij
      show varExt { s with vars := aupdate s.vars j f } j = varExt s j
      unfold varExt
      rw [show ({ s with vars := aupdate s.vars j f } : State).vars =
        aupdate s.vars j f from rfl, alookup_aupdate_self]
      cases alookup s.vars j with
      | none => rfl
      | some v => simp [Option.map, hext v]
    · show varExt { s with vars := aupdate s.vars i f } j = varExt s j
      unfold varExt
      rw [show ({ s with vars := aupdate s.vars i f } : State).vars =
        aupdate s.vars i f from rfl, alookup_aupdate_ne hij]

/-- Updating one stream's todo list is a `CascR` step. -/
theorem cascR_streams {s : State} {sid : Nat} {g : List Nat → List Nat} :
    CascR s { s with streams := aupdate s.streams sid g } := by
  refine ⟨⟨rfl, rfl, rfl, fun t => ?_, List.Sublist.refl _, List.Sublist.refl _,
    fun j v' hl => ⟨v', hl, sameShape_refl v'⟩⟩, id, id⟩
  show (alookup (aupdate s.streams sid g) t).isSome = (alookup s.streams t).isSome
  exact alookup_aupdate_isSome

/-- The three erasures of `jit_var_free` form a `CascQ` step provided the
erased variable holds no external references. -/
theorem cascQ_free_erase {s : State} {i : Nat} {v : Variable} {P : List (Nat × Nat)}
    (hv : alookup s.vars i = some v) (hz : v.ref_count_ext = 0)
    (hP : P = s.variable_from_ptr ∨
      (v.direct_pointer = true ∧ P = aerase s.variable_from_ptr (v.data.getD 0))) :
    CascQ s (freeEraseState s i v P) := by
  have hlookup : ∀ j, j ≠ i →
      alookup (freeEraseState s i v P).vars j = alookup s.vars j := by
    intro j hj
    show alookup (aerase s.vars i) j = alookup s.vars j
    exact alookup_aerase_ne hj
  have hself : alookup (freeEraseState s i v P).vars i = none := by
    show alookup (aerase s.vars i) i = none
    exact alookup_aerase_self
  refine ⟨⟨rfl, rfl, rfl, fun _ => rfl, aerase_sublist _ _,
    List.Sublist.map Prod.fst (aerase_sublist s.vars i), ?_⟩, ?_, ?_, ?_⟩
  · -- varsSur
    intro j v' hl
    by_cases hj : j = i
    · subst hj; rw [hself] at hl; cases hl
    · rw [hlookup j hj] at hl
      exact ⟨v', hl, sameShape_refl v'⟩
  · -- KeyConsistent
    intro hKC p hp
    obtain ⟨pmem, pkne⟩ := mem_aerase hp
    have base := hKC p pmem
    have hne : p.2 ≠ i := by
      intro he
      rw [he, hv] at base
      simp only [Option.map] at base
      exact pkne (Option.some.inj base).symm
    show (alookup (freeEraseState s i v P).vars p.2).map keyOfVar = some p.1
    rw [hlookup p.2 hne]
    exact base
  · -- PtrInv
    rintro ⟨hU, hO, hD⟩
    have hmem : ∀ p, p ∈ (freeEraseState s i v P).vars → p ∈ s.vars ∧ p.1 ≠ i := by
      intro p hp
      exact mem_aerase hp
    refine ⟨?_, ?_, ?_⟩
    · intro p hp q hq dp dq hdata
      exact hU p (hmem p hp).1 q (hmem q hq).1 dp dq hdata
    · intro p hp hdp
      obtain ⟨pmem, pne⟩ := hmem p hp
      have base := hO p pmem hdp
      rcases hP with hPe | ⟨hdv, hPe⟩
      · show alookup P (p.2.data.getD 0) = some p.1
        rw [hPe]; exact base
      · have hkne : p.2.data.getD 0 ≠ v.data.getD 0 := by
          intro heq
          obtain ⟨a, ha⟩ := Option.ne_none_iff_exists'.mp (hD p pmem hdp)
          obtain ⟨b, hb⟩ := Option.ne_none_iff_exists'.mp
            (hD (i, v) (mem_of_alookup hv) hdv)
          rw [ha, hb] at heq
          simp only [Option.getD] at heq
          have : p.2.data = v.data := by rw [ha, hb, heq]
          exact pne (hU p pmem (i, v) (mem_of_alookup hv) hdp hdv this)
        show alookup P (p.2.data.getD 0) = some p.1
        rw [hPe, alookup_aerase_ne hkne]
        exact base
    · intro p hp hdp
      exact hD p (hmem p hp).1 hdp
  · -- ExtEvo
    intro hne
    refine ⟨rfl, ?_, ?_, ?_⟩
    · intro p hp
      exact hne p (mem_aerase hp).1
    · intro j hj
      have hji : j ≠ i := by
        intro he
        rw [he, varExt_of_alookup hv, hz] at hj
        exact Nat.lt_irrefl 0 hj
      rw [hlookup j hji]
      exact varExt_pos_isSome hj
    · intro j hj
      have hji : j ≠ i := by
        intro he
        rw [he, hself] at hj
        cases hj
      constructor
      · rw [hlookup j hji] at hj; exact hj
      · show varExt (freeEraseState s i v P) j = varExt s j
        unfold varExt
        rw [hlookup j hji]

/-- `decIntAux` passes `CascQ` conclusions through. -/
theorem decIntAux_cascQ (g : State → Nat → Except JitErr State)
    (hg : ∀ s i s', ExtZeroPre s i → g s i = .ok s' → CascQ s s') :
    ∀ s i s', decIntAux g s i = .ok s' → CascQ s s' := by
  intro s i s' h
  unfold decIntAux at h
  split at h
  · cases h; exact cascQ_refl
  · split at h
    · exact Except.noConfusion h
    · rename_i v hv
      split at h
      · exact Except.noConfusion h
      · have base : CascQ s (decIntState s i) :=
          cascQ_aupdate_rc rcOnly_decInt (fun _ => rfl)
        split at h
        · rename_i hfree
          refine cascQ_trans base (hg _ i s' ?_ h)
          intro w hw
          rw [show (decIntState s i).vars = aupdate s.vars i decIntF from rfl,
            alookup_aupdate_self, hv] at hw
          simp only [Option.map] at hw
          cases hw
          exact hfree.1
        · cases h; exact base

/-- `decExtAux` passes `CascR` conclusions through. -/
theorem decExtAux_cascR (g : State → Nat → Except JitErr State)
    (hg : ∀ s i s', ExtZeroPre s i → g s i = .ok s' → CascQ s s') :
    ∀ s i s', decExtAux g s i = .ok s' → CascR s s' := by
  intro s i s' h
  unfold decExtAux at h
  split at h
  · cases h; exact cascR_of_cascQ cascQ_refl
  · split at h
    · exact Except.noConfusion h
    · rename_i v hv
      split at h
      · exact Except.noConfusion h
      · rcases exceptBind_ok.mp h with ⟨s2, h2, h3⟩
        have base1 : CascR s (decExtState s i) :=
          cascR_aupdate_rc rcOnly_decExt
        have hs2 : CascR (decExtState s i) s2 ∧ s2.vars = (decExtState s i).vars := by
          split at h2
          · split at h2
            · exact Except.noConfusion h2
            · cases h2; exact ⟨cascR_streams, rfl⟩
          · cases h2; exact ⟨cascR_of_cascQ cascQ_refl, rfl⟩
        have base2 : CascR s s2 := cascR_trans base1 hs2.1
        split at h3
        · rename_i hfree
          refine cascR_trans base2 (cascR_of_cascQ (hg s2 i s' ?_ h3))
          intro w hw
          rw [hs2.2, show (decExtState s i).vars = aupdate s.vars i decExtF from rfl,
            alookup_aupdate_self, hv] at hw
          simp only [Option.map] at hw
          cases hw
          exact hfree.1
        · cases h3; exact base2

/-- The free cascade only shrinks the state in the `CascQ` sense. -/
theorem freeVar_cascQ :
    ∀ (fuel : Nat) (s : State) (i : Nat) (s' : State), ExtZeroPre s i →
      freeVar fuel s i = .ok s' → CascQ s s' := by
  intro fuel
  induction fuel with
  | zero => intro s i s' _ h; exact Except.noConfusion h
  | succ fuel ih =>
    intro s i s' hz h
    unfold freeVar at h
    split at h
    · exact Except.noConfusion h
    · rename_i v hv
      rcases exceptBind_ok.mp h with ⟨P, hPe, h1⟩
      rcases exceptBind_ok.mp h1 with ⟨s4, h4, h5⟩
      rcases exceptBind_ok.mp h5 with ⟨s5, h6, h7⟩
      rcases exceptBind_ok.mp h7 with ⟨s6, h8, h9⟩
      have hPok : P = s.variable_from_ptr ∨
          (v.direct_pointer = true ∧ P = aerase s.variable_from_ptr (v.data.getD 0)) := by
        split at hPe
        · rename_i hdv
          split at hPe
          · exact Except.noConfusion hPe
          · cases hPe; exact Or.inr ⟨hdv, rfl⟩
        · cases hPe; exact Or.inl rfl
      have e0 : CascQ s (freeEraseState s i v P) :=
        cascQ_free_erase hv (hz v hv) hPok
      have e1 := decIntAux_cascQ _ ih _ _ _ h4
      have e2 := decIntAux_cascQ _ ih _ _ _ h6
      have e3 := decIntAux_cascQ _ ih _ _ _ h8
      -- last step: jit_dec_ref_ext(v->extra_dep)
      have e4 : CascR s6 s' := decExtAux_cascR _ ih _ _ _ h9
      have eQ : CascQ s s6 := cascQ_trans (cascQ_trans (cascQ_trans e0 e1) e2) e3
      refine ⟨cascEvo_trans eQ.1 e4.1, fun hKC => e4.2.1 (eQ.2.1 hKC),
        fun hPI => e4.2.2 (eQ.2.2.1 hPI), fun hNE => ?_⟩
      -- with no extra-dep pins the final decrement is on id 0 and is a no-op
      have hxz : v.extra_dep = 0 := hNE (i, v) (mem_of_alookup hv)
      rw [hxz] at h9
      unfold decExtAux at h9
      rw [if_pos (Or.inl rfl)] at h9
      cases h9
      exact eQ.2.2.2 hNE

/-! ## Evolution through the evaluation pass -/

theorem mapval_keys {α β : Type} (l : List (α × β)) (g : β → β) :
    (l.map (fun p => (p.1, g p.2))).map Prod.fst = l.map Prod.fst := by
  rw [List.map_map]
  rfl

theorem evalStepEvo_refl {s : State} : EvalStepEvo s s :=
  ⟨rfl, rfl, rfl, fun _ => rfl, List.Sublist.refl _, List.Sublist.refl _,
   id, fun _ => id, extEvo_refl⟩

theorem evalStepEvo_of_cascQ {s s' : State} (h : CascQ s s') : EvalStepEvo s s' :=
  ⟨h.1.active, h.1.index, h.1.evalc, h.1.streamsDom, h.1.keySub, h.1.varsSub,
   h.2.1, fun _ hp => h.2.2.1 hp, h.2.2.2⟩

theorem evalStepEvo_trans {s t u : State} (h1 : EvalStepEvo s t)
    (h2 : EvalStepEvo t u) : EvalStepEvo s u := by
  refine ⟨h2.active.trans h1.active, h2.index.trans h1.index,
    h2.evalc.trans h1.evalc,
    fun sid => (h2.streamsDom sid).trans (h1.streamsDom sid),
    h2.keySub.trans h1.keySub, h2.varsSub.trans h1.varsSub,
    fun hkc => h2.kc (h1.kc hkc),
    fun hnd hp => h2.pinv (List.Nodup.sublist h1.varsSub hnd) (h1.pinv hnd hp),
    fun hne => ?_⟩
  have x1 := h1.ext hne
  exact extEvo_trans x1 (h2.ext x1.next)

/-- Materializing one pending root is an `EvalStepEvo` step. -/
theorem evalStepEvo_materialize {s : State} {i : Nat} {v : Variable}
    (hv : alookup s.vars i = some v) (hdata : v.data = none) :
    EvalStepEvo s (materializeState s i) := by
  have hvars : (materializeState s i).vars = aupdate s.vars i (materializeF i) := rfl
  refine ⟨rfl, rfl, rfl, fun _ => rfl, List.filter_sublist _, ?_, ?_, ?_, ?_⟩
  · rw [hvars, aupdate_keys]
  · -- KeyConsistent
    intro hKC p hp
    have pmem := (List.mem_filter.mp hp).1
    have pcond : p.2 ≠ i := by simpa using (List.mem_filter.mp hp).2
    have base := hKC p pmem
    show (alookup (aupdate s.vars i (materializeF i)) p.2).map keyOfVar = some p.1
    rw [alookup_aupdate_ne pcond]
    exact base
  · -- PtrInv
    rintro hnd ⟨hU, hO, hD⟩
    have resolve : ∀ p, p ∈ (materializeState s i).vars →
        p ∈ s.vars ∨ (p.1 = i ∧ p.2 = materializeF i v) := by
      intro p hp
      rw [hvars] at hp
      rcases mem_aupdate hp with hmem | ⟨hk, w, hw, hval⟩
      · exact Or.inl hmem
      · have : w = v := by
          have := alookup_eq_of_nodup_mem hnd hw
          rw [hv] at this
          exact (Option.some.inj this).symm
        exact Or.inr ⟨hk, by rw [hval, this]⟩
    have hnotdir : (materializeF i v).direct_pointer = false := by
      show v.direct_pointer = false
      by_contra hdir
      have := hD (i, v) (mem_of_alookup hv) (by simpa using hdir)
      exact this hdata
    refine ⟨?_, ?_, ?_⟩
    · intro p hp q hq dp dq hdata2
      rcases resolve p hp with hpm | ⟨hpk, hpv⟩
      · rcases resolve q hq with hqm | ⟨hqk, hqv⟩
        · exact hU p hpm q hqm dp dq hdata2
        · rw [hqv, hnotdir] at dq; cases dq
      · rw [hpv, hnotdir] at dp; cases dp
    · intro p hp hdp
      rcases resolve p hp with hpm | ⟨hpk, hpv⟩
      · exact hO p hpm hdp
      · rw [hpv, hnotdir] at hdp; cases hdp
    · intro p hp hdp
      rcases resolve p hp with hpm | ⟨hpk, hpv⟩
      · exact hD p hpm hdp
      · rw [hpv, hnotdir] at hdp; cases hdp
  · -- ExtEvo
    intro hne
    refine ⟨rfl, ?_, ?_, ?_⟩
    · intro p hp
      rw [hvars] at hp
      rcases mem_aupdate hp with hmem | ⟨_, w, _, hval⟩
      · exact hne p hmem
      · rw [hval]; rfl
    · intro j hj
      show (alookup (aupdate s.vars i (materializeF i)) j).isSome = true
      rw [alookup_aupdate_isSome]
      exact varExt_pos_isSome hj
    · intro j hj
      rw [show (materializeState s i).vars = aupdate s.vars i (materializeF i) from rfl,
        alookup_aupdate_isSome] at hj
      refine ⟨hj, ?_⟩
      show varExt (materializeState s i) j = varExt s j
      unfold varExt
      rw [hvars]
      by_cases hij : j = i
      · subst hij
        rw [alookup_aupdate_self]
        cases alookup s.vars j with
        | none => rfl
        | some w => rfl
      · rw [alookup_aupdate_ne hij]

/-- One evaluation step is an `EvalStepEvo` step. -/
theorem evalVarStep_evo {fuel : Nat} {s : State} {i : Nat} {s' : State}
    (h : evalVarStep fuel s i = .ok s') : EvalStepEvo s s' := by
  unfold evalVarStep at h
  split at h
  · cases h; exact evalStepEvo_refl
  · rename_i v hv
    split at h
    · cases h; exact evalStepEvo_refl
    · rename_i hdata
      have hdnone : v.data = none := by
        by_cases hd : v.data = none
        · exact hd
        · exact absurd hd hdata
      rcases exceptBind_ok.mp h with ⟨s2, h2, h3⟩
      rcases exceptBind_ok.mp h3 with ⟨s3, h4, h5⟩
      rcases exceptBind_ok.mp h5 with ⟨s4, h6, h7⟩
      have base := evalStepEvo_materialize hv hdnone
      have e1 := evalStepEvo_of_cascQ (decIntAux_cascQ _ (freeVar_cascQ fuel) _ _ _ h2)
      have e2 := evalStepEvo_of_cascQ (decIntAux_cascQ _ (freeVar_cascQ fuel) _ _ _ h4)
      have e3 := evalStepEvo_of_cascQ (decIntAux_cascQ _ (freeVar_cascQ fuel) _ _ _ h6)
      have eQ := evalStepEvo_trans (evalStepEvo_trans (evalStepEvo_trans base e1) e2) e3
      have e4 : CascR s4 s' := decExtAux_cascR _ (freeVar_cascQ fuel) _ _ _ h7
      refine ⟨e4.1.active.trans eQ.active, e4.1.index.trans eQ.index,
        e4.1.evalc.trans eQ.evalc,
        fun sid => (e4.1.streamsDom sid).trans (eQ.streamsDom sid),
        e4.1.keySub.trans eQ.keySub, e4.1.varsSub.trans eQ.varsSub,
        fun hkc => e4.2.1 (eQ.kc hkc),
        fun hnd hp => e4.2.2 (eQ.pinv hnd hp),
        fun hne => ?_⟩
      have hxz : v.extra_dep = 0 := hne (i, v) (mem_of_alookup hv)
      rw [hxz] at h7
      unfold decExtAux at h7
      rw [if_pos (Or.inl rfl)] at h7
      cases h7
      exact eQ.ext hne

/-- The whole evaluation walk is an `EvalStepEvo` step. -/
theorem evalLoop_evo {fuel : Nat} : ∀ (todo : List Nat) (s s' : State),
    evalLoop fuel s todo = .ok s' → EvalStepEvo s s' := by
  intro todo
  induction todo with
  | nil => intro s s' h; cases h; exact evalStepEvo_refl
  | cons i rest ih =>
    intro s s' h
    unfold evalLoop at h
    rcases exceptBind_ok.mp h with ⟨s1, h1, h2⟩
    exact evalStepEvo_trans (evalVarStep_evo h1) (ih s1 s' h2)

theorem alookup_epilogue (t : State) (j : Nat) :
    alookup (evalEpilogue t).vars j = (alookup t.vars j).map clearDirtyF :=
  alookup_mapval t.vars clearDirtyF j

/-- Everything a successful `jit_eval` guarantees about the state
evolution. -/
theorem jit_eval_main {s s' : State} (h : jit_eval s = .ok s') :
    s'.activeStream = s.activeStream ∧
    s'.variable_index = s.variable_index ∧
    s'.evalCount = s.evalCount + 1 ∧
    (∀ sid, (alookup s'.streams sid).isSome = (alookup s.streams sid).isSome) ∧
    List.Sublist s'.variable_from_key s.variable_from_key ∧
    List.Sublist (s'.vars.map Prod.fst) (s.vars.map Prod.fst) ∧
    (KeyConsistent s → KeyConsistent s') ∧
    (VarsNodup s → PtrInv s → PtrInv s') ∧
    (NoExtraDep s →
      NoExtraDep s' ∧
      (∀ i, 0 < varExt s i → (alookup s'.vars i).isSome = true) ∧
      (∀ i, (alookup s'.vars i).isSome = true →
        (alookup s.vars i).isSome = true ∧ varExt s' i = varExt s i) ∧
      (∀ q ∈ s'.streams, q ∈ s.streams ∨ q.2 = [])) := by
  unfold jit_eval at h
  rcases exceptMap_ok.mp h with ⟨t, hcore, hep⟩
  have key : ∃ t1, EvalStepEvo s t1 ∧
      (t = t1 ∨ ∃ sid, t = clearTodoState t1 sid) := by
    unfold jit_eval_core at hcore
    split at hcore
    · cases hcore; exact ⟨s, evalStepEvo_refl, Or.inl rfl⟩
    · rename_i sid hsid
      split at hcore
      · cases hcore; exact ⟨s, evalStepEvo_refl, Or.inl rfl⟩
      · rename_i todo htodo
        rcases exceptMap_ok.mp hcore with ⟨t1, hloop, hclear⟩
        exact ⟨t1, evalLoop_evo todo s t1 hloop, Or.inr ⟨sid, hclear.symm⟩⟩
  obtain ⟨t1, E, hC⟩ := key
  subst hep
  -- facts about `t` in terms of `t1`
  have tact : t.activeStream = t1.activeStream := by
    rcases hC with rfl | ⟨sid, rfl⟩ <;> rfl
  have tidx : t.variable_index = t1.variable_index := by
    rcases hC with rfl | ⟨sid, rfl⟩ <;> rfl
  have tcnt : t.evalCount = t1.evalCount := by
    rcases hC with rfl | ⟨sid, rfl⟩ <;> rfl
  have tkey : t.variable_from_key = t1.variable_from_key := by
    rcases hC with rfl | ⟨sid, rfl⟩ <;> rfl
  have tptr : t.variable_from_ptr = t1.variable_from_ptr := by
    rcases hC with rfl | ⟨sid, rfl⟩ <;> rfl
  have tvars : t.vars = t1.vars := by
    rcases hC with rfl | ⟨sid, rfl⟩ <;> rfl
  have tstreamsDom : ∀ u, (alookup t.streams u).isSome = (alookup t1.streams u).isSome := by
    rcases hC with rfl | ⟨sid, rfl⟩
    · intro u; rfl
    · intro u
      show (alookup (aupdate t1.streams sid (fun _ => [])) u).isSome =
        (alookup t1.streams u).isSome
      exact alookup_aupdate_isSome
  have tstreamsMem : ∀ q, q ∈ t.streams → q ∈ t1.streams ∨ q.2 = [] := by
    rcases hC with rfl | ⟨sid, rfl⟩
    · intro q hq; exact Or.inl hq
    · intro q hq
      have hq2 : q ∈ aupdate t1.streams sid (fun _ => []) := hq
      rcases mem_aupdate hq2 with hmem | ⟨_, w, _, hval⟩
      · exact Or.inl hmem
      · exact Or.inr hval
  -- lookups through the epilogue
  have slook : ∀ j, alookup (evalEpilogue t).vars j = (alookup t1.vars j).map clearDirtyF := by
    intro j
    rw [alookup_epilogue, tvars]
  have smem : ∀ p, p ∈ (evalEpilogue t).vars →
      ∃ q, q ∈ t1.vars ∧ p = (q.1, clearDirtyF q.2) := by
    intro p hp
    rcases List.mem_map.mp hp with ⟨q, hq, hval⟩
    exact ⟨q, tvars ▸ hq, hval.symm⟩
  refine ⟨tact ▸ E.active, tidx ▸ E.index,
    by show t.evalCount + 1 = _; rw [tcnt, E.evalc],
    fun u => (tstreamsDom u).trans (E.streamsDom u),
    by show List.Sublist t.variable_from_key _
       rw [tkey]
       exact E.keySub,
    by show List.Sublist ((t.vars.map _).map Prod.fst) _
       rw [mapval_keys, tvars]
       exact E.varsSub, ?_, ?_, ?_⟩
  · -- KeyConsistent
    intro hkc
    have hkct1 := E.kc hkc
    intro p hp
    have hp1 : p ∈ t1.variable_from_key := by
      rw [← tkey]
      exact hp
    have base := hkct1 p hp1
    rw [slook p.2]
    cases hv : alookup t1.vars p.2 with
    | none => rw [hv] at base; cases base
    | some v =>
      rw [hv] at base
      exact base
  · -- PtrInv
    intro hnd hp
    have hpd := E.pinv hnd hp
    obtain ⟨hU, hO, hD⟩ := hpd
    refine ⟨?_, ?_, ?_⟩
    · intro p hp2 q hq2 dp dq hdata
      obtain ⟨a, ha, rfl⟩ := smem p hp2
      obtain ⟨b, hb, rfl⟩ := smem q hq2
      exact hU a ha b hb dp dq hdata
    · intro p hp2 hdp
      obtain ⟨a, ha, rfl⟩ := smem p hp2
      show alookup t.variable_from_ptr _ = _
      rw [tptr]
      exact hO a ha hdp
    · intro p hp2 hdp
      obtain ⟨a, ha, rfl⟩ := smem p hp2
      exact hD a ha hdp
  · -- NoExtraDep consequences
    intro hne
    have x1 := E.ext hne
    refine ⟨?_, ?_, ?_, ?_⟩
    · intro p hp2
      obtain ⟨a, ha, rfl⟩ := smem p hp2
      exact x1.next a ha
    · intro i hi
      have ht1 := x1.surv i hi
      rw [slook i]
      cases hv : alookup t1.vars i with
      | none => rw [hv] at ht1; cases ht1
      | some v => rfl
    · intro i hi
      rw [slook i] at hi
      have ht1 : (alookup t1.vars i).isSome = true := by
        cases hv : alookup t1.vars i with
        | none => rw [hv] at hi; cases hi
        | some v => rfl
      obtain ⟨hs0, hext⟩ := x1.back i ht1
      refine ⟨hs0, ?_⟩
      show varExt (evalEpilogue t) i = varExt s i
      rw [← hext]
      unfold varExt
      rw [slook i]
      cases alookup t1.vars i with
      | none => rfl
      | some v => rfl
    · intro q hq
      have hq2 : q ∈ t.streams := hq
      rcases tstreamsMem q hq2 with hmem | hempty
      · rw [x1.streamsEq] at hmem
        exact Or.inl hmem
      · exact Or.inr hempty

/-! ## The CSE core of `jit_trace_append(Variable &)` -/

/-- Full characterization of `traceAppendVar`: a successful call either
reuses the id registered in the CSE table for the tuple of the tentative
node (whether or not that node is materialized), leaving the state
unchanged, or inserts the tentative node under the next fresh id. -/
theorem traceAppendVar_cases {s : State} {v : Variable} {idx : Nat} {s' : State}
    (h : traceAppendVar s v = .ok (idx, s')) :
    (alookup s.variable_from_key (keyOfVar v) = some idx ∧ s' = s ∧
      (alookup s.vars idx).isSome = true) ∨
    (alookup s.variable_from_key (keyOfVar v) = none ∧ idx = s.variable_index ∧
      alookup s.vars idx = none ∧
      s'.vars = (idx, v) :: s.vars ∧
      s'.variable_from_key = (keyOfVar v, idx) :: s.variable_from_key ∧
      s'.variable_index = s.variable_index + 1 ∧
      s'.streams = s.streams ∧ s'.activeStream = s.activeStream ∧
      s'.variable_from_ptr = s.variable_from_ptr ∧ s'.evalCount = s.evalCount) := by
  unfold traceAppendVar at h
  split at h
  · rename_i idx0 hkey
    rcases exceptMap_ok.mp h with ⟨v0, hvlk, heq⟩
    obtain ⟨rfl, rfl⟩ : idx0 = idx ∧ s = s' := by
      constructor <;> cases heq <;> rfl
    refine Or.inl ⟨hkey, rfl, ?_⟩
    unfold jitVarLk at hvlk
    split at hvlk
    · exact Except.noConfusion hvlk
    · rename_i w hw
      rw [hw]; rfl
  · rename_i hkey
    split at h
    · exact Except.noConfusion h
    · rename_i hnone
      cases h
      exact Or.inr ⟨hkey, rfl, hnone, rfl, rfl, rfl, rfl, rfl, rfl, rfl⟩

theorem mem_todoInsert (l : List Nat) (i : Nat) : i ∈ todoInsert l i := by
  unfold todoInsert
  split
  · assumption
  · exact List.mem_append.mpr (Or.inr (List.mem_cons_self i []))

theorem todoOf_pushTodo_self {s : State} {sid i : Nat}
    (hs : (alookup s.streams sid).isSome = true) :
    i ∈ todoOf (pushTodo s sid i) sid := by
  unfold todoOf pushTodo
  rw [show ({ s with streams := aupdate s.streams sid (fun td => todoInsert td i) } :
    State).streams = aupdate s.streams sid (fun td => todoInsert td i) from rfl,
    alookup_aupdate_self]
  cases htd : alookup s.streams sid with
  | none => rw [htd] at hs; cases hs
  | some td =>
    show i ∈ (Option.map _ (some td)).getD []
    exact mem_todoInsert td i

theorem varExt_bumpExt_self {s : State} {i : Nat}
    (hs : (alookup s.vars i).isSome = true) :
    varExt (bumpExt s i) i = varExt s i + 1 := by
  unfold varExt bumpExt
  rw [show ({ s with vars := aupdate s.vars i incExtF } : State).vars =
    aupdate s.vars i incExtF from rfl, alookup_aupdate_self]
  cases hv : alookup s.vars i with
  | none => rw [hv] at hs; cases hs
  | some v => rfl

theorem varExt_pushTodo {s : State} {sid i j : Nat} :
    varExt (pushTodo s sid i) j = varExt s j := rfl

theorem varExt_bumpInt {s : State} {i j : Nat} :
    varExt (bumpInt s i) j = varExt s j := by
  unfold varExt bumpInt
  rw [show ({ s with vars := aupdate s.vars i incIntF } : State).vars =
    aupdate s.vars i incIntF from rfl]
  by_cases hij : j = i
  · subst hij
    rw [alookup_aupdate_self]
    cases alookup s.vars j with
    | none => rfl
    | some v => rfl
  · rw [alookup_aupdate_ne hij]

/-- The common tail of every trace-append wrapper: CSE lookup followed by
the external-reference bump and the todo insertion. -/
theorem append_tail {s1 : State} {vv : Variable} {idx : Nat} {s3 : State} {sid : Nat}
    (h : traceAppendVar s1 vv = .ok (idx, s3)) (hvv : vv.ref_count_ext = 0)
    (hstream : (alookup s1.streams sid).isSome = true) :
    varExt (pushTodo (bumpExt s3 idx) sid idx) idx = varExt s1 idx + 1 ∧
    idx ∈ todoOf (pushTodo (bumpExt s3 idx) sid idx) sid := by
  rcases traceAppendVar_cases h with ⟨_, rfl, hsome⟩ |
    ⟨_, _, hnone, hvrs, _, _, hstr, _, _, _⟩
  · exact ⟨by rw [varExt_pushTodo, varExt_bumpExt_self hsome],
      todoOf_pushTodo_self hstream⟩
  · have hstream3 : (alookup (bumpExt s3 idx).streams sid).isSome = true := by
      show (alookup s3.streams sid).isSome = true
      rw [hstr]
      exact hstream
    constructor
    · rw [varExt_pushTodo]
      have hlk : alookup s3.vars idx = some vv := by
        rw [hvrs, alookup_cons, if_pos rfl]
      rw [varExt_bumpExt_self (by rw [hlk]; rfl)]
      unfold varExt
      rw [hlk, hnone]
      simp [hvv]
    · exact todoOf_pushTodo_self hstream3

/-- A successful `appendCommit` is a `traceAppendVar` followed by the
external bump and the todo insertion. -/
theorem appendCommit_cases {s2 : State} {v : Variable} {sid idx : Nat} {s' : State}
    (h : appendCommit s2 v sid = .ok (idx, s')) :
    ∃ s3, traceAppendVar s2 v = .ok (idx, s3) ∧
      s' = pushTodo (bumpExt s3 idx) sid idx := by
  unfold appendCommit at h
  rcases exceptBind_ok.mp h with ⟨q, hq, h2⟩
  obtain ⟨idx2, s3⟩ := q
  have hp := Except.ok.inj h2
  obtain ⟨h3, h4⟩ := Prod.mk.injEq _ _ _ _ ▸ hp
  subst h3
  exact ⟨s3, hq, h4.symm⟩

theorem appendCommit_evalCount {s2 : State} {v : Variable} {sid idx : Nat} {s' : State}
    (h : appendCommit s2 v sid = .ok (idx, s')) :
    s'.evalCount = s2.evalCount := by
  obtain ⟨s3, hta, rfl⟩ := appendCommit_cases h
  show s3.evalCount = s2.evalCount
  rcases traceAppendVar_cases hta with ⟨_, rfl, _⟩ | ⟨_, _, _, _, _, _, _, _, _, hec⟩
  · rfl
  · exact hec

/-! ## Claim C10 -/

/-- C10: `jit_type_size` returns 1 for Int8/UInt8/Bool, 2 for
Int16/UInt16, 4 for Int32/UInt32/Float32 and 8 for
Int64/UInt64/Pointer/Float64, while for Float16 — a type for which
`jit_type_name` answers "f16" — it reaches the fatal invalid-type branch
(`jit_fail`), terminating the process. -/
theorem C10_type_size_float16_fatal :
    jit_type_size .Int8 = .ok 1 ∧ jit_type_size .UInt8 = .ok 1 ∧
    jit_type_size .Bool = .ok 1 ∧
    jit_type_size .Int16 = .ok 2 ∧ jit_type_size .UInt16 = .ok 2 ∧
    jit_type_size .Int32 = .ok 4 ∧ jit_type_size .UInt32 = .ok 4 ∧
    jit_type_size .Float32 = .ok 4 ∧
    jit_type_size .Int64 = .ok 8 ∧ jit_type_size .UInt64 = .ok 8 ∧
    jit_type_size .Pointer = .ok 8 ∧ jit_type_size .Float64 = .ok 8 ∧
    jit_type_name .Float16 = .ok "f16" ∧
    isFatalResult (jit_type_size .Float16) = true := by
  decide

/-! ## Claim C9 -/

/-- C9: `jit_dec_ref_ext` and `jit_dec_ref_int` return silently without
modifying any state when the index is 0 or when the variable table is
empty — in the empty-table case even for an id that was never allocated —
bypassing both the unknown-variable and the underflow error paths. -/
theorem C9_dec_ref_silent (s : State) (i : Nat) :
    jit_dec_ref_ext s 0 = .ok s ∧ jit_dec_ref_int s 0 = .ok s ∧
    (s.vars = [] → jit_dec_ref_ext s i = .ok s) ∧
    (s.vars = [] → jit_dec_ref_int s i = .ok s) := by
  refine ⟨?_, ?_, fun h => ?_, fun h => ?_⟩
  · unfold jit_dec_ref_ext decExtAux
    rw [if_pos (Or.inl rfl)]
  · unfold jit_dec_ref_int decIntAux
    rw [if_pos (Or.inl rfl)]
  · unfold jit_dec_ref_ext decExtAux
    rw [if_pos (Or.inr h)]
  · unfold jit_dec_ref_int decIntAux
    rw [if_pos (Or.inr h)]

/-- Witness for C9 at the empty initial state and the never-allocated
id 42. -/
theorem C9_witness :
    jit_dec_ref_ext initState 0 = .ok initState ∧
    jit_dec_ref_ext initState 42 = .ok initState ∧
    jit_dec_ref_int initState 42 = .ok initState :=
  ⟨(C9_dec_ref_silent initState 42).1,
   (C9_dec_ref_silent initState 42).2.2.1 rfl,
   (C9_dec_ref_silent initState 42).2.2.2 rfl⟩

/-! ## Claim C5 -/

/-- C5 counterexample: in the reachable state `underflowState` variable 1
is live with external count 0 (it is pinned by an internal reference).
Decrementing its external count once more is a fatal `jit_fail` outcome —
the process terminates — not a recoverable jit error as the claim
states. -/
theorem C5_counterexample :
    runOps initState underflowOps = .ok underflowState ∧
    (alookup underflowState.vars 1).isSome = true ∧
    varExt underflowState 1 = 0 ∧
    isFatalResult (jit_dec_ref_ext underflowState 1) = true ∧
    isRaiseResult (jit_dec_ref_ext underflowState 1) = false := by
  decide

/-- C5 as amended: calling `jit_dec_ref_ext` (resp. `jit_dec_ref_int`) on
a live variable whose respective count is zero triggers the fatal
`jit_fail` path — the error does not propagate to the caller as a
recoverable jit error; the process terminates. -/
theorem C5_dec_ref_underflow_fatal (s : State) (i : Nat) (v : Variable)
    (hv : alookup s.vars i = some v) (hi : i ≠ 0) :
    (v.ref_count_ext = 0 → jit_dec_ref_ext s i =
      .error (.fatal "jit_dec_ref_ext(): variable has no external references!")) ∧
    (v.ref_count_int = 0 → jit_dec_ref_int s i =
      .error (.fatal "jit_dec_ref_int(): variable has no internal references!")) := by
  have hnil : s.vars ≠ [] := by
    intro he
    rw [he] at hv
    cases hv
  have hcond : ¬(i = 0 ∨ s.vars = []) := by
    rintro (h | h)
    · exact hi h
    · exact hnil h
  constructor
  · intro hz
    unfold jit_dec_ref_ext decExtAux
    rw [if_neg hcond]
    simp only [hv]
    rw [if_pos hz]
  · intro hz
    unfold jit_dec_ref_int decIntAux
    rw [if_neg hcond]
    simp only [hv]
    rw [if_pos hz]

/-- Witness for the amended C5 at the reachable state `underflowState`. -/
theorem C5_witness :
    jit_dec_ref_ext underflowState 1 =
      .error (.fatal "jit_dec_ref_ext(): variable has no external references!") := by
  cases hv : alookup underflowState.vars 1 with
  | none => exact absurd hv (by decide)
  | some v =>
    refine (C5_dec_ref_underflow_fatal underflowState 1 v hv (by decide)).1 ?_
    have h0 : varExt underflowState 1 = 0 := by decide
    rw [varExt_of_alookup hv] at h0
    exact h0

/-! ## Claim C7 -/

/-- C7 counterexample: in the reachable state `resizableState` variable 1
is scalar, unevaluated (`data = null`) and without internal references;
`copy` is false, so by the claim the resize should be rejected with a jit
error.  Instead `jit_var_set_size` succeeds, resizes in place and returns
the same id. -/
theorem C7_counterexample :
    runOps initState resizableOps = .ok resizableState ∧
    varSize resizableState 1 = 1 ∧
    (alookup resizableState.vars 1).map Variable.data = some none ∧
    varInt resizableState 1 = 0 ∧
    (jit_var_set_size resizableState 1 5 false).map
      (fun p => (p.1, varSize p.2 p.1)) = .ok (1, 5) := by
  decide

/-! ## Claim C6 -/

/-- C6 counterexample: variable 1 is appended on stream 0, stream 1 is
then selected, and the external reference is dropped.  The erase targets
the active stream (stream 1), not the variable's stream, so stream 0's
pending set still contains id 1 even though the variable has been freed
entirely — the pending-set invariant and the removed-from-its-stream
property both fail. -/
theorem C6_counterexample :
    runOps initState wrongStreamOps = .ok wrongStreamState ∧
    (1 ∈ todoOf wrongStreamState 0) ∧
    alookup wrongStreamState.vars 1 = none ∧
    varExt wrongStreamState 1 = 0 := by
  decide

/-! ## Claim C3 -/

/-- C3 counterexample: after `dupTupleOps`, the live unevaluated
variables 1 and 2 share the tuple (Float32, null stmt, no deps, size 9) —
the in-place resize of variable 1 left its CSE entry keyed by the old
tuple — so the at-most-one-live-variable-per-tuple property fails for
unevaluated nodes; moreover repeating the registration of the
materialized node 3 (data = 7) reuses it through the CSE table and bumps
its external count, so materialized nodes are not excluded from reuse. -/
theorem C3_counterexample :
    runOps initState dupTupleOps = .ok dupTupleState ∧
    (alookup dupTupleState.vars 1).map keyOfVar =
      some ⟨.Float32, none, 0, 0, 0, 9⟩ ∧
    (alookup dupTupleState.vars 2).map keyOfVar =
      some ⟨.Float32, none, 0, 0, 0, 9⟩ ∧
    (alookup dupTupleState.vars 1).map Variable.data = some none ∧
    (alookup dupTupleState.vars 2).map Variable.data = some none ∧
    (alookup dupTupleState.vars 3).map Variable.data = some (some 7) ∧
    varExt dupTupleState 3 = 1 ∧
    (jit_var_register dupTupleState .Float32 (some 7) 3 false).map
      (fun p => (p.1, varExt p.2 p.1)) = .ok (3, 2) := by
  decide

/-! ## Claim C4 -/

/-- C4: a 1-, 2- or 3-operand trace append that returns successfully
invokes `jit_eval()` exactly once, before appending, when some operand is
dirty at call time, and does not invoke it when all operands are clean
(the `evalCount` field counts `jit_eval` invocations). -/
theorem C4_dirty_forces_eval (s : State) (t : EnokiType) (st : String)
    (a1 a2 a3 idx : Nat) (s' : State) (v1 v2 v3 : Variable) :
    (jit_trace_append1 s t st a1 = .ok (idx, s') → alookup s.vars a1 = some v1 →
      s'.evalCount = s.evalCount + (if v1.dirty then 1 else 0)) ∧
    (jit_trace_append2 s t st a1 a2 = .ok (idx, s') →
      alookup s.vars a1 = some v1 → alookup s.vars a2 = some v2 →
      s'.evalCount = s.evalCount + (if v1.dirty ∨ v2.dirty then 1 else 0)) ∧
    (jit_trace_append3 s t st a1 a2 a3 = .ok (idx, s') →
      alookup s.vars a1 = some v1 → alookup s.vars a2 = some v2 →
      alookup s.vars a3 = some v3 →
      s'.evalCount = s.evalCount + (if v1.dirty ∨ v2.dirty ∨ v3.dirty then 1 else 0)) := by
  have lkOk : ∀ (w u : Variable) (a : Nat), jitVarLk s a = .ok w →
      alookup s.vars a = some u → w = u := by
    intro w u a hw hu
    unfold jitVarLk at hw
    split at hw
    · exact Except.noConfusion hw
    · rename_i x hx
      cases hw
      exact Option.some.inj (hx.symm.trans hu)
  refine ⟨?_, ?_, ?_⟩
  · intro h hv1
    unfold jit_trace_append1 at h
    split at h
    · exact Except.noConfusion h
    · rename_i sid hsid
      split at h
      · exact Except.noConfusion h
      · rcases exceptBind_ok.mp h with ⟨w1, hw1, h2⟩
        obtain rfl := (lkOk w1 v1 a1 hw1 hv1).symm
        rcases exceptBind_ok.mp h2 with ⟨p, hp, h3⟩
        obtain ⟨s1, vv⟩ := p
        have hcommit : appendCommit (bumpInt s1 a1) vv sid = .ok (idx, s') := h3
        have hec0 := appendCommit_evalCount hcommit
        have hec : s'.evalCount = s1.evalCount := hec0
        by_cases hd : v1.dirty = true
        · rw [if_pos hd] at hp
          rcases exceptBind_ok.mp hp with ⟨se, he, hmap⟩
          rcases exceptMap_ok.mp hmap with ⟨_, _, heq⟩
          have hs1 : se = s1 := congrArg Prod.fst heq
          subst hs1
          rw [hec, (jit_eval_main he).2.2.1, hd]
          simp
        · rw [if_neg hd] at hp
          have hs1 : s = s1 := congrArg Prod.fst (Except.ok.inj hp)
          rw [hec, ← hs1, if_neg hd]
          rfl
  · intro h hv1 hv2
    unfold jit_trace_append2 at h
    split at h
    · exact Except.noConfusion h
    · rename_i sid hsid
      split at h
      · exact Except.noConfusion h
      · rcases exceptBind_ok.mp h with ⟨w1, hw1, h2⟩
        obtain rfl := (lkOk w1 v1 a1 hw1 hv1).symm
        rcases exceptBind_ok.mp h2 with ⟨w2, hw2, h3⟩
        obtain rfl := (lkOk w2 v2 a2 hw2 hv2).symm
        rcases exceptBind_ok.mp h3 with ⟨p, hp, h4⟩
        obtain ⟨s1, vv⟩ := p
        have hcommit : appendCommit (bumpInt (bumpInt s1 a1) a2) vv sid = .ok (idx, s') := h4
        have hec0 := appendCommit_evalCount hcommit
        have hec : s'.evalCount = s1.evalCount := hec0
        split at hp
        · exact Except.noConfusion hp
        · by_cases hd : v1.dirty = true ∨ v2.dirty = true
          · rw [if_pos hd] at hp
            rcases exceptBind_ok.mp hp with ⟨se, he, hmap⟩
            rcases exceptBind_ok.mp hmap with ⟨_, _, hmap2⟩
            rcases exceptMap_ok.mp hmap2 with ⟨_, _, heq⟩
            have hs1 : se = s1 := congrArg Prod.fst heq
            subst hs1
            rw [hec, (jit_eval_main he).2.2.1, if_pos hd]
          · rw [if_neg hd] at hp
            have hs1 : s = s1 := congrArg Prod.fst (Except.ok.inj hp)
            rw [hec, ← hs1, if_neg hd]
            rfl
  · intro h hv1 hv2 hv3
    unfold jit_trace_append3 at h
    split at h
    · exact Except.noConfusion h
    · rename_i sid hsid
      split at h
      · exact Except.noConfusion h
      · rcases exceptBind_ok.mp h with ⟨w1, hw1, h2⟩
        obtain rfl := (lkOk w1 v1 a1 hw1 hv1).symm
        rcases exceptBind_ok.mp h2 with ⟨w2, hw2, h3⟩
        obtain rfl := (lkOk w2 v2 a2 hw2 hv2).symm
        rcases exceptBind_ok.mp h3 with ⟨w3, hw3, h4⟩
        obtain rfl := (lkOk w3 v3 a3 hw3 hv3).symm
        rcases exceptBind_ok.mp h4 with ⟨p, hp, h5⟩
        obtain ⟨s1, vv⟩ := p
        have hcommit : appendCommit (bumpInt (bumpInt (bumpInt s1 a1) a2) a3) vv sid =
          .ok (idx, s') := h5
        have hec0 := appendCommit_evalCount hcommit
        have hec : s'.evalCount = s1.evalCount := hec0
        split at hp
        · exact Except.noConfusion hp
        · by_cases hd : v1.dirty = true ∨ v2.dirty = true ∨ v3.dirty = true
          · rw [if_pos hd] at hp
            rcases exceptBind_ok.mp hp with ⟨se, he, hmap⟩
            rcases exceptBind_ok.mp hmap with ⟨_, _, hmap2⟩
            rcases exceptBind_ok.mp hmap2 with ⟨_, _, hmap3⟩
            rcases exceptMap_ok.mp hmap3 with ⟨_, _, heq⟩
            have hs1 : se = s1 := congrArg Prod.fst heq
            subst hs1
            rw [hec, (jit_eval_main he).2.2.1, if_pos hd]
          · rw [if_neg hd] at hp
            have hs1 : s = s1 := congrArg Prod.fst (Except.ok.inj hp)
            rw [hec, ← hs1, if_neg hd]
            rfl

/-- Witness for C4: in `dirtyVarState` variable 1 is dirty, and the
1-operand append triggers exactly one evaluation; in `oneVarState`
variable 1 is clean and the append triggers none. -/
theorem C4_witness :
    dirtyAfterState.evalCount = dirtyVarState.evalCount + 1 ∧
    cleanAfterState.evalCount = oneVarState.evalCount := by
  have h1 : jit_trace_append1 dirtyVarState .Float32 "b" 1 = .ok (2, dirtyAfterState) := by
    decide
  have h2 : jit_trace_append1 oneVarState .Float32 "b" 1 = .ok (2, cleanAfterState) := by
    decide
  constructor
  · cases hv : alookup dirtyVarState.vars 1 with
    | none => exact absurd hv (by decide)
    | some v =>
      have hd : v.dirty = true := by
        have : (alookup dirtyVarState.vars 1).map Variable.dirty = some true := by decide
        rw [hv] at this
        exact Option.some.inj this
      have := (C4_dirty_forces_eval dirtyVarState .Float32 "b" 1 0 0 2
        dirtyAfterState v v v).1 h1 hv
      rw [this, hd]
      rfl
  · cases hv : alookup oneVarState.vars 1 with
    | none => exact absurd hv (by decide)
    | some v =>
      have hd : v.dirty = false := by
        have : (alookup oneVarState.vars 1).map Variable.dirty = some false := by decide
        rw [hv] at this
        exact Option.some.inj this
      have := (C4_dirty_forces_eval oneVarState .Float32 "b" 1 0 0 2
        cleanAfterState v v v).1 h2 hv
      rw [this, hd]
      rfl

/-! ## Claim C2 -/

theorem varSize_bumpExt {s : State} {i j : Nat} :
    varSize (bumpExt s i) j = varSize s j := by
  unfold varSize bumpExt
  rw [show ({ s with vars := aupdate s.vars i incExtF } : State).vars =
    aupdate s.vars i incExtF from rfl]
  by_cases hij : j = i
  · subst hij
    rw [alookup_aupdate_self]
    cases alookup s.vars j with
    | none => rfl
    | some v => rfl
  · rw [alookup_aupdate_ne hij]

theorem varSize_pushTodo {s : State} {sid i j : Nat} :
    varSize (pushTodo s sid i) j = varSize s j := rfl

theorem keyOfVar_size {v w : Variable} (h : keyOfVar v = keyOfVar w) :
    v.size = w.size := congrArg VariableKey.size h

/-- The size of the variable returned by `appendCommit` equals the
tentative node's size, provided the CSE table is consistent. -/
theorem appendCommit_size {s2 : State} {vv : Variable} {sid idx : Nat} {s' : State}
    (hkc : KeyConsistent s2) (h : appendCommit s2 vv sid = .ok (idx, s')) :
    varSize s' idx = vv.size := by
  obtain ⟨s3, hta, rfl⟩ := appendCommit_cases h
  rw [varSize_pushTodo, varSize_bumpExt]
  rcases traceAppendVar_cases hta with ⟨hkey, rfl, _⟩ |
    ⟨_, _, _, hvrs, _, _, _, _, _, _⟩
  · have hmem := mem_of_alookup hkey
    have base : (alookup s3.vars idx).map keyOfVar = some (keyOfVar vv) := hkc _ hmem
    cases hw : alookup s3.vars idx with
    | none => rw [hw] at base; cases base
    | some w =>
      rw [hw] at base
      have hks : keyOfVar w = keyOfVar vv := Option.some.inj base
      unfold varSize
      rw [hw]
      exact keyOfVar_size hks
  · unfold varSize
    rw [hvrs, alookup_cons, if_pos rfl]
    rfl

/-- C2 counterexample: in `staleSizeState` the operands 1 and 2 both have
size 1, so every operand size equals the maximum (1); yet the 2-operand
append CSE-hits the stale entry of variable 3, which was resized in place
to 5 after insertion, and the call succeeds returning a variable of size
5 ≠ 1. -/
theorem C2_counterexample :
    runOps initState staleSizeOps = .ok staleSizeState ∧
    varSize staleSizeState 1 = 1 ∧ varSize staleSizeState 2 = 1 ∧
    (alookup staleSizeState.vars 1).isSome = true ∧
    (alookup staleSizeState.vars 2).isSome = true ∧
    staleSizeState.activeStream = some 0 ∧
    (jit_trace_append2 staleSizeState .Float32 "c" 1 2).map
      (fun p => (p.1, varSize p.2 p.1)) = .ok (3, 5) := by
  decide

/-- C2 (amended): for the 2- and 3-operand trace appends, (a) a
successful call on a state whose CSE table is consistent returns a
variable whose size is the maximum of the operand sizes, and (b) with an
active stream and nonzero operand ids, if some operand size is neither 1
nor that maximum, the call raises a recoverable shape-mismatch error. -/
theorem C2_broadcast {s : State} {t : EnokiType} {st : String} {a1 a2 : Nat}
    (a3 : Nat) (hkc : KeyConsistent s) :
    (∀ idx s', jit_trace_append2 s t st a1 a2 = .ok (idx, s') →
      ∃ v1 v2, jitVarLk s a1 = .ok v1 ∧ jitVarLk s a2 = .ok v2 ∧
        varSize s' idx = max v1.size v2.size) ∧
    (∀ sid v1 v2, s.activeStream = some sid → a1 ≠ 0 → a2 ≠ 0 →
      jitVarLk s a1 = .ok v1 → jitVarLk s a2 = .ok v2 →
      ((v1.size ≠ 1 ∧ v1.size ≠ max v1.size v2.size) ∨
       (v2.size ≠ 1 ∧ v2.size ≠ max v1.size v2.size)) →
      isRaiseResult (jit_trace_append2 s t st a1 a2) = true) ∧
    (∀ idx s', jit_trace_append3 s t st a1 a2 a3 = .ok (idx, s') →
      ∃ v1 v2 v3, jitVarLk s a1 = .ok v1 ∧ jitVarLk s a2 = .ok v2 ∧
        jitVarLk s a3 = .ok v3 ∧
        varSize s' idx = max (max v1.size v2.size) v3.size) ∧
    (∀ sid v1 v2 v3, s.activeStream = some sid → a1 ≠ 0 → a2 ≠ 0 → a3 ≠ 0 →
      jitVarLk s a1 = .ok v1 → jitVarLk s a2 = .ok v2 → jitVarLk s a3 = .ok v3 →
      ((v1.size ≠ 1 ∧ v1.size ≠ max (max v1.size v2.size) v3.size) ∨
       (v2.size ≠ 1 ∧ v2.size ≠ max (max v1.size v2.size) v3.size) ∨
       (v3.size ≠ 1 ∧ v3.size ≠ max (max v1.size v2.size) v3.size)) →
      isRaiseResult (jit_trace_append3 s t st a1 a2 a3) = true) := by
  refine ⟨?_, ?_, ?_, ?_⟩
  · intro idx s' h
    unfold jit_trace_append2 at h
    cases hact : s.activeStream with
    | none => rw [hact] at h; cases h
    | some sid =>
      simp only [hact] at h
      by_cases hz : a1 = 0 ∨ a2 = 0
      · rw [if_pos hz] at h; cases h
      · rw [if_neg hz] at h
        rcases exceptBind_ok.mp h with ⟨v1, hv1, h⟩
        rcases exceptBind_ok.mp h with ⟨v2, hv2, h⟩
        rcases exceptBind_ok.mp h with ⟨p, hp, hcommit⟩
        obtain ⟨s1, vv⟩ := p
        refine ⟨v1, v2, hv1, hv2, ?_⟩
        by_cases hmis : (v1.size ≠ 1 ∧ v1.size ≠ max v1.size v2.size) ∨
            (v2.size ≠ 1 ∧ v2.size ≠ max v1.size v2.size)
        · rw [if_pos hmis] at hp; cases hp
        · rw [if_neg hmis] at hp
          by_cases hd : v1.dirty ∨ v2.dirty
          · rw [if_pos hd] at hp
            rcases exceptBind_ok.mp hp with ⟨se, he, hp⟩
            rcases exceptBind_ok.mp hp with ⟨w1, hw1, hp⟩
            rcases exceptMap_ok.mp hp with ⟨w2, hw2, hpair⟩
            injection hpair with hs hv
            subst hs
            subst hv
            have hkcse : KeyConsistent se :=
              (jit_eval_main he).2.2.2.2.2.2.1 hkc
            have hkc2 : KeyConsistent (bumpInt (bumpInt se a1) a2) :=
              keyConsistent_aupdate rcOnly_incInt
                (keyConsistent_aupdate rcOnly_incInt hkcse)
            exact appendCommit_size hkc2 hcommit
          · rw [if_neg hd] at hp
            injection hp with hpair
            injection hpair with hs hv
            subst hs
            subst hv
            have hkc2 : KeyConsistent (bumpInt (bumpInt s a1) a2) :=
              keyConsistent_aupdate rcOnly_incInt
                (keyConsistent_aupdate rcOnly_incInt hkc)
            exact appendCommit_size hkc2 hcommit
  · intro sid v1 v2 hact h1 h2 hlk1 hlk2 hmis
    unfold jit_trace_append2
    simp only [hact]
    rw [if_neg (fun h : a1 = 0 ∨ a2 = 0 => h.elim h1 h2), hlk1, exceptOkBind,
      hlk2, exceptOkBind, if_pos hmis, exceptErrBind]
    rfl
  · intro idx s' h
    unfold jit_trace_append3 at h
    cases hact : s.activeStream with
    | none => rw [hact] at h; cases h
    | some sid =>
      simp only [hact] at h
      by_cases hz : a1 = 0 ∨ a2 = 0 ∨ a3 = 0
      · rw [if_pos hz] at h; cases h
      · rw [if_neg hz] at h
        rcases exceptBind_ok.mp h with ⟨v1, hv1, h⟩
        rcases exceptBind_ok.mp h with ⟨v2, hv2, h⟩
        rcases exceptBind_ok.mp h with ⟨v3, hv3, h⟩
        rcases exceptBind_ok.mp h with ⟨p, hp, hcommit⟩
        obtain ⟨s1, vv⟩ := p
        refine ⟨v1, v2, v3, hv1, hv2, hv3, ?_⟩
        by_cases hmis :
            (v1.size ≠ 1 ∧ v1.size ≠ max (max v1.size v2.size) v3.size) ∨
            (v2.size ≠ 1 ∧ v2.size ≠ max (max v1.size v2.size) v3.size) ∨
            (v3.size ≠ 1 ∧ v3.size ≠ max (max v1.size v2.size) v3.size)
        · rw [if_pos hmis] at hp; cases hp
        · rw [if_neg hmis] at hp
          by_cases hd : v1.dirty ∨ v2.dirty ∨ v3.dirty
          · rw [if_pos hd] at hp
            rcases exceptBind_ok.mp hp with ⟨se, he, hp⟩
            rcases exceptBind_ok.mp hp with ⟨w1, hw1, hp⟩
            rcases exceptBind_ok.mp hp with ⟨w2, hw2, hp⟩
            rcases exceptMap_ok.mp hp with ⟨w3, hw3, hpair⟩
            injection hpair with hs hv
            subst hs
            subst hv
            have hkcse : KeyConsistent se :=
              (jit_eval_main he).2.2.2.2.2.2.1 hkc
            have hkc2 :
                KeyConsistent (bumpInt (bumpInt (bumpInt se a1) a2) a3) :=
              keyConsistent_aupdate rcOnly_incInt
                (keyConsistent_aupdate rcOnly_incInt
                  (keyConsistent_aupdate rcOnly_incInt hkcse))
            exact appendCommit_size hkc2 hcommit
          · rw [if_neg hd] at hp
            injection hp with hpair
            injection hpair with hs hv
            subst hs
            subst hv
            have hkc2 :
                KeyConsistent (bumpInt (bumpInt (bumpInt s a1) a2) a3) :=
              keyConsistent_aupdate rcOnly_incInt
                (keyConsistent_aupdate rcOnly_incInt
                  (keyConsistent_aupdate rcOnly_incInt hkc))
            exact appendCommit_size hkc2 hcommit
  · intro sid v1 v2 v3 hact h1 h2 h3 hlk1 hlk2 hlk3 hmis
    unfold jit_trace_append3
    simp only [hact]
    rw [if_neg (fun h : a1 = 0 ∨ a2 = 0 ∨ a3 = 0 =>
        h.elim h1 (fun h23 => h23.elim h2 h3)), hlk1, exceptOkBind,
      hlk2, exceptOkBind, hlk3, exceptOkBind, if_pos hmis, exceptErrBind]
    rfl

/-- Witness for C2 at a concrete input: in `mixedSizeState` the operands
have sizes 5 and 3, so operand 2's size is neither 1 nor the maximum:
both the 2-operand and the 3-operand append raise. -/
theorem C2_witness :
    isRaiseResult (jit_trace_append2 mixedSizeState .Float32 "c" 1 2) = true ∧
    isRaiseResult (jit_trace_append3 mixedSizeState .Float32 "c" 1 2 1) = true := by
  constructor
  · refine (C2_broadcast 1 ?_).2.1 0 _ _ rfl ?_ ?_ rfl rfl ?_
    · unfold KeyConsistent
      decide
    · decide
    · decide
    · decide
  · refine (C2_broadcast 1 ?_).2.2.2 0 _ _ _ rfl ?_ ?_ ?_ rfl rfl rfl ?_
    · unfold KeyConsistent
      decide
    · decide
    · decide
    · decide
    · decide

/-- In a state without extra-dep pins an evaluation pass preserves every
external reference count: variables with a positive count survive with the
count intact, and variables with a zero count keep (observed) count
zero whether or not they are freed. -/
theorem eval_varExt_all {s s1 : State} (hne : NoExtraDep s)
    (h : jit_eval s = .ok s1) (i : Nat) : varExt s1 i = varExt s i := by
  have pack := (jit_eval_main h).2.2.2.2.2.2.2.2 hne
  have hsurv := pack.2.1
  have hback := pack.2.2.1
  cases hs1 : alookup s1.vars i with
  | some v => exact (hback i (by rw [hs1]; rfl)).2
  | none =>
    have hl : varExt s1 i = 0 := by
      unfold varExt
      rw [hs1]
      rfl
    rw [hl]
    rcases Nat.eq_zero_or_pos (varExt s i) with hz | hp
    · rw [hz]
    · have hsome := hsurv i hp
      rw [hs1] at hsome
      cases hsome

/-- A successful `appendCommit` of a zero-ref tentative node bumps the
returned id's external count by one and inserts it into the stream's
pending set. -/
theorem appendCommit_c1 {s2 : State} {vv : Variable} {sid idx : Nat} {s' : State}
    (hvv : vv.ref_count_ext = 0) (hstream : (alookup s2.streams sid).isSome = true)
    (h : appendCommit s2 vv sid = .ok (idx, s')) :
    varExt s' idx = varExt s2 idx + 1 ∧ idx ∈ todoOf s' sid := by
  obtain ⟨s3, hta, rfl⟩ := appendCommit_cases h
  exact append_tail hta hvv hstream

/-- If the active stream is set, `StreamOK` gives its table entry. -/
theorem streamOK_some {s : State} {sid : Nat} (hso : StreamOK s)
    (hact : s.activeStream = some sid) :
    (alookup s.streams sid).isSome = true := by
  apply hso
  rw [hact]
  exact List.Mem.head []

/-- C1: in a state without extra-dep pins and with a well-formed active
stream, every successful trace append (any arity) returns an id whose
external reference count is exactly one higher than before the call, and
inserts that id into the active stream's pending set. -/
theorem C1_append_refcount {s : State} (hne : NoExtraDep s) (hso : StreamOK s) :
    (∀ (t : EnokiType) (st : String) (idx : Nat) (s' : State),
      jit_trace_append0 s t st = .ok (idx, s') →
      varExt s' idx = varExt s idx + 1 ∧
      ∃ sid, s.activeStream = some sid ∧ idx ∈ todoOf s' sid) ∧
    (∀ (t : EnokiType) (st : String) (a1 idx : Nat) (s' : State),
      jit_trace_append1 s t st a1 = .ok (idx, s') →
      varExt s' idx = varExt s idx + 1 ∧
      ∃ sid, s.activeStream = some sid ∧ idx ∈ todoOf s' sid) ∧
    (∀ (t : EnokiType) (st : String) (a1 a2 idx : Nat) (s' : State),
      jit_trace_append2 s t st a1 a2 = .ok (idx, s') →
      varExt s' idx = varExt s idx + 1 ∧
      ∃ sid, s.activeStream = some sid ∧ idx ∈ todoOf s' sid) ∧
    (∀ (t : EnokiType) (st : String) (a1 a2 a3 idx : Nat) (s' : State),
      jit_trace_append3 s t st a1 a2 a3 = .ok (idx, s') →
      varExt s' idx = varExt s idx + 1 ∧
      ∃ sid, s.activeStream = some sid ∧ idx ∈ todoOf s' sid) := by
  refine ⟨?_, ?_, ?_, ?_⟩
  · intro t st idx s' h
    unfold jit_trace_append0 at h
    cases hact : s.activeStream with
    | none => rw [hact] at h; cases h
    | some sid =>
      simp only [hact] at h
      obtain ⟨h1, h2⟩ := appendCommit_c1 rfl (streamOK_some hso hact) h
      exact ⟨h1, sid, rfl, h2⟩
  · intro t st a1 idx s' h
    unfold jit_trace_append1 at h
    cases hact : s.activeStream with
    | none => rw [hact] at h; cases h
    | some sid =>
      simp only [hact] at h
      by_cases hz : a1 = 0
      · rw [if_pos hz] at h; cases h
      · rw [if_neg hz] at h
        rcases exceptBind_ok.mp h with ⟨v1, hv1, h⟩
        rcases exceptBind_ok.mp h with ⟨p, hp, hcommit⟩
        obtain ⟨s1, vv⟩ := p
        by_cases hd : v1.dirty
        · rw [if_pos hd] at hp
          rcases exceptBind_ok.mp hp with ⟨se, he, hp⟩
          rcases exceptMap_ok.mp hp with ⟨w1, hw1, hpair⟩
          injection hpair with hs hv
          subst hs
          subst hv
          have hstr : (alookup (bumpInt se a1).streams sid).isSome = true := by
            show (alookup se.streams sid).isSome = true
            rw [(jit_eval_main he).2.2.2.1 sid]
            exact streamOK_some hso hact
          obtain ⟨h1, h2⟩ := appendCommit_c1 rfl hstr hcommit
          refine ⟨?_, sid, rfl, h2⟩
          rw [h1, varExt_bumpInt, eval_varExt_all hne he idx]
        · rw [if_neg hd] at hp
          injection hp with hpair
          injection hpair with hs hv
          subst hs
          subst hv
          have hstr : (alookup (bumpInt s a1).streams sid).isSome = true :=
            streamOK_some hso hact
          obtain ⟨h1, h2⟩ := appendCommit_c1 rfl hstr hcommit
          refine ⟨?_, sid, rfl, h2⟩
          rw [h1, varExt_bumpInt]
  · intro t st a1 a2 idx s' h
    unfold jit_trace_append2 at h
    cases hact : s.activeStream with
    | none => rw [hact] at h; cases h
    | some sid =>
      simp only [hact] at h
      by_cases hz : a1 = 0 ∨ a2 = 0
      · rw [if_pos hz] at h; cases h
      · rw [if_neg hz] at h
        rcases exceptBind_ok.mp h with ⟨v1, hv1, h⟩
        rcases exceptBind_ok.mp h with ⟨v2, hv2, h⟩
        rcases exceptBind_ok.mp h with ⟨p, hp, hcommit⟩
        obtain ⟨s1, vv⟩ := p
        by_cases hmis : (v1.size ≠ 1 ∧ v1.size ≠ max v1.size v2.size) ∨
            (v2.size ≠ 1 ∧ v2.size ≠ max v1.size v2.size)
        · rw [if_pos hmis] at hp; cases hp
        · rw [if_neg hmis] at hp
          by_cases hd : v1.dirty ∨ v2.dirty
          · rw [if_pos hd] at hp
            rcases exceptBind_ok.mp hp with ⟨se, he, hp⟩
            rcases exceptBind_ok.mp hp with ⟨w1, hw1, hp⟩
            rcases exceptMap_ok.mp hp with ⟨w2, hw2, hpair⟩
            injection hpair with hs hv
            subst hs
            subst hv
            have hstr :
                (alookup (bumpInt (bumpInt se a1) a2).streams sid).isSome = true := by
              show (alookup se.streams sid).isSome = true
              rw [(jit_eval_main he).2.2.2.1 sid]
              exact streamOK_some hso hact
            obtain ⟨h1, h2⟩ := appendCommit_c1 rfl hstr hcommit
            refine ⟨?_, sid, rfl, h2⟩
            rw [h1, varExt_bumpInt, varExt_bumpInt, eval_varExt_all hne he idx]
          · rw [if_neg hd] at hp
            injection hp with hpair
            injection hpair with hs hv
            subst hs
            subst hv
            have hstr :
                (alookup (bumpInt (bumpInt s a1) a2).streams sid).isSome = true :=
              streamOK_some hso hact
            obtain ⟨h1, h2⟩ := appendCommit_c1 rfl hstr hcommit
            refine ⟨?_, sid, rfl, h2⟩
            rw [h1, varExt_bumpInt, varExt_bumpInt]
  · intro t st a1 a2 a3 idx s' h
    unfold jit_trace_append3 at h
    cases hact : s.activeStream with
    | none => rw [hact] at h; cases h
    | some sid =>
      simp only [hact] at h
      by_cases hz : a1 = 0 ∨ a2 = 0 ∨ a3 = 0
      · rw [if_pos hz] at h; cases h
      · rw [if_neg hz] at h
        rcases exceptBind_ok.mp h with ⟨v1, hv1, h⟩
        rcases exceptBind_ok.mp h with ⟨v2, hv2, h⟩
        rcases exceptBind_ok.mp h with ⟨v3, hv3, h⟩
        rcases exceptBind_ok.mp h with ⟨p, hp, hcommit⟩
        obtain ⟨s1, vv⟩ := p
        by_cases hmis :
            (v1.size ≠ 1 ∧ v1.size ≠ max (max v1.size v2.size) v3.size) ∨
            (v2.size ≠ 1 ∧ v2.size ≠ max (max v1.size v2.size) v3.size) ∨
            (v3.size ≠ 1 ∧ v3.size ≠ max (max v1.size v2.size) v3.size)
        · rw [if_pos hmis] at hp; cases hp
        · rw [if_neg hmis] at hp
          by_cases hd : v1.dirty ∨ v2.dirty ∨ v3.dirty
          · rw [if_pos hd] at hp
            rcases exceptBind_ok.mp hp with ⟨se, he, hp⟩
            rcases exceptBind_ok.mp hp with ⟨w1, hw1, hp⟩
            rcases exceptBind_ok.mp hp with ⟨w2, hw2, hp⟩
            rcases exceptMap_ok.mp hp with ⟨w3, hw3, hpair⟩
            injection hpair with hs hv
            subst hs
            subst hv
            have hstr :
                (alookup (bumpInt (bumpInt (bumpInt se a1) a2) a3).streams
                  sid).isSome = true := by
              show (alookup se.streams sid).isSome = true
              rw [(jit_eval_main he).2.2.2.1 sid]
              exact streamOK_some hso hact
            obtain ⟨h1, h2⟩ := appendCommit_c1 rfl hstr hcommit
            refine ⟨?_, sid, rfl, h2⟩
            rw [h1, varExt_bumpInt, varExt_bumpInt, varExt_bumpInt,
              eval_varExt_all hne he idx]
          · rw [if_neg hd] at hp
            injection hp with hpair
            injection hpair with hs hv
            subst hs
            subst hv
            have hstr :
                (alookup (bumpInt (bumpInt (bumpInt s a1) a2) a3).streams
                  sid).isSome = true :=
              streamOK_some hso hact
            obtain ⟨h1, h2⟩ := appendCommit_c1 rfl hstr hcommit
            refine ⟨?_, sid, rfl, h2⟩
            rw [h1, varExt_bumpInt, varExt_bumpInt, varExt_bumpInt]

/-- Witness for C1 at a concrete input: appending a 0-operand node in the
stream-only state yields id 1 with external count 1 = 0 + 1 and inserts 1
into stream 0's pending set. -/
theorem C1_witness :
    varExt oneVarState 1 = varExt streamOnlyState 1 + 1 ∧
    1 ∈ todoOf oneVarState 0 := by
  have h := (C1_append_refcount
      (show NoExtraDep streamOnlyState by unfold NoExtraDep; decide)
      (show StreamOK streamOnlyState by unfold StreamOK; decide)).1
    .Float32 "a" 1 oneVarState (by decide)
  obtain ⟨h1, sid, hact, hmem⟩ := h
  refine ⟨h1, ?_⟩
  have hsid : sid = 0 := by
    have hs : some sid = some 0 := by rw [← hact]; decide
    exact Option.some.inj hs
  rw [← hsid]
  exact hmem

/-- A successful `jitVarLk` is a variable-table hit. -/
theorem jitVarLk_some {s : State} {i : Nat} {v : Variable}
    (h : jitVarLk s i = .ok v) : alookup s.vars i = some v := by
  unfold jitVarLk at h
  split at h
  · exact Except.noConfusion h
  · rename_i w hw
    rw [hw]
    exact congrArg some (Except.ok.inj h)

/-- The id returned by a successful `appendCommit` is live in the
resulting state. -/
theorem appendCommit_live {s2 : State} {vv : Variable} {sid idx : Nat} {s' : State}
    (h : appendCommit s2 vv sid = .ok (idx, s')) :
    (alookup s'.vars idx).isSome = true := by
  obtain ⟨s3, hta, rfl⟩ := appendCommit_cases h
  have hsome3 : (alookup s3.vars idx).isSome = true := by
    rcases traceAppendVar_cases hta with ⟨_, rfl, hsome⟩ |
      ⟨_, _, _, hvrs, _, _, _, _, _, _⟩
    · exact hsome
    · rw [hvrs, alookup_cons, if_pos rfl]; rfl
  show (alookup (aupdate s3.vars idx incExtF) idx).isSome = true
  rw [alookup_aupdate_self]
  cases hw : alookup s3.vars idx with
  | none => rw [hw] at hsome3; cases hsome3
  | some w => rfl

/-- The id returned by a successful 1-operand trace append is live in
the resulting state. -/
theorem jit_trace_append1_live {s : State} {t : EnokiType} {st : String}
    {a1 idx : Nat} {s1 : State} (h : jit_trace_append1 s t st a1 = .ok (idx, s1)) :
    (alookup s1.vars idx).isSome = true := by
  unfold jit_trace_append1 at h
  cases hact : s.activeStream with
  | none => rw [hact] at h; cases h
  | some sid =>
    simp only [hact] at h
    by_cases hz : a1 = 0
    · rw [if_pos hz] at h; cases h
    · rw [if_neg hz] at h
      rcases exceptBind_ok.mp h with ⟨v1, hv1, h⟩
      rcases exceptBind_ok.mp h with ⟨p, hp, hcommit⟩
      obtain ⟨sm, vv⟩ := p
      exact appendCommit_live hcommit

/-- C7 (amended): for `jit_var_set_size(index, size, copy)` with a size
change: when the variable is materialized or internally referenced, the
call is rejected with a recoverable error unless it is scalar and `copy`
is set, in which case a successful call returns the copy node's id whose
(surviving) record has the requested size; when the variable is
unevaluated and internally unreferenced, it is resized in place and the
same id is returned with the requested size. -/
theorem C7_set_size {s : State} {i size : Nat} {copy : Bool} {v : Variable}
    (hv : jitVarLk s i = .ok v) (hne : v.size ≠ size) :
    ((v.data ≠ none ∨ 0 < v.ref_count_int) → ¬(v.size = 1 ∧ copy = true) →
      isRaiseResult (jit_var_set_size s i size copy) = true) ∧
    (v.data = none → v.ref_count_int = 0 →
      jit_var_set_size s i size copy = .ok (i, inPlaceResize s i size) ∧
      varSize (inPlaceResize s i size) i = size) ∧
    (∀ idxNew s', (v.data ≠ none ∨ 0 < v.ref_count_int) →
      jit_var_set_size s i size copy = .ok (idxNew, s') →
      (v.size = 1 ∧ copy = true) ∧
      (∀ w, alookup s'.vars idxNew = some w → w.size = size)) := by
  refine ⟨?_, ?_, ?_⟩
  · intro hmat hguard
    unfold jit_var_set_size
    rw [hv, exceptOkBind, if_neg hne, if_pos hmat, if_neg hguard]
    rfl
  · intro hdata hint
    have hmat : ¬(v.data ≠ none ∨ 0 < v.ref_count_int) := by
      intro hc
      rcases hc with hd | hp
      · exact hd hdata
      · rw [hint] at hp
        exact Nat.lt_irrefl 0 hp
    constructor
    · unfold jit_var_set_size
      rw [hv, exceptOkBind, if_neg hne, if_neg hmat]
      rfl
    · unfold varSize inPlaceResize
      rw [show ({ s with vars := aupdate s.vars i (fun w => { w with size := size }) } :
        State).vars = aupdate s.vars i (fun w => { w with size := size }) from rfl,
        alookup_aupdate_self, jitVarLk_some hv]
      rfl
  · intro idxNew s' hmat h
    unfold jit_var_set_size at h
    rw [hv, exceptOkBind, if_neg hne, if_pos hmat] at h
    by_cases hguard : v.size = 1 ∧ copy = true
    · rw [if_pos hguard] at h
      refine ⟨hguard, ?_⟩
      rcases exceptBind_ok.mp h with ⟨p, hq, h⟩
      obtain ⟨idxN, s1⟩ := p
      rcases exceptMap_ok.mp h with ⟨s3, hdec, hpair⟩
      injection hpair with hidx hs
      subst hidx
      subst hs
      intro w hw
      have hcasc : CascR { s1 with
          vars := aupdate s1.vars idxN (fun u => { u with size := size }) } s3 :=
        decExtAux_cascR _ (freeVar_cascQ _) _ _ _ hdec
      obtain ⟨w0, hw0, hshape⟩ := hcasc.1.varsSur idxN w hw
      rw [show ({ s1 with
          vars := aupdate s1.vars idxN (fun u => { u with size := size }) } :
          State).vars = aupdate s1.vars idxN (fun u => { u with size := size })
          from rfl, alookup_aupdate_self] at hw0
      have hlive := jit_trace_append1_live hq
      cases hu : alookup s1.vars idxN with
      | none => rw [hu] at hlive; cases hlive
      | some u =>
        rw [hu] at hw0
        have : ({ u with size := size } : Variable) = w0 := Option.some.inj hw0
        rw [hshape.2.1, ← this]
    · rw [if_neg hguard] at h
      cases h

/-- Variable-table updates that do not decrease the external count and do
not touch `extra_dep` preserve the pending-set invariant package. -/
theorem c6inv_aupdate {s : State} {i : Nat} {f : Variable → Variable}
    (hext : ∀ v, v.ref_count_ext ≤ (f v).ref_count_ext)
    (hed : ∀ v, (f v).extra_dep = v.extra_dep)
    (h : C6Inv s) : C6Inv { s with vars := aupdate s.vars i f } := by
  obtain ⟨hne, hss, hti⟩ := h
  refine ⟨?_, hss, ?_⟩
  · intro p hp
    rcases mem_aupdate hp with hmem | ⟨_, v, hv, hval⟩
    · exact hne p hmem
    · rw [hval, hed]
      exact hne (i, v) hv
  · intro q hq j hj
    have hold := hti q hq j hj
    show 0 < varExt { s with vars := aupdate s.vars i f } j
    unfold varExt
    rw [show ({ s with vars := aupdate s.vars i f } : State).vars =
      aupdate s.vars i f from rfl]
    by_cases hji : j = i
    · subst hji
      rw [alookup_aupdate_self]
      unfold varExt at hold
      cases hv : alookup s.vars j with
      | none =>
        rw [hv] at hold
        exact absurd hold (Nat.lt_irrefl 0)
      | some v =>
        rw [hv] at hold
        exact Nat.lt_of_lt_of_le hold (hext v)
    · rw [alookup_aupdate_ne hji]
      exact hold

/-- Inserting a positively referenced id into a stream's pending set
preserves the pending-set invariant package. -/
theorem c6inv_pushTodo {s : State} {sid i : Nat} (hpos : 0 < varExt s i)
    (h : C6Inv s) : C6Inv (pushTodo s sid i) := by
  obtain ⟨hne, hss, hti⟩ := h
  refine ⟨hne, ⟨?_, hss.2⟩, ?_⟩
  · intro q hq
    have hq2 : q ∈ aupdate s.streams sid (fun td => todoInsert td i) := hq
    rcases mem_aupdate hq2 with hmem | ⟨hk, td, htd, _⟩
    · exact hss.1 q hmem
    · rw [hk]
      exact hss.1 (sid, td) htd
  · intro q hq j hj
    have hq2 : q ∈ aupdate s.streams sid (fun td => todoInsert td i) := hq
    rcases mem_aupdate hq2 with hmem | ⟨_, td, htd, hval⟩
    · exact hti q hmem j hj
    · rw [hval] at hj
      rcases mem_todoInsert_elim hj with hjtd | hji
      · exact hti (sid, td) htd j hjtd
      · subst hji
        exact hpos

/-- The CSE core preserves the pending-set invariant package when the
tentative node carries no extra-dep pin. -/
theorem c6inv_traceAppendVar {s : State} {v : Variable} {idx : Nat} {s' : State}
    (hved : v.extra_dep = 0) (h : traceAppendVar s v = .ok (idx, s'))
    (hinv : C6Inv s) : C6Inv s' := by
  rcases traceAppendVar_cases h with ⟨_, rfl, _⟩ |
    ⟨_, _, hnone, hvrs, _, _, hstr, hact, _, _⟩
  · exact hinv
  · obtain ⟨hne, hss, hti⟩ := hinv
    refine ⟨?_, ⟨?_, ?_⟩, ?_⟩
    · intro p hp
      rw [hvrs] at hp
      rcases List.mem_cons.mp hp with rfl | hmem
      · exact hved
      · exact hne p hmem
    · intro q hq
      rw [hstr] at hq
      exact hss.1 q hq
    · intro sid hsid
      rw [hact] at hsid
      exact hss.2 sid hsid
    · intro q hq j hj
      rw [hstr] at hq
      have hold := hti q hq j hj
      unfold varExt
      rw [hvrs, alookup_cons]
      by_cases hji : idx = j
      · subst hji
        unfold varExt at hold
        rw [hnone] at hold
        exact absurd hold (Nat.lt_irrefl 0)
      · rw [if_neg hji]
        exact hold

/-- The common trace-append tail preserves the pending-set invariant
package when the tentative node carries no extra-dep pin. -/
theorem c6inv_appendCommit {s2 : State} {vv : Variable} {sid idx : Nat} {s' : State}
    (hved : vv.extra_dep = 0) (h : appendCommit s2 vv sid = .ok (idx, s'))
    (hinv : C6Inv s2) : C6Inv s' := by
  obtain ⟨s3, hta, rfl⟩ := appendCommit_cases h
  have h3 : C6Inv s3 := c6inv_traceAppendVar hved hta hinv
  have hsome3 : (alookup s3.vars idx).isSome = true := by
    rcases traceAppendVar_cases hta with ⟨_, rfl, hsome⟩ |
      ⟨_, _, _, hvrs, _, _, _, _, _, _⟩
    · exact hsome
    · rw [hvrs, alookup_cons, if_pos rfl]; rfl
  have h4 : C6Inv (bumpExt s3 idx) :=
    c6inv_aupdate (fun v => Nat.le_succ _) (fun v => rfl) h3
  have hpos : 0 < varExt (bumpExt s3 idx) idx := by
    rw [varExt_bumpExt_self hsome3]
    exact Nat.succ_pos _
  exact c6inv_pushTodo hpos h4

/-- An evaluation pass preserves the pending-set invariant package. -/
theorem c6inv_eval {s s' : State} (h : jit_eval s = .ok s') (hinv : C6Inv s) :
    C6Inv s' := by
  obtain ⟨hne, hss, hti⟩ := hinv
  obtain ⟨hact, -, -, hdom, -, -, -, -, hpack⟩ := jit_eval_main h
  obtain ⟨hne2, -, -, hstr⟩ := hpack hne
  refine ⟨hne2, ⟨?_, ?_⟩, ?_⟩
  · intro q hq
    have hq0 : (alookup s'.streams q.1).isSome = true := alookup_isSome_of_mem hq
    rw [hdom q.1] at hq0
    cases hlk : alookup s.streams q.1 with
    | none => rw [hlk] at hq0; cases hq0
    | some td => exact hss.1 (q.1, td) (mem_of_alookup hlk)
  · intro sid hsid
    rw [hact] at hsid
    exact hss.2 sid hsid
  · intro q hq j hj
    rcases hstr q hq with hmem | hempty
    · have hold := hti q hmem j hj
      rw [eval_varExt_all hne h j]
      exact hold
    · rw [hempty] at hj
      cases hj

/-- An external-reference drop preserves the pending-set invariant
package: in a single-stream state the todo erase on the active stream
reaches every stream entry. -/
theorem c6inv_dec_ref_ext {s s' : State} {i : Nat}
    (h : jit_dec_ref_ext s i = .ok s') (hinv : C6Inv s) : C6Inv s' := by
  unfold jit_dec_ref_ext decExtAux at h
  split at h
  · cases h
    exact hinv
  · split at h
    · exact Except.noConfusion h
    · rename_i v hv
      split at h
      · exact Except.noConfusion h
      · rename_i hvnz
        rcases exceptBind_ok.mp h with ⟨s2, h2, h3⟩
        obtain ⟨hne, hss, hti⟩ := hinv
        have hne0 : NoExtraDep (decExtState s i) := by
          intro p hp
          rcases mem_aupdate hp with hmem | ⟨_, w, hw, hval⟩
          · exact hne p hmem
          · rw [hval]
            exact hne (i, w) hw
        have hs2 : C6Inv s2 ∧ s2.vars = aupdate s.vars i decExtF := by
          split at h2
          · rename_i hzero
            split at h2
            · exact Except.noConfusion h2
            · rename_i sid hactive
              cases h2
              have hsid0 : sid = 0 :=
                hss.2 sid (by rw [hactive]; exact List.Mem.head [])
              refine ⟨⟨hne0, ⟨?_, hss.2⟩, ?_⟩, rfl⟩
              · intro q hq
                rcases mem_aupdate hq with hmem | ⟨hk, td, htd, _⟩
                · exact hss.1 q hmem
                · rw [hk, hsid0]
              · intro q hq j hj
                rcases mem_aupdate_strong hq with ⟨hqmem, hqne⟩ |
                  ⟨_, td, htd, hval⟩
                · rw [hsid0] at hqne
                  exact absurd (hss.1 q hqmem) hqne
                · rw [hval] at hj
                  obtain ⟨hjtd, hjne⟩ := mem_todoErase hj
                  have hold := hti (sid, td) htd j hjtd
                  unfold varExt
                  rw [show (todoEraseState (decExtState s i) sid i).vars =
                    aupdate s.vars i decExtF from rfl, alookup_aupdate_ne hjne]
                  exact hold
          · rename_i hzero
            cases h2
            refine ⟨⟨hne0, hss, ?_⟩, rfl⟩
            intro q hq j hj
            have hold := hti q hq j hj
            unfold varExt
            rw [show (decExtState s i).vars = aupdate s.vars i decExtF from rfl]
            by_cases hji : j = i
            · subst hji
              rw [alookup_aupdate_self, hv]
              exact Nat.pos_of_ne_zero hzero
            · rw [alookup_aupdate_ne hji]
              exact hold
        obtain ⟨⟨hne2, hss2, hti2⟩, hvars2⟩ := hs2
        split at h3
        · rename_i hcc
          have hpre : ExtZeroPre s2 i := by
            intro w hw
            rw [hvars2, alookup_aupdate_self, hv] at hw
            have hwe : decExtF v = w := Option.some.inj hw
            rw [← hwe]
            exact hcc.1
          have hq := freeVar_cascQ _ _ _ _ hpre h3
          have hee : ExtEvo s2 s' := hq.2.2.2 hne2
          refine ⟨hee.next, ⟨?_, ?_⟩, ?_⟩
          · intro q hqq
            rw [hee.streamsEq] at hqq
            exact hss2.1 q hqq
          · intro sid hsid
            rw [hq.1.active] at hsid
            exact hss2.2 sid hsid
          · intro q hqq j hj
            rw [hee.streamsEq] at hqq
            have hold := hti2 q hqq j hj
            have hsome := hee.surv j hold
            rw [(hee.back j hsome).2]
            exact hold
        · cases h3
          exact ⟨hne2, hss2, hti2⟩

/-- An external-reference bump preserves the pending-set invariant
package. -/
theorem c6inv_inc_ref_ext {s s' : State} {i : Nat}
    (h : jit_inc_ref_ext s i = .ok s') (hinv : C6Inv s) : C6Inv s' := by
  unfold jit_inc_ref_ext at h
  split at h
  · cases h
    exact hinv
  · rcases exceptBind_ok.mp h with ⟨v, hv, h2⟩
    cases h2
    exact c6inv_aupdate (fun v => Nat.le_succ _) (fun v => rfl) hinv

/-- A 1-operand trace append preserves the pending-set invariant
package. -/
theorem c6inv_append1 {s : State} {t : EnokiType} {st : String} {a1 idx : Nat}
    {s1 : State} (h : jit_trace_append1 s t st a1 = .ok (idx, s1))
    (hinv : C6Inv s) : C6Inv s1 := by
  unfold jit_trace_append1 at h
  cases hact : s.activeStream with
  | none => rw [hact] at h; cases h
  | some sid =>
    simp only [hact] at h
    by_cases hz : a1 = 0
    · rw [if_pos hz] at h; cases h
    · rw [if_neg hz] at h
      rcases exceptBind_ok.mp h with ⟨v1, hv1, h⟩
      rcases exceptBind_ok.mp h with ⟨p, hp, hcommit⟩
      obtain ⟨sm, vv⟩ := p
      by_cases hd : v1.dirty
      · rw [if_pos hd] at hp
        rcases exceptBind_ok.mp hp with ⟨se, he, hp⟩
        rcases exceptMap_ok.mp hp with ⟨w1, hw1, hpair⟩
        injection hpair with hs hvv
        subst hs
        subst hvv
        exact c6inv_appendCommit rfl hcommit
          (c6inv_aupdate (fun v => Nat.le_refl _) (fun v => rfl) (c6inv_eval he hinv))
      · rw [if_neg hd] at hp
        injection hp with hpair
        injection hpair with hs hvv
        subst hs
        subst hvv
        exact c6inv_appendCommit rfl hcommit
          (c6inv_aupdate (fun v => Nat.le_refl _) (fun v => rfl) hinv)

/-- A 2-operand trace append preserves the pending-set invariant
package. -/
theorem c6inv_append2 {s : State} {t : EnokiType} {st : String} {a1 a2 idx : Nat}
    {s1 : State} (h : jit_trace_append2 s t st a1 a2 = .ok (idx, s1))
    (hinv : C6Inv s) : C6Inv s1 := by
  unfold jit_trace_append2 at h
  cases hact : s.activeStream with
  | none => rw [hact] at h; cases h
  | some sid =>
    simp only [hact] at h
    by_cases hz : a1 = 0 ∨ a2 = 0
    · rw [if_pos hz] at h; cases h
    · rw [if_neg hz] at h
      rcases exceptBind_ok.mp h with ⟨v1, hv1, h⟩
      rcases exceptBind_ok.mp h with ⟨v2, hv2, h⟩
      rcases exceptBind_ok.mp h with ⟨p, hp, hcommit⟩
      obtain ⟨sm, vv⟩ := p
      by_cases hmis : (v1.size ≠ 1 ∧ v1.size ≠ max v1.size v2.size) ∨
          (v2.size ≠ 1 ∧ v2.size ≠ max v1.size v2.size)
      · rw [if_pos hmis] at hp; cases hp
      · rw [if_neg hmis] at hp
        by_cases hd : v1.dirty ∨ v2.dirty
        · rw [if_pos hd] at hp
          rcases exceptBind_ok.mp hp with ⟨se, he, hp⟩
          rcases exceptBind_ok.mp hp with ⟨w1, hw1, hp⟩
          rcases exceptMap_ok.mp hp with ⟨w2, hw2, hpair⟩
          injection hpair with hs hvv
          subst hs
          subst hvv
          refine c6inv_appendCommit rfl hcommit ?_
          exact c6inv_aupdate (fun v => Nat.le_refl _) (fun v => rfl)
            (c6inv_aupdate (fun v => Nat.le_refl _) (fun v => rfl) (c6inv_eval he hinv))
        · rw [if_neg hd] at hp
          injection hp with hpair
          injection hpair with hs hvv
          subst hs
          subst hvv
          refine c6inv_appendCommit rfl hcommit ?_
          exact c6inv_aupdate (fun v => Nat.le_refl _) (fun v => rfl)
            (c6inv_aupdate (fun v => Nat.le_refl _) (fun v => rfl) hinv)

/-- A 3-operand trace append preserves the pending-set invariant
package. -/
theorem c6inv_append3 {s : State} {t : EnokiType} {st : String} {a1 a2 a3 idx : Nat}
    {s1 : State} (h : jit_trace_append3 s t st a1 a2 a3 = .ok (idx, s1))
    (hinv : C6Inv s) : C6Inv s1 := by
  unfold jit_trace_append3 at h
  cases hact : s.activeStream with
  | none => rw [hact] at h; cases h
  | some sid =>
    simp only [hact] at h
    by_cases hz : a1 = 0 ∨ a2 = 0 ∨ a3 = 0
    · rw [if_pos hz] at h; cases h
    · rw [if_neg hz] at h
      rcases exceptBind_ok.mp h with ⟨v1, hv1, h⟩
      rcases exceptBind_ok.mp h with ⟨v2, hv2, h⟩
      rcases exceptBind_ok.mp h with ⟨v3, hv3, h⟩
      rcases exceptBind_ok.mp h with ⟨p, hp, hcommit⟩
      obtain ⟨sm, vv⟩ := p
      by_cases hmis :
          (v1.size ≠ 1 ∧ v1.size ≠ max (max v1.size v2.size) v3.size) ∨
          (v2.size ≠ 1 ∧ v2.size ≠ max (max v1.size v2.size) v3.size) ∨
          (v3.size ≠ 1 ∧ v3.size ≠ max (max v1.size v2.size) v3.size)
      · rw [if_pos hmis] at hp; cases hp
      · rw [if_neg hmis] at hp
        by_cases hd : v1.dirty ∨ v2.dirty ∨ v3.dirty
        · rw [if_pos hd] at hp
          rcases exceptBind_ok.mp hp with ⟨se, he, hp⟩
          rcases exceptBind_ok.mp hp with ⟨w1, hw1, hp⟩
          rcases exceptBind_ok.mp hp with ⟨w2, hw2, hp⟩
          rcases exceptMap_ok.mp hp with ⟨w3, hw3, hpair⟩
          injection hpair with hs hvv
          subst hs
          subst hvv
          refine c6inv_appendCommit rfl hcommit ?_
          exact c6inv_aupdate (fun v => Nat.le_refl _) (fun v => rfl)
            (c6inv_aupdate (fun v => Nat.le_refl _) (fun v => rfl)
              (c6inv_aupdate (fun v => Nat.le_refl _) (fun v => rfl)
                (c6inv_eval he hinv)))
        · rw [if_neg hd] at hp
          injection hp with hpair
          injection hpair with hs hvv
          subst hs
          subst hvv
          refine c6inv_appendCommit rfl hcommit ?_
          exact c6inv_aupdate (fun v => Nat.le_refl _) (fun v => rfl)
            (c6inv_aupdate (fun v => Nat.le_refl _) (fun v => rfl)
              (c6inv_aupdate (fun v => Nat.le_refl _) (fun v => rfl) hinv))

/-- Every single-stream API step preserves the pending-set invariant
package. -/
theorem c6inv_step {s s' : State} {o : Op} (hsso : singleStreamOp o = true)
    (h : stepOp s o = .ok s') (hinv : C6Inv s) : C6Inv s' := by
  cases o with
  | append0 t st =>
    rcases exceptMap_ok.mp h with ⟨p, hp, hsnd⟩
    obtain ⟨idx, s1⟩ := p
    subst hsnd
    unfold jit_trace_append0 at hp
    cases hact : s.activeStream with
    | none => rw [hact] at hp; cases hp
    | some sid =>
      simp only [hact] at hp
      exact c6inv_appendCommit rfl hp hinv
  | append1 t st a1 =>
    rcases exceptMap_ok.mp h with ⟨p, hp, hsnd⟩
    obtain ⟨idx, s1⟩ := p
    subst hsnd
    exact c6inv_append1 hp hinv
  | append2 t st a1 a2 =>
    rcases exceptMap_ok.mp h with ⟨p, hp, hsnd⟩
    obtain ⟨idx, s1⟩ := p
    subst hsnd
    exact c6inv_append2 hp hinv
  | append3 t st a1 a2 a3 =>
    rcases exceptMap_ok.mp h with ⟨p, hp, hsnd⟩
    obtain ⟨idx, s1⟩ := p
    subst hsnd
    exact c6inv_append3 hp hinv
  | register t ptr sz fr =>
    rcases exceptMap_ok.mp h with ⟨p, hp, hsnd⟩
    obtain ⟨idx, s1⟩ := p
    subst hsnd
    unfold jit_var_register at hp
    split at hp
    · exact Except.noConfusion hp
    · rcases exceptBind_ok.mp hp with ⟨q, hq, hok⟩
      obtain ⟨idx2, s2⟩ := q
      injection hok with hpair
      injection hpair with hidx hs1
      subst hs1
      exact c6inv_aupdate (fun v => Nat.le_succ _) (fun v => rfl)
        (c6inv_traceAppendVar rfl hq hinv)
  | registerPtr ptr =>
    rcases exceptMap_ok.mp h with ⟨p, hp, hsnd⟩
    obtain ⟨idx, s1⟩ := p
    subst hsnd
    unfold jit_var_register_ptr at hp
    split at hp
    · rcases exceptMap_ok.mp hp with ⟨s2, hinc, hpair⟩
      injection hpair with hidx hs1
      subst hs1
      exact c6inv_inc_ref_ext hinc hinv
    · rcases exceptBind_ok.mp hp with ⟨q, hq, hok⟩
      obtain ⟨idx2, s2⟩ := q
      injection hok with hpair
      injection hpair with hidx hs1
      subst hs1
      have hb : C6Inv (bumpExt s2 idx2) :=
        c6inv_aupdate (fun v => Nat.le_succ _) (fun v => rfl)
          (c6inv_traceAppendVar rfl hq hinv)
      exact ⟨hb.1, hb.2.1, hb.2.2⟩
  | setSize i sz c =>
    rcases exceptMap_ok.mp h with ⟨p, hp, hsnd⟩
    obtain ⟨idx, s1⟩ := p
    subst hsnd
    unfold jit_var_set_size at hp
    rcases exceptBind_ok.mp hp with ⟨v, hv, hp⟩
    by_cases hsz : v.size = sz
    · rw [if_pos hsz] at hp
      injection hp with hpair
      injection hpair with hidx hs1
      subst hs1
      exact hinv
    · rw [if_neg hsz] at hp
      by_cases hmat : v.data ≠ none ∨ 0 < v.ref_count_int
      · rw [if_pos hmat] at hp
        by_cases hguard : v.size = 1 ∧ c = true
        · rw [if_pos hguard] at hp
          rcases exceptBind_ok.mp hp with ⟨q, hq, hp⟩
          obtain ⟨idxN, sm⟩ := q
          rcases exceptMap_ok.mp hp with ⟨s3, hdec, hpair⟩
          injection hpair with hidx hs1
          subst hs1
          have h1 := c6inv_append1 hq hinv
          have h2 : C6Inv { sm with vars := aupdate sm.vars idxN (fun u => { u with size := sz }) } :=
            c6inv_aupdate (fun v => Nat.le_refl _) (fun v => rfl) h1
          exact c6inv_dec_ref_ext hdec h2
        · rw [if_neg hguard] at hp
          exact Except.noConfusion hp
      · rw [if_neg hmat] at hp
        injection hp with hpair
        injection hpair with hidx hs1
        subst hs1
        exact c6inv_aupdate (fun v => Nat.le_refl _) (fun v => rfl) hinv
  | setLabel i lbl =>
    rcases exceptMap_ok.mp h with ⟨v, hv, hs1⟩
    subst hs1
    exact c6inv_aupdate (fun v => Nat.le_refl _) (fun v => rfl) hinv
  | markSideEffect i =>
    rcases exceptMap_ok.mp h with ⟨v, hv, hs1⟩
    subst hs1
    exact c6inv_aupdate (fun v => Nat.le_refl _) (fun v => rfl) hinv
  | markDirty i =>
    rcases exceptMap_ok.mp h with ⟨v, hv, hs1⟩
    subst hs1
    exact c6inv_aupdate (fun v => Nat.le_refl _) (fun v => rfl) hinv
  | incRefExt i => exact c6inv_inc_ref_ext h hinv
  | decRefExt i => exact c6inv_dec_ref_ext h hinv
  | evalOp => exact c6inv_eval h hinv
  | deviceSet sid =>
    have hsid : sid = 0 := of_decide_eq_true hsso
    subst hsid
    have h2 : jit_device_set s 0 = .ok s' := h
    clear h
    unfold jit_device_set at h2
    obtain ⟨hne, hss, hti⟩ := hinv
    split at h2
    · cases h2
      refine ⟨hne, ⟨hss.1, ?_⟩, hti⟩
      intro sid2 hsid2
      have hm : sid2 ∈ [0] := hsid2
      exact List.mem_singleton.mp hm
    · cases h2
      refine ⟨hne, ⟨?_, ?_⟩, ?_⟩
      · intro q hq
        have hq2 : q ∈ (0, ([] : List Nat)) :: aerase s.streams 0 := hq
        rcases List.mem_cons.mp hq2 with rfl | hmem
        · rfl
        · exact hss.1 q (mem_aerase hmem).1
      · intro sid2 hsid2
        have hm : sid2 ∈ [0] := hsid2
        exact List.mem_singleton.mp hm
      · intro q hq j hj
        have hq2 : q ∈ (0, ([] : List Nat)) :: aerase s.streams 0 := hq
        rcases List.mem_cons.mp hq2 with rfl | hmem
        · cases hj
        · exact hti q (mem_aerase hmem).1 j hj

/-- Every single-stream-reachable state satisfies the pending-set
invariant package. -/
theorem c6inv_reach {s : State} (h : ReachSS s) : C6Inv s := by
  induction h with
  | init =>
    refine ⟨?_, ⟨?_, ?_⟩, ?_⟩
    · intro p hp
      cases hp
    · intro q hq
      cases hq
    · intro sid hs
      cases hs
    · intro q hq
      cases hq
  | step hr hss hstep ih => exact c6inv_step hss hstep ih

/-- An internal-reference drop only shrinks the pointer-to-id table,
provided the cleanup handler does. -/
theorem decIntAux_ptr_mono (g : State → Nat → Except JitErr State)
    (hg : ∀ s i s', g s i = .ok s' →
      List.Sublist s'.variable_from_ptr s.variable_from_ptr) :
    ∀ s i s', decIntAux g s i = .ok s' →
      List.Sublist s'.variable_from_ptr s.variable_from_ptr := by
  intro s i s' h
  unfold decIntAux at h
  split at h
  · cases h
    exact List.Sublist.refl _
  · split at h
    · exact Except.noConfusion h
    · split at h
      · exact Except.noConfusion h
      · split at h
        · exact hg (decIntState s i) i s' h
        · cases h
          exact List.Sublist.refl _

/-- An external-reference drop only shrinks the pointer-to-id table,
provided the cleanup handler does. -/
theorem decExtAux_ptr_mono (g : State → Nat → Except JitErr State)
    (hg : ∀ s i s', g s i = .ok s' →
      List.Sublist s'.variable_from_ptr s.variable_from_ptr) :
    ∀ s i s', decExtAux g s i = .ok s' →
      List.Sublist s'.variable_from_ptr s.variable_from_ptr := by
  intro s i s' h
  unfold decExtAux at h
  split at h
  · cases h
    exact List.Sublist.refl _
  · split at h
    · exact Except.noConfusion h
    · split at h
      · exact Except.noConfusion h
      · rcases exceptBind_ok.mp h with ⟨s2, h2, h3⟩
        have hs2 : s2.variable_from_ptr = s.variable_from_ptr := by
          split at h2
          · split at h2
            · exact Except.noConfusion h2
            · cases h2
              rfl
          · cases h2
            rfl
        split at h3
        · have hm := hg _ _ _ h3
          rw [hs2] at hm
          exact hm
        · cases h3
          rw [hs2]

/-- The free cascade only shrinks the pointer-to-id table. -/
theorem freeVar_ptr_mono :
    ∀ fuel s i s', freeVar fuel s i = .ok s' →
      List.Sublist s'.variable_from_ptr s.variable_from_ptr := by
  intro fuel
  induction fuel with
  | zero =>
    intro s i s' h
    exact Except.noConfusion h
  | succ fuel ih =>
    intro s i s' h
    unfold freeVar at h
    split at h
    · exact Except.noConfusion h
    · rename_i v hv
      rcases exceptBind_ok.mp h with ⟨P, hP, h⟩
      have hPsub : List.Sublist P s.variable_from_ptr := by
        split at hP
        · split at hP
          · exact Except.noConfusion hP
          · cases hP
            exact aerase_sublist _ _
        · cases hP
          exact List.Sublist.refl _
      rcases exceptBind_ok.mp h with ⟨s4, h4, h⟩
      rcases exceptBind_ok.mp h with ⟨s5, h5, h⟩
      rcases exceptBind_ok.mp h with ⟨s6, h6, h7⟩
      have m4 := decIntAux_ptr_mono _ ih _ _ _ h4
      have m5 := decIntAux_ptr_mono _ ih _ _ _ h5
      have m6 := decIntAux_ptr_mono _ ih _ _ _ h6
      have m7 := decExtAux_ptr_mono _ ih _ _ _ h7
      exact (((m7.trans m6).trans m5).trans m4).trans hPsub

/-- A single evaluation step only shrinks the pointer-to-id table. -/
theorem evalVarStep_ptr_mono {fuel : Nat} {s : State} {i : Nat} {s' : State}
    (h : evalVarStep fuel s i = .ok s') :
    List.Sublist s'.variable_from_ptr s.variable_from_ptr := by
  unfold evalVarStep at h
  split at h
  · cases h
    exact List.Sublist.refl _
  · split at h
    · cases h
      exact List.Sublist.refl _
    · rcases exceptBind_ok.mp h with ⟨s2, h2, h⟩
      rcases exceptBind_ok.mp h with ⟨s3, h3, h⟩
      rcases exceptBind_ok.mp h with ⟨s4, h4, h5⟩
      have m2 := decIntAux_ptr_mono _ (freeVar_ptr_mono fuel) _ _ _ h2
      have m3 := decIntAux_ptr_mono _ (freeVar_ptr_mono fuel) _ _ _ h3
      have m4 := decIntAux_ptr_mono _ (freeVar_ptr_mono fuel) _ _ _ h4
      have m5 := decExtAux_ptr_mono _ (freeVar_ptr_mono fuel) _ _ _ h5
      exact ((m5.trans m4).trans m3).trans m2

/-- An evaluation loop only shrinks the pointer-to-id table. -/
theorem evalLoop_ptr_mono {fuel : Nat} : ∀ (todo : List Nat) (s s' : State),
    evalLoop fuel s todo = .ok s' →
    List.Sublist s'.variable_from_ptr s.variable_from_ptr := by
  intro todo
  induction todo with
  | nil =>
    intro s s' h
    cases h
    exact List.Sublist.refl _
  | cons i rest ih =>
    intro s s' h
    rcases exceptBind_ok.mp h with ⟨s1, h1, h2⟩
    exact (ih _ _ h2).trans (evalVarStep_ptr_mono h1)

/-- An evaluation pass only shrinks the pointer-to-id table. -/
theorem jit_eval_ptr_mono {s s' : State} (h : jit_eval s = .ok s') :
    List.Sublist s'.variable_from_ptr s.variable_from_ptr := by
  unfold jit_eval at h
  rcases exceptMap_ok.mp h with ⟨t, hcore, hep⟩
  subst hep
  show List.Sublist t.variable_from_ptr s.variable_from_ptr
  unfold jit_eval_core at hcore
  split at hcore
  · cases hcore
    exact List.Sublist.refl _
  · split at hcore
    · cases hcore
      exact List.Sublist.refl _
    · rcases exceptMap_ok.mp hcore with ⟨t1, hloop, hclear⟩
      subst hclear
      show List.Sublist t1.variable_from_ptr s.variable_from_ptr
      exact evalLoop_ptr_mono _ _ _ hloop

/-- C6 (amended): in single-stream executions every id in a pending set
is live with a positive external reference count, and an external drop
that takes a variable's count to zero leaves it in no pending set (it is
erased from the active stream's set, which covers every stream here). -/
theorem C6_pending {s : State} (h : ReachSS s) :
    TodoInv s ∧
    (∀ i s', stepOp s (.decRefExt i) = .ok s' → varExt s' i = 0 →
      ∀ q ∈ s'.streams, i ∉ q.2) := by
  have hinv := c6inv_reach h
  refine ⟨hinv.2.2, ?_⟩
  intro i s' hstep hz q hq hmem
  have hsso : singleStreamOp (.decRefExt i) = true := rfl
  have hinv2 := c6inv_step hsso hstep hinv
  have hpos := hinv2.2.2 q hq i hmem
  rw [hz] at hpos
  exact absurd hpos (Nat.lt_irrefl 0)

/-- Witness for C6 at a concrete input: from the single-stream state
`oneVarState` (variable 1 pending on stream 0 with one external
reference) the pending invariant holds, and dropping the reference leaves
id 1 in no pending set of the resulting state. -/
theorem C6_witness :
    TodoInv oneVarState ∧ 1 ∉ todoOf oneVarFreedState 0 := by
  have h1 : stepOp initState (.deviceSet 0) = .ok streamOnlyState := by decide
  have h2 : stepOp streamOnlyState (.append0 .Float32 "a") = .ok oneVarState := by
    decide
  have hr : ReachSS oneVarState :=
    ReachSS.step (ReachSS.step ReachSS.init (by decide) h1) (by decide) h2
  have hpend := C6_pending hr
  refine ⟨hpend.1, ?_⟩
  intro hmem
  have hstep : stepOp oneVarState (.decRefExt 1) = .ok oneVarFreedState := by decide
  have hz : varExt oneVarFreedState 1 = 0 := by decide
  have hq : (0, todoOf oneVarFreedState 0) ∈ oneVarFreedState.streams := by decide
  exact hpend.2 1 oneVarFreedState hstep hz _ hq hmem

/-- Variable-table updates preserving `direct_pointer`, `data` and
`extra_dep` preserve the table-invariant package. -/
theorem rinv_aupdate {s : State} {i : Nat} {f : Variable → Variable}
    (hdp : ∀ v, (f v).direct_pointer = v.direct_pointer)
    (hdata : ∀ v, (f v).data = v.data)
    (hed : ∀ v, (f v).extra_dep = v.extra_dep)
    (h : RInv s) : RInv { s with vars := aupdate s.vars i f } := by
  obtain ⟨hne, hvn, ⟨hud, hpo, hds⟩, hkn, hip, hkp, hpp⟩ := h
  have res : ∀ r : Nat × Variable, r ∈ aupdate s.vars i f →
      ∃ w, (r.1, w) ∈ s.vars ∧ w.direct_pointer = r.2.direct_pointer ∧
        w.data = r.2.data := by
    intro r hr
    rcases mem_aupdate hr with hm | ⟨hk, v, hv, hval⟩
    · exact ⟨r.2, hm, rfl, rfl⟩
    · exact ⟨v, by rw [hk]; exact hv, by rw [hval, hdp], by rw [hval, hdata]⟩
  refine ⟨?_, ?_, ⟨?_, ?_, ?_⟩, hkn, hip, hkp, hpp⟩
  · intro p hp
    rcases mem_aupdate hp with hm | ⟨_, v, hv, hval⟩
    · exact hne p hm
    · rw [hval, hed]
      exact hne (i, v) hv
  · show (List.map Prod.fst (aupdate s.vars i f)).Nodup
    rw [aupdate_keys]
    exact hvn
  · intro p hp q hq hdp2 hdq2 hdd
    obtain ⟨wp, hwp, hwp1, hwp2⟩ := res p hp
    obtain ⟨wq, hwq, hwq1, hwq2⟩ := res q hq
    exact hud (p.1, wp) hwp (q.1, wq) hwq (by rw [hwp1]; exact hdp2)
      (by rw [hwq1]; exact hdq2) (by rw [hwp2, hwq2]; exact hdd)
  · intro p hp hdp2
    obtain ⟨wp, hwp, hwp1, hwp2⟩ := res p hp
    have hown := hpo (p.1, wp) hwp (by rw [hwp1]; exact hdp2)
    show alookup s.variable_from_ptr (p.2.data.getD 0) = some p.1
    rw [← hwp2]
    exact hown
  · intro p hp hdp2
    obtain ⟨wp, hwp, hwp1, hwp2⟩ := res p hp
    have hsome := hds (p.1, wp) hwp (by rw [hwp1]; exact hdp2)
    show p.2.data ≠ none
    rw [← hwp2]
    exact hsome

/-- The CSE core preserves the table-invariant package when the tentative
node carries no extra-dep pin and is not a pointer literal. -/
theorem rinv_traceAppendVar {s : State} {v : Variable} {idx : Nat} {s' : State}
    (hved : v.extra_dep = 0) (hvdp : v.direct_pointer = false)
    (h : traceAppendVar s v = .ok (idx, s')) (hinv : RInv s) : RInv s' := by
  rcases traceAppendVar_cases h with ⟨_, rfl, _⟩ |
    ⟨hkey, hidx, hnone, hvrs, hkeys, hvidx, hstr, hact, hptr, hec⟩
  · exact hinv
  · obtain ⟨hne, hvn, ⟨hud, hpo, hds⟩, hkn, hip, hkp, hpp⟩ := hinv
    refine ⟨?_, ?_, ⟨?_, ?_, ?_⟩, ?_, ?_, ?_, ?_⟩
    · intro p hp
      rw [hvrs] at hp
      rcases List.mem_cons.mp hp with rfl | hm
      · exact hved
      · exact hne p hm
    · show (s'.vars.map Prod.fst).Nodup
      rw [hvrs, List.map_cons]
      exact List.nodup_cons.mpr ⟨key_not_mem_of_alookup_none hnone, hvn⟩
    · intro p hp q hq hdp2 hdq2 hdd
      rw [hvrs] at hp hq
      rcases List.mem_cons.mp hp with rfl | hp2
      · have hx : v.direct_pointer = true := hdp2
        rw [hvdp] at hx
        cases hx
      · rcases List.mem_cons.mp hq with rfl | hq2
        · have hx : v.direct_pointer = true := hdq2
          rw [hvdp] at hx
          cases hx
        · exact hud p hp2 q hq2 hdp2 hdq2 hdd
    · intro p hp hdp2
      rw [hvrs] at hp
      rcases List.mem_cons.mp hp with rfl | hp2
      · have hx : v.direct_pointer = true := hdp2
        rw [hvdp] at hx
        cases hx
      · show alookup s'.variable_from_ptr (p.2.data.getD 0) = some p.1
        rw [hptr]
        exact hpo p hp2 hdp2
    · intro p hp hdp2
      rw [hvrs] at hp
      rcases List.mem_cons.mp hp with rfl | hp2
      · have hx : v.direct_pointer = true := hdp2
        rw [hvdp] at hx
        cases hx
      · exact hds p hp2 hdp2
    · show (s'.variable_from_key.map Prod.fst).Nodup
      rw [hkeys, List.map_cons]
      exact List.nodup_cons.mpr ⟨key_not_mem_of_alookup_none hkey, hkn⟩
    · rw [hvidx]
      exact Nat.succ_pos _
    · intro p hp
      rw [hkeys] at hp
      rcases List.mem_cons.mp hp with rfl | hm
      · show idx ≠ 0
        rw [hidx]
        exact Nat.pos_iff_ne_zero.mp hip
      · exact hkp p hm
    · intro p hp
      rw [hptr] at hp
      exact hpp p hp

/-- The common trace-append tail preserves the table-invariant package
for a non-pointer tentative node. -/
theorem rinv_appendCommit {s2 : State} {vv : Variable} {sid idx : Nat} {s' : State}
    (hved : vv.extra_dep = 0) (hvdp : vv.direct_pointer = false)
    (h : appendCommit s2 vv sid = .ok (idx, s')) (hinv : RInv s2) : RInv s' := by
  obtain ⟨s3, hta, rfl⟩ := appendCommit_cases h
  have h3 := rinv_traceAppendVar hved hvdp hta hinv
  have h4 : RInv (bumpExt s3 idx) :=
    rinv_aupdate (fun v => rfl) (fun v => rfl) (fun v => rfl) h3
  exact ⟨h4.ned, h4.vnd, h4.pinv, h4.knd, h4.ipos, h4.kpos, h4.ppos⟩

/-- An evaluation pass preserves the table-invariant package. -/
theorem rinv_eval {s s' : State} (h : jit_eval s = .ok s') (hinv : RInv s) :
    RInv s' := by
  obtain ⟨hact, hvidx, -, -, hkeysub, hvarssub, -, hpinv, hpack⟩ := jit_eval_main h
  obtain ⟨hne2, -, -, -⟩ := hpack hinv.ned
  refine ⟨hne2, List.Nodup.sublist hvarssub hinv.vnd, hpinv hinv.vnd hinv.pinv,
    List.Nodup.sublist (hkeysub.map Prod.fst) hinv.knd, ?_, ?_, ?_⟩
  · rw [hvidx]
    exact hinv.ipos
  · intro p hp
    exact hinv.kpos p (hkeysub.subset hp)
  · intro p hp
    exact hinv.ppos p ((jit_eval_ptr_mono h).subset hp)

/-- An external-reference drop preserves the table-invariant package. -/
theorem rinv_dec_ref_ext {s s' : State} {i : Nat}
    (h : jit_dec_ref_ext s i = .ok s') (hinv : RInv s) : RInv s' := by
  unfold jit_dec_ref_ext decExtAux at h
  split at h
  · cases h
    exact hinv
  · split at h
    · exact Except.noConfusion h
    · rename_i v hv
      split at h
      · exact Except.noConfusion h
      · rcases exceptBind_ok.mp h with ⟨s2, h2, h3⟩
        have hbase : RInv (decExtState s i) :=
          rinv_aupdate (fun v => rfl) (fun v => rfl) (fun v => rfl) hinv
        have hs2 : RInv s2 ∧ s2.vars = aupdate s.vars i decExtF := by
          split at h2
          · split at h2
            · exact Except.noConfusion h2
            · cases h2
              exact ⟨⟨hbase.ned, hbase.vnd, hbase.pinv, hbase.knd, hbase.ipos,
                hbase.kpos, hbase.ppos⟩, rfl⟩
          · cases h2
            exact ⟨hbase, rfl⟩
        obtain ⟨hinv2, hvars2⟩ := hs2
        split at h3
        · rename_i hcc
          have hpre : ExtZeroPre s2 i := by
            intro w hw
            rw [hvars2, alookup_aupdate_self, hv] at hw
            have hwe : decExtF v = w := Option.some.inj hw
            rw [← hwe]
            exact hcc.1
          have hq := freeVar_cascQ _ _ _ _ hpre h3
          have hee : ExtEvo s2 s' := hq.2.2.2 hinv2.ned
          refine ⟨hee.next, List.Nodup.sublist hq.1.varsSub hinv2.vnd,
            hq.2.2.1 hinv2.pinv,
            List.Nodup.sublist (hq.1.keySub.map Prod.fst) hinv2.knd, ?_, ?_, ?_⟩
          · rw [hq.1.index]
            exact hinv2.ipos
          · intro p hp
            exact hinv2.kpos p (hq.1.keySub.subset hp)
          · intro p hp
            exact hinv2.ppos p ((freeVar_ptr_mono _ _ _ _ h3).subset hp)
        · cases h3
          exact hinv2

/-- An external-reference bump preserves the table-invariant package. -/
theorem rinv_inc_ref_ext {s s' : State} {i : Nat}
    (h : jit_inc_ref_ext s i = .ok s') (hinv : RInv s) : RInv s' := by
  unfold jit_inc_ref_ext at h
  split at h
  · cases h
    exact hinv
  · rcases exceptBind_ok.mp h with ⟨v, hv, h2⟩
    cases h2
    exact rinv_aupdate (fun v => rfl) (fun v => rfl) (fun v => rfl) hinv

/-- A 1-operand trace append preserves the table-invariant package. -/
theorem rinv_append1 {s : State} {t : EnokiType} {st : String} {a1 idx : Nat}
    {s1 : State} (h : jit_trace_append1 s t st a1 = .ok (idx, s1))
    (hinv : RInv s) : RInv s1 := by
  unfold jit_trace_append1 at h
  cases hact : s.activeStream with
  | none => rw [hact] at h; cases h
  | some sid =>
    simp only [hact] at h
    by_cases hz : a1 = 0
    · rw [if_pos hz] at h; cases h
    · rw [if_neg hz] at h
      rcases exceptBind_ok.mp h with ⟨v1, hv1, h⟩
      rcases exceptBind_ok.mp h with ⟨p, hp, hcommit⟩
      obtain ⟨sm, vv⟩ := p
      by_cases hd : v1.dirty
      · rw [if_pos hd] at hp
        rcases exceptBind_ok.mp hp with ⟨se, he, hp⟩
        rcases exceptMap_ok.mp hp with ⟨w1, hw1, hpair⟩
        injection hpair with hs hvv
        subst hs
        subst hvv
        exact rinv_appendCommit rfl rfl hcommit
          (rinv_aupdate (fun v => rfl) (fun v => rfl) (fun v => rfl)
            (rinv_eval he hinv))
      · rw [if_neg hd] at hp
        injection hp with hpair
        injection hpair with hs hvv
        subst hs
        subst hvv
        exact rinv_appendCommit rfl rfl hcommit
          (rinv_aupdate (fun v => rfl) (fun v => rfl) (fun v => rfl) hinv)

/-- A 2-operand trace append preserves the table-invariant package. -/
theorem rinv_append2 {s : State} {t : EnokiType} {st : String} {a1 a2 idx : Nat}
    {s1 : State} (h : jit_trace_append2 s t st a1 a2 = .ok (idx, s1))
    (hinv : RInv s) : RInv s1 := by
  unfold jit_trace_append2 at h
  cases hact : s.activeStream with
  | none => rw [hact] at h; cases h
  | some sid =>
    simp only [hact] at h
    by_cases hz : a1 = 0 ∨ a2 = 0
    · rw [if_pos hz] at h; cases h
    · rw [if_neg hz] at h
      rcases exceptBind_ok.mp h with ⟨v1, hv1, h⟩
      rcases exceptBind_ok.mp h with ⟨v2, hv2, h⟩
      rcases exceptBind_ok.mp h with ⟨p, hp, hcommit⟩
      obtain ⟨sm, vv⟩ := p
      by_cases hmis : (v1.size ≠ 1 ∧ v1.size ≠ max v1.size v2.size) ∨
          (v2.size ≠ 1 ∧ v2.size ≠ max v1.size v2.size)
      · rw [if_pos hmis] at hp; cases hp
      · rw [if_neg hmis] at hp
        by_cases hd : v1.dirty ∨ v2.dirty
        · rw [if_pos hd] at hp
          rcases exceptBind_ok.mp hp with ⟨se, he, hp⟩
          rcases exceptBind_ok.mp hp with ⟨w1, hw1, hp⟩
          rcases exceptMap_ok.mp hp with ⟨w2, hw2, hpair⟩
          injection hpair with hs hvv
          subst hs
          subst hvv
          refine rinv_appendCommit rfl rfl hcommit ?_
          exact rinv_aupdate (fun v => rfl) (fun v => rfl) (fun v => rfl)
            (rinv_aupdate (fun v => rfl) (fun v => rfl) (fun v => rfl)
              (rinv_eval he hinv))
        · rw [if_neg hd] at hp
          injection hp with hpair
          injection hpair with hs hvv
          subst hs
          subst hvv
          refine rinv_appendCommit rfl rfl hcommit ?_
          exact rinv_aupdate (fun v => rfl) (fun v => rfl) (fun v => rfl)
            (rinv_aupdate (fun v => rfl) (fun v => rfl) (fun v => rfl) hinv)

/-- A 3-operand trace append preserves the table-invariant package. -/
theorem rinv_append3 {s : State} {t : EnokiType} {st : String} {a1 a2 a3 idx : Nat}
    {s1 : State} (h : jit_trace_append3 s t st a1 a2 a3 = .ok (idx, s1))
    (hinv : RInv s) : RInv s1 := by
  unfold jit_trace_append3 at h
  cases hact : s.activeStream with
  | none => rw [hact] at h; cases h
  | some sid =>
    simp only [hact] at h
    by_cases hz : a1 = 0 ∨ a2 = 0 ∨ a3 = 0
    · rw [if_pos hz] at h; cases h
    · rw [if_neg hz] at h
      rcases exceptBind_ok.mp h with ⟨v1, hv1, h⟩
      rcases exceptBind_ok.mp h with ⟨v2, hv2, h⟩
      rcases exceptBind_ok.mp h with ⟨v3, hv3, h⟩
      rcases exceptBind_ok.mp h with ⟨p, hp, hcommit⟩
      obtain ⟨sm, vv⟩ := p
      by_cases hmis :
          (v1.size ≠ 1 ∧ v1.size ≠ max (max v1.size v2.size) v3.size) ∨
          (v2.size ≠ 1 ∧ v2.size ≠ max (max v1.size v2.size) v3.size) ∨
          (v3.size ≠ 1 ∧ v3.size ≠ max (max v1.size v2.size) v3.size)
      · rw [if_pos hmis] at hp; cases hp
      · rw [if_neg hmis] at hp
        by_cases hd : v1.dirty ∨ v2.dirty ∨ v3.dirty
        · rw [if_pos hd] at hp
          rcases exceptBind_ok.mp hp with ⟨se, he, hp⟩
          rcases exceptBind_ok.mp hp with ⟨w1, hw1, hp⟩
          rcases exceptBind_ok.mp hp with ⟨w2, hw2, hp⟩
          rcases exceptMap_ok.mp hp with ⟨w3, hw3, hpair⟩
          injection hpair with hs hvv
          subst hs
          subst hvv
          refine rinv_appendCommit rfl rfl hcommit ?_
          exact rinv_aupdate (fun v => rfl) (fun v => rfl) (fun v => rfl)
            (rinv_aupdate (fun v => rfl) (fun v => rfl) (fun v => rfl)
              (rinv_aupdate (fun v => rfl) (fun v => rfl) (fun v => rfl)
                (rinv_eval he hinv)))
        · rw [if_neg hd] at hp
          injection hp with hpair
          injection hpair with hs hvv
          subst hs
          subst hvv
          refine rinv_appendCommit rfl rfl hcommit ?_
          exact rinv_aupdate (fun v => rfl) (fun v => rfl) (fun v => rfl)
            (rinv_aupdate (fun v => rfl) (fun v => rfl) (fun v => rfl)
              (rinv_aupdate (fun v => rfl) (fun v => rfl) (fun v => rfl) hinv))

/-- Registering a pointer literal preserves the table-invariant
package. -/
theorem rinv_register_ptr {s : State} {ptr idx : Nat} {s1 : State}
    (h : jit_var_register_ptr s ptr = .ok (idx, s1)) (hinv : RInv s) : RInv s1 := by
  unfold jit_var_register_ptr at h
  cases hmiss : alookup s.variable_from_ptr ptr with
  | some j =>
    simp only [hmiss] at h
    rcases exceptMap_ok.mp h with ⟨s2, hinc, hpair⟩
    injection hpair with hidx hs1
    subst hs1
    exact rinv_inc_ref_ext hinc hinv
  | none =>
    simp only [hmiss] at h
    rcases exceptBind_ok.mp h with ⟨q, hq, hok⟩
    obtain ⟨idx2, s2⟩ := q
    injection hok with hpair
    injection hpair with hidx hs1
    subst hs1
    obtain ⟨hne, hvn, ⟨hud, hpo, hds⟩, hkn, hip, hkp, hpp⟩ := hinv
    rcases traceAppendVar_cases hq with ⟨hkey, rfl, hsome⟩ |
      ⟨hkey, hidx2, hnone, hvrs, hkeys, hvidx, hstr, hact, hptr, hec⟩
    · -- CSE reuse of an existing node: only the ref bump and the table insert
      have hb : RInv (bumpExt s2 idx2) :=
        rinv_aupdate (fun v => rfl) (fun v => rfl) (fun v => rfl)
          ⟨hne, hvn, ⟨hud, hpo, hds⟩, hkn, hip, hkp, hpp⟩
      refine ⟨hb.ned, hb.vnd, ⟨hb.pinv.1, ?_, hb.pinv.2.2⟩, hb.knd, hb.ipos,
        hb.kpos, ?_⟩
      · intro p hp hdp2
        have hown : alookup s2.variable_from_ptr (p.2.data.getD 0) = some p.1 :=
          hb.pinv.2.1 p hp hdp2
        show alookup (ainsert s2.variable_from_ptr ptr idx2) (p.2.data.getD 0) =
          some p.1
        by_cases haddr : p.2.data.getD 0 = ptr
        · rw [haddr] at hown
          rw [hmiss] at hown
          cases hown
        · rw [alookup_ainsert_ne haddr]
          exact hown
      · intro p hp
        have hp2 : p ∈ (ptr, idx2) :: aerase s2.variable_from_ptr ptr := hp
        rcases List.mem_cons.mp hp2 with rfl | hm
        · show idx2 ≠ 0
          exact hkp _ (mem_of_alookup hkey)
        · exact hpp p (mem_aerase hm).1
    · -- fresh pointer literal
      have res : ∀ r : Nat × Variable, r ∈ (bumpExt s2 idx2).vars →
          (r ∈ s.vars ∧ r.1 ≠ idx2) ∨
          (r.1 = idx2 ∧ r.2.direct_pointer = true ∧ r.2.data = some ptr ∧
            r.2.extra_dep = 0) := by
        intro r hr
        have hr2 : r ∈ aupdate s2.vars idx2 incExtF := hr
        rcases mem_aupdate_strong hr2 with ⟨hm, hne2⟩ | ⟨hk, v0, hv0, hval⟩
        · rw [hvrs] at hm
          rcases List.mem_cons.mp hm with rfl | hm2
          · exact absurd rfl hne2
          · exact Or.inl ⟨hm2, hne2⟩
        · rw [hvrs] at hv0
          rcases List.mem_cons.mp hv0 with he | hm2
          · injection he with he1 he2
            refine Or.inr ⟨hk, ?_, ?_, ?_⟩ <;> rw [hval, he2] <;> rfl
          · exact absurd hm2 (not_mem_of_alookup_none hnone v0)
      refine ⟨?_, ?_, ⟨?_, ?_, ?_⟩, ?_, ?_, ?_, ?_⟩
      · intro p hp
        rcases res p hp with ⟨hm, _⟩ | ⟨_, _, _, hz⟩
        · exact hne p hm
        · exact hz
      · show ((aupdate s2.vars idx2 incExtF).map Prod.fst).Nodup
        rw [aupdate_keys, hvrs, List.map_cons]
        exact List.nodup_cons.mpr ⟨key_not_mem_of_alookup_none hnone, hvn⟩
      · intro p hp q hq hdp2 hdq2 hdd
        rcases res p hp with ⟨hmp, _⟩ | ⟨hkp2, _, hdatap, _⟩
        · rcases res q hq with ⟨hmq, _⟩ | ⟨hkq2, _, hdataq, _⟩
          · exact hud p hmp q hmq hdp2 hdq2 hdd
          · exfalso
            have hown := hpo p hmp hdp2
            rw [hdd, hdataq] at hown
            have hown2 : alookup s.variable_from_ptr ptr = some p.1 := hown
            rw [hmiss] at hown2
            cases hown2
        · rcases res q hq with ⟨hmq, _⟩ | ⟨hkq2, _, hdataq, _⟩
          · exfalso
            have hown := hpo q hmq hdq2
            rw [← hdd, hdatap] at hown
            have hown2 : alookup s.variable_from_ptr ptr = some q.1 := hown
            rw [hmiss] at hown2
            cases hown2
          · rw [hkp2, hkq2]
      · intro p hp hdp2
        show alookup (ainsert s2.variable_from_ptr ptr idx2) (p.2.data.getD 0) =
          some p.1
        rcases res p hp with ⟨hmp, _⟩ | ⟨hkp2, _, hdatap, _⟩
        · have hown := hpo p hmp hdp2
          by_cases haddr : p.2.data.getD 0 = ptr
          · rw [haddr] at hown
            rw [hmiss] at hown
            cases hown
          · rw [hptr, alookup_ainsert_ne haddr]
            exact hown
        · rw [hdatap]
          show alookup (ainsert s2.variable_from_ptr ptr idx2) ptr = some p.1
          rw [alookup_ainsert_self, hkp2]
      · intro p hp hdp2
        rcases res p hp with ⟨hmp, _⟩ | ⟨_, _, hdatap, _⟩
        · exact hds p hmp hdp2
        · rw [hdatap]
          exact Option.noConfusion
      · show ((bumpExt s2 idx2).variable_from_key.map Prod.fst).Nodup
        rw [show (bumpExt s2 idx2).variable_from_key = s2.variable_from_key
          from rfl, hkeys, List.map_cons]
        exact List.nodup_cons.mpr ⟨key_not_mem_of_alookup_none hkey, hkn⟩
      · show 0 < (bumpExt s2 idx2).variable_index
        rw [show (bumpExt s2 idx2).variable_index = s2.variable_index from rfl,
          hvidx]
        exact Nat.succ_pos _
      · intro p hp
        have hp2 : p ∈ s2.variable_from_key := hp
        rw [hkeys] at hp2
        rcases List.mem_cons.mp hp2 with rfl | hm
        · show idx2 ≠ 0
          rw [hidx2]
          exact Nat.pos_iff_ne_zero.mp hip
        · exact hkp p hm
      · intro p hp
        have hp2 : p ∈ (ptr, idx2) :: aerase s2.variable_from_ptr ptr := hp
        rcases List.mem_cons.mp hp2 with rfl | hm
        · show idx2 ≠ 0
          rw [hidx2]
          exact Nat.pos_iff_ne_zero.mp hip
        · have hm2 := (mem_aerase hm).1
          rw [hptr] at hm2
          exact hpp p hm2

/-- Every API step preserves the table-invariant package. -/
theorem rinv_step {s s' : State} {o : Op} (h : stepOp s o = .ok s')
    (hinv : RInv s) : RInv s' := by
  cases o with
  | append0 t st =>
    rcases exceptMap_ok.mp h with ⟨p, hp, hsnd⟩
    obtain ⟨idx, s1⟩ := p
    subst hsnd
    unfold jit_trace_append0 at hp
    cases hact : s.activeStream with
    | none => rw [hact] at hp; cases hp
    | some sid =>
      simp only [hact] at hp
      exact rinv_appendCommit rfl rfl hp hinv
  | append1 t st a1 =>
    rcases exceptMap_ok.mp h with ⟨p, hp, hsnd⟩
    obtain ⟨idx, s1⟩ := p
    subst hsnd
    exact rinv_append1 hp hinv
  | append2 t st a1 a2 =>
    rcases exceptMap_ok.mp h with ⟨p, hp, hsnd⟩
    obtain ⟨idx, s1⟩ := p
    subst hsnd
    exact rinv_append2 hp hinv
  | append3 t st a1 a2 a3 =>
    rcases exceptMap_ok.mp h with ⟨p, hp, hsnd⟩
    obtain ⟨idx, s1⟩ := p
    subst hsnd
    exact rinv_append3 hp hinv
  | register t ptr sz fr =>
    rcases exceptMap_ok.mp h with ⟨p, hp, hsnd⟩
    obtain ⟨idx, s1⟩ := p
    subst hsnd
    unfold jit_var_register at hp
    split at hp
    · exact Except.noConfusion hp
    · rcases exceptBind_ok.mp hp with ⟨q, hq, hok⟩
      obtain ⟨idx2, s2⟩ := q
      injection hok with hpair
      injection hpair with hidx hs1
      subst hs1
      exact rinv_aupdate (fun v => rfl) (fun v => rfl) (fun v => rfl)
        (rinv_traceAppendVar rfl rfl hq hinv)
  | registerPtr ptr =>
    rcases exceptMap_ok.mp h with ⟨p, hp, hsnd⟩
    obtain ⟨idx, s1⟩ := p
    subst hsnd
    exact rinv_register_ptr hp hinv
  | setSize i sz c =>
    rcases exceptMap_ok.mp h with ⟨p, hp, hsnd⟩
    obtain ⟨idx, s1⟩ := p
    subst hsnd
    unfold jit_var_set_size at hp
    rcases exceptBind_ok.mp hp with ⟨v, hv, hp⟩
    by_cases hsz : v.size = sz
    · rw [if_pos hsz] at hp
      injection hp with hpair
      injection hpair with hidx hs1
      subst hs1
      exact hinv
    · rw [if_neg hsz] at hp
      by_cases hmat : v.data ≠ none ∨ 0 < v.ref_count_int
      · rw [if_pos hmat] at hp
        by_cases hguard : v.size = 1 ∧ c = true
        · rw [if_pos hguard] at hp
          rcases exceptBind_ok.mp hp with ⟨q, hq, hp⟩
          obtain ⟨idxN, sm⟩ := q
          rcases exceptMap_ok.mp hp with ⟨s3, hdec, hpair⟩
          injection hpair with hidx hs1
          subst hs1
          have h1 := rinv_append1 hq hinv
          have h2 : RInv { sm with vars := aupdate sm.vars idxN (fun u => { u with size := sz }) } :=
            rinv_aupdate (fun v => rfl) (fun v => rfl) (fun v => rfl) h1
          exact rinv_dec_ref_ext hdec h2
        · rw [if_neg hguard] at hp
          exact Except.noConfusion hp
      · rw [if_neg hmat] at hp
        injection hp with hpair
        injection hpair with hidx hs1
        subst hs1
        exact rinv_aupdate (fun v => rfl) (fun v => rfl) (fun v => rfl) hinv
  | setLabel i lbl =>
    rcases exceptMap_ok.mp h with ⟨v, hv, hs1⟩
    subst hs1
    exact rinv_aupdate (fun v => rfl) (fun v => rfl) (fun v => rfl) hinv
  | markSideEffect i =>
    rcases exceptMap_ok.mp h with ⟨v, hv, hs1⟩
    subst hs1
    exact rinv_aupdate (fun v => rfl) (fun v => rfl) (fun v => rfl) hinv
  | markDirty i =>
    rcases exceptMap_ok.mp h with ⟨v, hv, hs1⟩
    subst hs1
    exact rinv_aupdate (fun v => rfl) (fun v => rfl) (fun v => rfl) hinv
  | incRefExt i => exact rinv_inc_ref_ext h hinv
  | decRefExt i => exact rinv_dec_ref_ext h hinv
  | evalOp => exact rinv_eval h hinv
  | deviceSet sid =>
    have h2 : jit_device_set s sid = .ok s' := h
    unfold jit_device_set at h2
    split at h2
    · cases h2
      exact ⟨hinv.ned, hinv.vnd, hinv.pinv, hinv.knd, hinv.ipos, hinv.kpos,
        hinv.ppos⟩
    · cases h2
      exact ⟨hinv.ned, hinv.vnd, hinv.pinv, hinv.knd, hinv.ipos, hinv.kpos,
        hinv.ppos⟩

/-- Every reachable state satisfies the table-invariant package. -/
theorem rinv_reach {s : State} (h : Reach s) : RInv s := by
  induction h with
  | init =>
    refine ⟨?_, ?_, ⟨?_, ?_, ?_⟩, ?_, ?_, ?_, ?_⟩
    · intro p hp
      cases hp
    · exact List.nodup_nil
    · intro p hp
      cases hp
    · intro p hp
      cases hp
    · intro p hp
      cases hp
    · exact List.nodup_nil
    · exact Nat.one_pos
    · intro p hp
      cases hp
    · intro p hp
      cases hp
  | step hr hstep ih => exact rinv_step hstep ih

/-- C8 counterexample: two pointer registrations at the distinct
addresses 7 and 9 end up sharing the single pointer-literal variable 1
(the second call misses the pointer table but CSE-hits the first node's
tuple, since the address is not part of the CSE key); after variable 1 is
freed, address 9 is still mapped in the pointer-to-id table while its
variable is gone, so the free removed only the variable's own address 7. -/
theorem C8_counterexample :
    runOps initState ptrDualOps = .ok ptrDualState ∧
    alookup ptrDualState.variable_from_ptr 7 = some 1 ∧
    alookup ptrDualState.variable_from_ptr 9 = some 1 ∧
    ((alookup ptrDualState.vars 1).map Variable.data).getD none = some 7 ∧
    ((alookup ptrDualState.vars 1).map Variable.direct_pointer).getD false = true ∧
    runOps ptrDualState [.decRefExt 1, .decRefExt 1] = .ok ptrCollideState ∧
    alookup ptrCollideState.vars 1 = none ∧
    alookup ptrCollideState.variable_from_ptr 9 = some 1 := by
  decide

/-- C8 (amended): in every reachable state at most one live
pointer-literal variable exists per data address; `jit_var_register_ptr`
on an address whose mapped variable is still live returns that same id
with its external count incremented by one; and `jit_var_free` on a
pointer-literal variable removes the variable's own address from the
pointer-to-id table (other addresses mapped to the same variable by CSE
reuse may remain). -/
theorem C8_register_ptr {s : State} (h : Reach s) :
    UniqDirect s ∧
    (∀ ptr idx, alookup s.variable_from_ptr ptr = some idx →
      (alookup s.vars idx).isSome = true →
      jit_var_register_ptr s ptr = .ok (idx, bumpExt s idx) ∧
      varExt (bumpExt s idx) idx = varExt s idx + 1) ∧
    (∀ i v fuel s2, alookup s.vars i = some v → v.direct_pointer = true →
      freeVar fuel s i = .ok s2 →
      alookup s2.variable_from_ptr (v.data.getD 0) = none) := by
  have hinv := rinv_reach h
  refine ⟨hinv.pinv.1, ?_, ?_⟩
  · intro ptr idx hlk hlive
    have hidx0 : idx ≠ 0 := hinv.ppos (ptr, idx) (mem_of_alookup hlk)
    constructor
    · unfold jit_var_register_ptr
      simp only [hlk]
      unfold jit_inc_ref_ext
      rw [if_neg hidx0]
      cases hlk2 : alookup s.vars idx with
      | none =>
        rw [hlk2] at hlive
        cases hlive
      | some w =>
        show ((jitVarLk s idx >>= fun _ => .ok (bumpExt s idx)).map
          (fun s1 => (idx, s1))) = .ok (idx, bumpExt s idx)
        unfold jitVarLk
        rw [hlk2]
        rfl
    · exact varExt_bumpExt_self hlive
  · intro i v fuel s2 hv hdp hfree
    cases fuel with
    | zero => exact Except.noConfusion hfree
    | succ fuel =>
      unfold freeVar at hfree
      simp only [hv] at hfree
      rw [if_pos hdp] at hfree
      cases hpt : alookup s.variable_from_ptr (v.data.getD 0) with
      | none =>
        rw [hpt] at hfree
        exact Except.noConfusion hfree
      | some j =>
        rw [hpt] at hfree
        rw [exceptOkBind] at hfree
        rcases exceptBind_ok.mp hfree with ⟨s4, h4, hfree⟩
        rcases exceptBind_ok.mp hfree with ⟨s5, h5, hfree⟩
        rcases exceptBind_ok.mp hfree with ⟨s6, h6, h7⟩
        have hbase : alookup (freeEraseState s i v
            (aerase s.variable_from_ptr (v.data.getD 0))).variable_from_ptr
            (v.data.getD 0) = none := alookup_aerase_self
        have m4 := decIntAux_ptr_mono _ (freeVar_ptr_mono fuel) _ _ _ h4
        have m5 := decIntAux_ptr_mono _ (freeVar_ptr_mono fuel) _ _ _ h5
        have m6 := decIntAux_ptr_mono _ (freeVar_ptr_mono fuel) _ _ _ h6
        have m7 := decExtAux_ptr_mono _ (freeVar_ptr_mono fuel) _ _ _ h7
        exact alookup_none_of_sublist (((m7.trans m6).trans m5).trans m4) hbase

/-- Witness for C8 at a concrete input: registering address 7 again in
`onePtrState` (whose pointer-literal variable 1 is live) returns the same
id 1 with the external count bumped from 1 to 2. -/
theorem C8_witness :
    jit_var_register_ptr onePtrState 7 = .ok (1, bumpExt onePtrState 1) ∧
    varExt (bumpExt onePtrState 1) 1 = varExt onePtrState 1 + 1 := by
  have h1 : stepOp initState (.registerPtr 7) = .ok onePtrState := by decide
  have hr : Reach onePtrState := Reach.step Reach.init h1
  exact (C8_register_ptr hr).2.1 7 1 (by decide) (by decide)

/-- C3 (amended): in every reachable state the CSE table holds at most
one entry per tuple, and the CSE core reuses precisely the node the table
maps the tentative tuple to (live, whether or not its data is
materialized), allocating the next fresh id exactly on a table miss. -/
theorem C3_cse {s : State} (h : Reach s) :
    KeyNodup s ∧
    (∀ v idx s', traceAppendVar s v = .ok (idx, s') →
      (alookup s.variable_from_key (keyOfVar v) = some idx ∧ s' = s ∧
        (alookup s.vars idx).isSome = true) ∨
      (alookup s.variable_from_key (keyOfVar v) = none ∧
        idx = s.variable_index)) := by
  have hinv := rinv_reach h
  refine ⟨hinv.knd, ?_⟩
  intro v idx s' hta
  rcases traceAppendVar_cases hta with ⟨hkey, rfl, hsome⟩ |
    ⟨hkey, hidx, _, _, _, _, _, _, _, _⟩
  · exact Or.inl ⟨hkey, rfl, hsome⟩
  · exact Or.inr ⟨hkey, hidx⟩

/-- Witness for C3 at a concrete input: in `oneVarState` the CSE table is
duplicate-free and a repeat of the append that created variable 1
CSE-reuses exactly id 1, which is live. -/
theorem C3_witness :
    KeyNodup oneVarState ∧
    ((alookup oneVarState.variable_from_key (keyOfVar cseProbeVar) = some 1 ∧
      oneVarState = oneVarState ∧
      (alookup oneVarState.vars 1).isSome = true) ∨
     (alookup oneVarState.variable_from_key (keyOfVar cseProbeVar) = none ∧
      1 = oneVarState.variable_index)) := by
  have h1 : stepOp initState (.deviceSet 0) = .ok streamOnlyState := by decide
  have h2 : stepOp streamOnlyState (.append0 .Float32 "a") = .ok oneVarState := by
    decide
  have hr : Reach oneVarState := Reach.step (Reach.step Reach.init h1) h2
  have hc := C3_cse hr
  exact ⟨hc.1, hc.2 cseProbeVar 1 oneVarState (by decide)⟩

/-- Witness for C7 at a concrete input: the registered scalar in
`resizableState` (no data, no internal references) is resized in place
from 1 to 4, keeping id 1. -/
theorem C7_witness :
    jit_var_set_size resizableState 1 4 false = .ok (1, inPlaceResize resizableState 1 4) ∧
    varSize (inPlaceResize resizableState 1 4) 1 = 4 := by
  exact (C7_set_size (Eq.refl (jitVarLk resizableState 1)) (by decide)).2.1 rfl rfl

end EnokiJit
